import Mathlib

/-!
# Oregon Scientific message decoding: CUL preprocessor and Oregon parser

A shallow embedding of `cul_preprocessor.c` and `oregon_parser.c`.

Conventions of the embedding:

* A C string is the list of its characters before the terminating NUL
  (`List Char`); `strlen` is `List.length`.
* A `const uint8_t*` is a function `Nat → Nat` from index to byte value.
* `int` values are `Int`, `uint8_t`/`uint16_t`/`uint32_t`/`size_t` values are `Nat`
  with an explicit `% 2^w` where the source narrows.
* `float`/`double` values are rationals (`ℚ`); rounding is not modelled.
* `malloc`/`calloc` are taken to succeed.
* In the part with bounds-checked reads a payload is the list of the bytes that were
  stored, and a read at an index outside it gives `none`.
-/

set_option autoImplicit false
set_option maxRecDepth 100000

namespace Oregon

/-! ## cul_preprocessor.c -/

/-- What a `char*`-returning decoder hands back: `NULL`, a heap string, or
nothing defined because a fixed-size stack buffer was written past its end. -/
inductive CResult where
  /-- the function returns `NULL` -/
  | null : CResult
  /-- the function returns a string with these characters -/
  | str (s : List Char) : CResult
  /-- a `strcat`/`sprintf` ran past the end of a fixed-size stack buffer -/
  | overrun : CResult
  deriving DecidableEq, Repr

/-- `hex_char_to_bin`: the 4-character binary string of a hex digit, `NULL` otherwise. -/
def hex_char_to_bin (c : Char) : Option (List Char) :=
  if c = '0' then some "0000".toList
  else if c = '1' then some "0001".toList
  else if c = '2' then some "0010".toList
  else if c = '3' then some "0011".toList
  else if c = '4' then some "0100".toList
  else if c = '5' then some "0101".toList
  else if c = '6' then some "0110".toList
  else if c = '7' then some "0111".toList
  else if c = '8' then some "1000".toList
  else if c = '9' then some "1001".toList
  else if c = 'a' ∨ c = 'A' then some "1010".toList
  else if c = 'b' ∨ c = 'B' then some "1011".toList
  else if c = 'c' ∨ c = 'C' then some "1100".toList
  else if c = 'd' ∨ c = 'D' then some "1101".toList
  else if c = 'e' ∨ c = 'E' then some "1110".toList
  else if c = 'f' ∨ c = 'F' then some "1111".toList
  else none

/-- `strtol(s, NULL, 2)` on the strings the decoders pass (no leading blank or
sign): the value of the longest prefix of binary digits, accumulated left to right. -/
def strtol2 : List Char → Nat → Nat
  | [], acc => acc
  | c :: cs, acc =>
    if c = '0' then strtol2 cs (2 * acc)
    else if c = '1' then strtol2 cs (2 * acc + 1)
    else acc

/-- `bin_str_to_byte`: `(uint8_t)strtol(bin_str, NULL, 2)`. -/
def bin_str_to_byte (bin_str : List Char) : Nat :=
  strtol2 bin_str 0 % 256

/-- `raw_hex_to_bit_string`: the loop appends `hex_char_to_bin(hex[i])` for each
character and gives up (`NULL`) at the first character that has none. -/
def raw_hex_to_bit_string : List Char → Option (List Char)
  | [] => some []
  | c :: cs =>
    match hex_char_to_bin c with
    | none => none
    | some bin =>
      match raw_hex_to_bit_string cs with
      | none => none
      | some rest => some (bin ++ rest)

/-- `strstr(haystack, needle)`: the offset of the first occurrence of `needle`. -/
def strstr (haystack needle : List Char) : Option Nat :=
  match haystack with
  | [] => if needle = [] then some 0 else none
  | c :: cs =>
    if needle.isPrefixOf (c :: cs) then some 0
    else (strstr cs needle).map (· + 1)

/-- Upper-case hex digit of a value below 16 (the `X` conversion). -/
def hex_digit_upper (d : Nat) : Char :=
  "0123456789ABCDEF".toList.getD d '0'

/-- Lower-case hex digit of a value below 16 (the `x` conversion). -/
def hex_digit_lower (d : Nat) : Char :=
  "0123456789abcdef".toList.getD d '0'

/-- Digits of `v` in base `base`, most significant first, prepended to `acc`;
`fuel` bounds the number of digits produced. -/
def digits_aux (digit : Nat → Char) (base : Nat) : Nat → Nat → List Char → List Char
  | 0, _, acc => acc
  | fuel + 1, v, acc =>
    if v / base = 0 then digit (v % base) :: acc
    else digits_aux digit base fuel (v / base) (digit (v % base) :: acc)

/-- Zero padding on the left up to `width` characters. -/
def pad_zero (width : Nat) (s : List Char) : List Char :=
  List.replicate (width - s.length) '0' ++ s

/-- `sprintf("%02X", v)` and `sprintf("%02lX", v)`: upper-case hex, at least two digits. -/
def fmt_02X (v : Nat) : List Char :=
  pad_zero 2 (digits_aux hex_digit_upper 16 (v + 1) v [])

/-- The inner loop of `decode_oregon_v2` over one 16-character chunk `p`:
for `i = 1, 3, .., 15` the buffer `reversed_byte[9]` is shifted right by one
(`memmove` of 7 characters) and `p[i]` is stored in front. -/
def manchester_chunk (p : List Char) : List Char :=
  [1, 3, 5, 7, 9, 11, 13, 15].foldl
    (fun reversed_byte i => (p.getD i '0' :: reversed_byte).take 8) []

/-- The outer loop of `decode_oregon_v2`: `p` is the rest of the bit string from
the current position; while 16 characters remain, one chunk is decoded and
`strcat`ed to `decoded_bits`. The loop runs at most `strlen(bit_data)` times. -/
def v2_loop : Nat → List Char → List Char
  | 0, _ => []
  | fuel + 1, p =>
    if 16 ≤ p.length then manchester_chunk (p.take 16) ++ v2_loop fuel (p.drop 16)
    else []

/-- The second loop of `decode_oregon_v2`: for `i = 0, 8, 16, ..` below
`strlen(decoded_bits)`, `strncpy` takes up to 8 characters, converts them with
`bin_str_to_byte` and appends `%02X` of the byte to `final_hex`. -/
def bits_to_hex : Nat → List Char → List Char
  | 0, _ => []
  | fuel + 1, rest =>
    if rest = [] then []
    else fmt_02X (bin_str_to_byte (rest.take 8)) ++ bits_to_hex fuel (rest.drop 8)

/-- `decode_oregon_v2`. `decoded_bits` is `char[256]` and `final_hex` is
`char[128]`; the result is `sprintf(result, "%02lX%s", strlen(final_hex) * 4, final_hex)`
into a buffer of `strlen(final_hex) + 3` bytes. -/
def decode_oregon_v2 (bit_data : List Char) : CResult :=
  match strstr bit_data "10011001".toList with
  | none => CResult.null
  | some pos =>
    let decoded_bits := v2_loop bit_data.length (bit_data.drop pos)
    if 256 ≤ decoded_bits.length then CResult.overrun
    else
      let final_hex := bits_to_hex decoded_bits.length decoded_bits
      if 128 ≤ final_hex.length then CResult.overrun
      else if final_hex.length = 0 then CResult.null
      else CResult.str (fmt_02X (final_hex.length * 4) ++ final_hex)

/-- The loop of `decode_oregon_v3`: while 8 characters remain, they are copied,
reversed, converted with `bin_str_to_byte` and appended as `%02X` to `final_hex`. -/
def v3_loop : Nat → List Char → List Char
  | 0, _ => []
  | fuel + 1, p =>
    if 8 ≤ p.length then
      fmt_02X (bin_str_to_byte (p.take 8).reverse) ++ v3_loop fuel (p.drop 8)
    else []

/-- `decode_oregon_v3`. `final_hex` is `char[128]`; the result is formatted as in
`decode_oregon_v2`, again into a buffer of `strlen(final_hex) + 3` bytes. -/
def decode_oregon_v3 (bit_data : List Char) : CResult :=
  match strstr bit_data "11110101".toList with
  | none => CResult.null
  | some _ =>
    match strstr bit_data "0101".toList with
    | none => CResult.null
    | some start_pos =>
      let final_hex := v3_loop bit_data.length (bit_data.drop start_pos)
      if 128 ≤ final_hex.length then CResult.overrun
      else if final_hex.length = 0 then CResult.null
      else CResult.str (fmt_02X (final_hex.length * 4) ++ final_hex)

/-- The body of `preprocess_cul_message` with its three stages as arguments:
the framing test, then `conv` on the text after the marker, then `v2`, and
`v3` only when `v2` returned `NULL`. -/
def preprocess_with (conv : List Char → Option (List Char))
    (v2 v3 : List Char → CResult) (cul_msg : List Char) : CResult :=
  if cul_msg.take 2 ≠ "om".toList ∨ cul_msg.length < 4 then CResult.null
  else
    match conv (cul_msg.drop 2) with
    | none => CResult.null
    | some bit_string =>
      match v2 bit_string with
      | CResult.null => v3 bit_string
      | r => r

/-- `preprocess_cul_message`. -/
def preprocess_cul_message (cul_msg : List Char) : CResult :=
  preprocess_with raw_hex_to_bit_string decode_oregon_v2 decode_oregon_v3 cul_msg

/-! ## oregon_parser.c -/

/-- `HI_NIBBLE(b)`: `(((b) >> 4) & 0x0F)`. -/
def HI_NIBBLE (b : Nat) : Nat := (b >>> 4) &&& 0x0F

/-- `LO_NIBBLE(b)`: `((b) & 0x0F)`. -/
def LO_NIBBLE (b : Nat) : Nat := b &&& 0x0F

/-- `bcd_to_dec`: `(uint8_t)((HI_NIBBLE(bcd) * 10) + LO_NIBBLE(bcd))`. -/
def bcd_to_dec (bcd : Nat) : Nat := (HI_NIBBLE bcd * 10 + LO_NIBBLE bcd) % 256

/-- The conversion `(int)count` of a `float`: truncation toward zero. -/
def float_to_int (count : ℚ) : Int := if 0 ≤ count then ⌊count⌋ else ⌈count⌉

/-- The `for` loop of `nibble_sum` after `byte_count` rounds. -/
def nibble_sum_loop (bytes : Nat → Nat) : Nat → Int
  | 0 => 0
  | i + 1 => nibble_sum_loop bytes i + HI_NIBBLE (bytes i) + LO_NIBBLE (bytes i)

/-- `nibble_sum(bytes, count)`: both nibbles of the first `(int)count` bytes,
plus the high nibble of the next byte when `count` has a fractional part. -/
def nibble_sum (bytes : Nat → Nat) (count : ℚ) : Int :=
  let byte_count := float_to_int count
  let sum := nibble_sum_loop bytes byte_count.toNat
  if count > byte_count then sum + HI_NIBBLE (bytes byte_count.toNat) else sum

/-- `isspace` in the C locale. -/
def isspace (c : Char) : Bool :=
  c = ' ' || (9 ≤ c.toNat && c.toNat ≤ 13)

/-- Value of a hex digit, `none` for any other character. -/
def hex_digit_val (c : Char) : Option Nat :=
  if '0' ≤ c ∧ c ≤ '9' then some (c.toNat - '0'.toNat)
  else if 'a' ≤ c ∧ c ≤ 'f' then some (c.toNat - 'a'.toNat + 10)
  else if 'A' ≤ c ∧ c ≤ 'F' then some (c.toNat - 'A'.toNat + 10)
  else none

/-- `sscanf(s, "%2hhx", &out) == 1`, with the byte stored (ISO C 7.21.6.2):
white space is skipped, then at most two characters are taken as long as they
continue an optionally signed hex number with an optional `0x`; the call
stores a byte when that item holds at least one digit and is not a bare `0x`.
`none` stands for every return value other than 1. -/
def sscanf_2hhx (s : List Char) : Option Nat :=
  match s.dropWhile isspace with
  | [] => none
  | c0 :: rest =>
    if c0 = '+' ∨ c0 = '-' then
      match rest with
      | [] => none
      | c1 :: _ =>
        match hex_digit_val c1 with
        | none => none
        | some v => some (if c0 = '-' then (256 - v) % 256 else v)
    else
      match hex_digit_val c0 with
      | none => none
      | some v0 =>
        match rest with
        | [] => some v0
        | c1 :: _ =>
          if c0 = '0' ∧ (c1 = 'x' ∨ c1 = 'X') then none
          else
            match hex_digit_val c1 with
            | none => some v0
            | some v1 => some (16 * v0 + v1)

/-- The `for` loop of `hex_to_bytes`: `byte_len` calls of `sscanf` at offsets
`0, 2, 4, ..`; `s` is the string from the current offset on. -/
def hex_to_bytes_loop : Nat → List Char → Option (List Nat)
  | 0, _ => some []
  | byte_len + 1, s =>
    match sscanf_2hhx s with
    | none => none
    | some b =>
      match hex_to_bytes_loop byte_len (s.drop 2) with
      | none => none
      | some bs => some (b :: bs)

/-- `hex_to_bytes`: the bytes written to `out_bytes`, or `none` for the return value -1. -/
def hex_to_bytes (hex_str : List Char) (max_len : Nat) : Option (List Nat) :=
  if hex_str.length % 2 ≠ 0 then none
  else if hex_str.length / 2 > max_len then none
  else hex_to_bytes_loop (hex_str.length / 2) hex_str

/-- `OregonReading`. `calloc` leaves every field zero (empty strings, value 0). -/
structure OregonReading where
  device : List Char := []
  type : List Char := []
  current : ℚ := 0
  average : ℚ := 0
  string_val : List Char := []
  units : List Char := []
  forecast : List Char := []
  risk : List Char := []
  deriving DecidableEq

/-- `decode_temperature`. -/
def decode_temperature (bytes : Nat → Nat) (dev_str : List Char) (r : OregonReading) :
    OregonReading :=
  let sign : ℚ := if bytes 6 &&& 0x08 ≠ 0 then -1 else 1
  { r with
    device := dev_str
    type := "temperature".toList
    units := "C".toList
    current := sign * ((bcd_to_dec (bytes 5) : ℚ) + (HI_NIBBLE (bytes 4) : ℚ) / 10) }

/-- `decode_humidity`. -/
def decode_humidity (bytes : Nat → Nat) (dev_str : List Char) (r : OregonReading) :
    OregonReading :=
  let comfort_levels : List (List Char) :=
    ["normal".toList, "comfortable".toList, "dry".toList, "wet".toList]
  { r with
    device := dev_str
    type := "humidity".toList
    units := "%".toList
    current := ((LO_NIBBLE (bytes 7) * 10 + HI_NIBBLE (bytes 6) : Nat) : ℚ)
    string_val := comfort_levels.getD (bytes 7 >>> 6) [] }

/-- `decode_simple_battery`. -/
def decode_simple_battery (bytes : Nat → Nat) (dev_str : List Char) (r : OregonReading) :
    OregonReading :=
  let is_low : Bool := bytes 4 &&& 0x04 ≠ 0
  { r with
    device := dev_str
    type := "battery_status".toList
    string_val := if is_low then "low".toList else "ok".toList }

/-- `decode_pressure`. -/
def decode_pressure (bytes : Nat → Nat) (dev_str : List Char) (offset : Int)
    (forecast_nibble : Nat) (r : OregonReading) : OregonReading :=
  { r with
    device := dev_str
    type := "pressure".toList
    units := "hPa".toList
    current := (((bytes 8 : Int) + offset : Int) : ℚ)
    forecast :=
      if forecast_nibble = 0xc then "sunny".toList
      else if forecast_nibble = 0x6 then "partly".toList
      else if forecast_nibble = 0x2 then "cloudy".toList
      else if forecast_nibble = 0x3 then "rain".toList
      else "unknown".toList }

/-- `checksum1`. -/
def checksum1 (b : Nat → Nat) : Bool :=
  let c : Nat := (HI_NIBBLE (b 6) + (LO_NIBBLE (b 7) <<< 4)) % 256
  let s : Nat := ((nibble_sum b 6.5 - 0xa) % 256).toNat
  s = c

/-- `checksum2`. -/
def checksum2 (b : Nat → Nat) : Bool :=
  let c : Nat := b 8
  let s : Nat := ((nibble_sum b 8 - 0xa) % 256).toNat
  s = c

/-- `checksum4`. -/
def checksum4 (b : Nat → Nat) : Bool :=
  let c : Nat := b 9
  let s : Nat := ((nibble_sum b 9 - 0xa) % 256).toNat
  s = c

/-- `checksum5`. -/
def checksum5 (b : Nat → Nat) : Bool :=
  let c : Nat := b 10
  let s : Nat := ((nibble_sum b 10 - 0xa) % 256).toNat
  s = c

/-- `sprintf("%02x", v)`: lower-case hex, at least two digits. -/
def fmt_02x (v : Nat) : List Char :=
  pad_zero 2 (digits_aux hex_digit_lower 16 (v + 1) v [])

/-- `sprintf("%d", v)` for a value that is not negative. -/
def fmt_d (v : Nat) : List Char :=
  digits_aux hex_digit_lower 10 (v + 1) v []

/-- `get_device_string(buf, len, part_name, bytes)`: the contents of `buf` afterwards.
`snprintf` keeps at most `len - 1` characters, `channel_buf` is `char[10]`, and
`strncat` appends at most `len - strlen(buf) - 1` characters. -/
def get_device_string (len : Nat) (part_name : List Char) (bytes : Nat → Nat) : List Char :=
  let buf := (part_name ++ "_".toList ++ fmt_02x (bytes 3)).take (len - 1)
  if HI_NIBBLE (bytes 2) > 0 then
    let channel_buf := ("_".toList ++ fmt_d (HI_NIBBLE (bytes 2))).take 9
    buf ++ channel_buf.take (len - buf.length - 1)
  else buf

/-- `method_func_t`: a decode method gets the registry row (of which it reads
`part_name` only, passed here) and the payload, and returns its readings. -/
abbrev method_func_t := List Char → (Nat → Nat) → List OregonReading

/-- `SensorType`: one registry row. `none` is a `NULL` function pointer. -/
structure SensorType where
  key : Nat
  part_name : List Char
  checksum_func : Option ((Nat → Nat) → Bool)
  method_func : Option method_func_t

/-- `method_common_temphydro`; `dev_str` is `char[50]`. -/
def method_common_temphydro : method_func_t := fun part_name bytes =>
  let dev_str := get_device_string 50 part_name bytes
  [decode_temperature bytes dev_str {},
   decode_humidity bytes dev_str {},
   decode_simple_battery bytes dev_str {}]

/-- `method_alt_temphydrobaro`; `dev_str` is `char[50]`. -/
def method_alt_temphydrobaro : method_func_t := fun part_name bytes =>
  let dev_str := get_device_string 50 part_name bytes
  [decode_temperature bytes dev_str {},
   decode_humidity bytes dev_str {},
   decode_pressure bytes dev_str 856 (HI_NIBBLE (bytes 9)) {}]

/-- `SENSOR_TYPES`. -/
def SENSOR_TYPES : List SensorType :=
  [ ⟨0xfa280050, "THGR810".toList, some checksum2, some method_common_temphydro⟩,
    ⟨0xfab80050, "WTGR800_T".toList, some checksum2, some method_common_temphydro⟩,
    ⟨0x1a990058, "WTGR800_A".toList, some checksum4, none⟩,
    ⟨0x1a890058, "WGR800".toList, some checksum4, none⟩,
    ⟨0xea4c0050, "THWR288A".toList, some checksum1, none⟩,
    ⟨0xea4c0040, "THN132N".toList, some checksum1, none⟩,
    ⟨0x1a2d0050, "THGR228N".toList, some checksum2, some method_common_temphydro⟩,
    ⟨0x1a3d0050, "THGR918".toList, some checksum2, some method_common_temphydro⟩,
    ⟨0x5a6d0058, "BTHR918N".toList, some checksum5, some method_alt_temphydrobaro⟩,
    ⟨0xca2c0050, "THGR328N".toList, some checksum2, some method_common_temphydro⟩ ]

/-- The inner loop of the search: the first row, in table order, whose key is `key`. -/
def find_key (table : List SensorType) (key : Nat) : Option SensorType :=
  table.find? (fun s => s.key == key)

/-- The outer loop of the search in `parse_oregon_message`:
`for (int b = bits; b >= bits - 8 && b > 0; b -= 4)` with
`key = ((uint32_t)type_id << 16) | b`, leaving at the first row found. -/
def find_sensor_loop (table : List SensorType) (type_id : Nat) (bits : Int) :
    Nat → Int → Option SensorType
  | 0, _ => none
  | fuel + 1, b =>
    if b ≥ bits - 8 ∧ b > 0 then
      match find_key table (((type_id <<< 16) ||| b.toNat) % 2 ^ 32) with
      | some s => some s
      | none => find_sensor_loop table type_id bits fuel (b - 4)
    else none

/-- The search of `parse_oregon_message`; `b` falls by 4 from `bits` and stays
positive, so `bits` rounds are never exceeded. -/
def find_sensor (table : List SensorType) (type_id : Nat) (bits : Int) : Option SensorType :=
  find_sensor_loop table type_id bits bits.toNat bits

/-- How a call of `parse_oregon_message` ends. -/
inductive ParseResult where
  /-- "Error: Invalid or too short hex message." -/
  | invalid_message : ParseResult
  /-- "Error: Unknown sensor type/bit length combination." -/
  | unknown_sensor : ParseResult
  /-- "Found Sensor Definition", then "Error: Checksum validation failed!" -/
  | checksum_failed (part_name : List Char) : ParseResult
  /-- "Found Sensor Definition", the checksum passed (or the row has none),
  then "Notice: No decoding method implemented for .." -/
  | no_method (part_name : List Char) : ParseResult
  /-- "Found Sensor Definition", the checksum passed (or the row has none),
  then the readings handed to `print_readings` -/
  | decoded (part_name : List Char) (readings : List OregonReading) : ParseResult
  deriving DecidableEq

/-- The outcomes written to `stderr` as an error. -/
def ParseResult.is_error : ParseResult → Bool
  | ParseResult.invalid_message => true
  | ParseResult.unknown_sensor => true
  | ParseResult.checksum_failed _ => true
  | _ => false

/-- The readings an outcome reports. -/
def ParseResult.readings : ParseResult → List OregonReading
  | ParseResult.decoded _ rs => rs
  | _ => []

/-- `msg_bytes` after `hex_to_bytes` stored `bytes` in it: `uint8_t msg_bytes[32]`
is not initialised, so beyond the stored bytes it holds what the stack held. -/
def msg_bytes_of (stack : Nat → Nat) (bytes : List Nat) : Nat → Nat :=
  fun i => bytes.getD i (stack i % 256)

/-- The part of `parse_oregon_message` after the label `found`, for the row found:
the checksum (a row without one passes with a warning), then the decode method. -/
def report_sensor (found_sensor : SensorType) (payload : Nat → Nat) : ParseResult :=
  if (match found_sensor.checksum_func with
      | some checksum_func => checksum_func payload
      | none => true) then
    match found_sensor.method_func with
    | some method_func =>
      ParseResult.decoded found_sensor.part_name (method_func found_sensor.part_name payload)
    | none => ParseResult.no_method found_sensor.part_name
  else ParseResult.checksum_failed found_sensor.part_name

/-- The part of `parse_oregon_message` after the length test, for the registry `table`:
`bits = msg_bytes[0]`, `payload = &msg_bytes[1]`, `type_id = (payload[0] << 8) | payload[1]`. -/
def parse_bytes (table : List SensorType) (msg_bytes : Nat → Nat) : ParseResult :=
  let bits : Int := msg_bytes 0
  let payload : Nat → Nat := fun i => msg_bytes (i + 1)
  let type_id : Nat := ((payload 0 <<< 8) ||| payload 1) % 2 ^ 16
  match find_sensor table type_id bits with
  | none => ParseResult.unknown_sensor
  | some found_sensor => report_sensor found_sensor payload

/-- `parse_oregon_message` over the registry `table`; `stack` is what the
memory of `msg_bytes` held on entry. -/
def parse_oregon_message_with (table : List SensorType) (stack : Nat → Nat)
    (hex_msg : List Char) : ParseResult :=
  match hex_to_bytes hex_msg 32 with
  | none => ParseResult.invalid_message
  | some bytes =>
    if bytes.length < 3 then ParseResult.invalid_message
    else parse_bytes table (msg_bytes_of stack bytes)

/-- `parse_oregon_message`. -/
def parse_oregon_message (stack : Nat → Nat) (hex_msg : List Char) : ParseResult :=
  parse_oregon_message_with SENSOR_TYPES stack hex_msg

/-! ## oregon_parser.c with bounds-checked reads

The same functions once more, with the payload as the list of the bytes that
`hex_to_bytes` stored and every read `bytes[i]` checked against it: a function
returns `none` as soon as it reads at an index that is not below the number of
stored bytes. -/

/-- A checked read of `bytes[i]`: `none` when `i` is not below the number of bytes. -/
def read_byte (bytes : List Nat) (i : Nat) : Option Nat := bytes.get? i

/-- The `for` loop of `nibble_sum` after `byte_count` rounds, reads checked. -/
def nibble_sum_loop_checked (bytes : List Nat) : Nat → Option Int
  | 0 => some 0
  | i + 1 => do
    let sum ← nibble_sum_loop_checked bytes i
    let b ← read_byte bytes i
    some (sum + HI_NIBBLE b + LO_NIBBLE b)

/-- `nibble_sum(bytes, count)`, reads checked. -/
def nibble_sum_checked (bytes : List Nat) (count : ℚ) : Option Int := do
  let byte_count := float_to_int count
  let sum ← nibble_sum_loop_checked bytes byte_count.toNat
  if count > byte_count then do
    let b ← read_byte bytes byte_count.toNat
    some (sum + HI_NIBBLE b)
  else some sum

/-- `checksum1`, reads checked. -/
def checksum1_checked (b : List Nat) : Option Bool := do
  let b6 ← read_byte b 6
  let b7 ← read_byte b 7
  let c : Nat := (HI_NIBBLE b6 + (LO_NIBBLE b7 <<< 4)) % 256
  let sum ← nibble_sum_checked b 6.5
  let s : Nat := ((sum - 0xa) % 256).toNat
  some (decide (s = c))

/-- `checksum2`, reads checked. -/
def checksum2_checked (b : List Nat) : Option Bool := do
  let c ← read_byte b 8
  let sum ← nibble_sum_checked b 8
  let s : Nat := ((sum - 0xa) % 256).toNat
  some (decide (s = c))

/-- `checksum4`, reads checked. -/
def checksum4_checked (b : List Nat) : Option Bool := do
  let c ← read_byte b 9
  let sum ← nibble_sum_checked b 9
  let s : Nat := ((sum - 0xa) % 256).toNat
  some (decide (s = c))

/-- `checksum5`, reads checked. -/
def checksum5_checked (b : List Nat) : Option Bool := do
  let c ← read_byte b 10
  let sum ← nibble_sum_checked b 10
  let s : Nat := ((sum - 0xa) % 256).toNat
  some (decide (s = c))

/-- `decode_temperature`, reads checked. -/
def decode_temperature_checked (bytes : List Nat) (dev_str : List Char) (r : OregonReading) :
    Option OregonReading := do
  let b6 ← read_byte bytes 6
  let b5 ← read_byte bytes 5
  let b4 ← read_byte bytes 4
  let sign : ℚ := if b6 &&& 0x08 ≠ 0 then -1 else 1
  some { r with
    device := dev_str
    type := "temperature".toList
    units := "C".toList
    current := sign * ((bcd_to_dec b5 : ℚ) + (HI_NIBBLE b4 : ℚ) / 10) }

/-- `decode_humidity`, reads checked. -/
def decode_humidity_checked (bytes : List Nat) (dev_str : List Char) (r : OregonReading) :
    Option OregonReading := do
  let b7 ← read_byte bytes 7
  let b6 ← read_byte bytes 6
  let comfort_levels : List (List Char) :=
    ["normal".toList, "comfortable".toList, "dry".toList, "wet".toList]
  some { r with
    device := dev_str
    type := "humidity".toList
    units := "%".toList
    current := ((LO_NIBBLE b7 * 10 + HI_NIBBLE b6 : Nat) : ℚ)
    string_val := comfort_levels.getD (b7 >>> 6) [] }

/-- `decode_simple_battery`, reads checked. -/
def decode_simple_battery_checked (bytes : List Nat) (dev_str : List Char)
    (r : OregonReading) : Option OregonReading := do
  let b4 ← read_byte bytes 4
  let is_low : Bool := b4 &&& 0x04 ≠ 0
  some { r with
    device := dev_str
    type := "battery_status".toList
    string_val := if is_low then "low".toList else "ok".toList }

/-- `decode_pressure`, reads checked. -/
def decode_pressure_checked (bytes : List Nat) (dev_str : List Char) (offset : Int)
    (forecast_nibble : Nat) (r : OregonReading) : Option OregonReading := do
  let b8 ← read_byte bytes 8
  some { r with
    device := dev_str
    type := "pressure".toList
    units := "hPa".toList
    current := (((b8 : Int) + offset : Int) : ℚ)
    forecast :=
      if forecast_nibble = 0xc then "sunny".toList
      else if forecast_nibble = 0x6 then "partly".toList
      else if forecast_nibble = 0x2 then "cloudy".toList
      else if forecast_nibble = 0x3 then "rain".toList
      else "unknown".toList }

/-- `get_device_string`, reads checked. -/
def get_device_string_checked (len : Nat) (part_name : List Char) (bytes : List Nat) :
    Option (List Char) := do
  let b3 ← read_byte bytes 3
  let buf := (part_name ++ "_".toList ++ fmt_02x b3).take (len - 1)
  let b2 ← read_byte bytes 2
  if HI_NIBBLE b2 > 0 then
    let channel_buf := ("_".toList ++ fmt_d (HI_NIBBLE b2)).take 9
    some (buf ++ channel_buf.take (len - buf.length - 1))
  else some buf

/-- `method_func_t` with checked reads. -/
abbrev method_func_checked_t := List Char → List Nat → Option (List OregonReading)

/-- `SensorType` with checked functions. -/
structure SensorTypeChecked where
  key : Nat
  part_name : List Char
  checksum_func : Option (List Nat → Option Bool)
  method_func : Option method_func_checked_t

/-- `method_common_temphydro`, reads checked. -/
def method_common_temphydro_checked : method_func_checked_t := fun part_name bytes => do
  let dev_str ← get_device_string_checked 50 part_name bytes
  let r0 ← decode_temperature_checked bytes dev_str {}
  let r1 ← decode_humidity_checked bytes dev_str {}
  let r2 ← decode_simple_battery_checked bytes dev_str {}
  some [r0, r1, r2]

/-- `method_alt_temphydrobaro`, reads checked. -/
def method_alt_temphydrobaro_checked : method_func_checked_t := fun part_name bytes => do
  let dev_str ← get_device_string_checked 50 part_name bytes
  let r0 ← decode_temperature_checked bytes dev_str {}
  let r1 ← decode_humidity_checked bytes dev_str {}
  let b9 ← read_byte bytes 9
  let r2 ← decode_pressure_checked bytes dev_str 856 (HI_NIBBLE b9) {}
  some [r0, r1, r2]

/-- `SENSOR_TYPES`, the rows with their checked functions. -/
def SENSOR_TYPES_checked : List SensorTypeChecked :=
  [ ⟨0xfa280050, "THGR810".toList, some checksum2_checked, some method_common_temphydro_checked⟩,
    ⟨0xfab80050, "WTGR800_T".toList, some checksum2_checked,
      some method_common_temphydro_checked⟩,
    ⟨0x1a990058, "WTGR800_A".toList, some checksum4_checked, none⟩,
    ⟨0x1a890058, "WGR800".toList, some checksum4_checked, none⟩,
    ⟨0xea4c0050, "THWR288A".toList, some checksum1_checked, none⟩,
    ⟨0xea4c0040, "THN132N".toList, some checksum1_checked, none⟩,
    ⟨0x1a2d0050, "THGR228N".toList, some checksum2_checked, some method_common_temphydro_checked⟩,
    ⟨0x1a3d0050, "THGR918".toList, some checksum2_checked, some method_common_temphydro_checked⟩,
    ⟨0x5a6d0058, "BTHR918N".toList, some checksum5_checked,
      some method_alt_temphydrobaro_checked⟩,
    ⟨0xca2c0050, "THGR328N".toList, some checksum2_checked,
      some method_common_temphydro_checked⟩ ]

/-- The inner loop of the search, over the rows with checked functions. -/
def find_key_checked (table : List SensorTypeChecked) (key : Nat) : Option SensorTypeChecked :=
  table.find? (fun s => s.key == key)

/-- The outer loop of the search, over the rows with checked functions. -/
def find_sensor_loop_checked (table : List SensorTypeChecked) (type_id : Nat) (bits : Int) :
    Nat → Int → Option SensorTypeChecked
  | 0, _ => none
  | fuel + 1, b =>
    if b ≥ bits - 8 ∧ b > 0 then
      match find_key_checked table (((type_id <<< 16) ||| b.toNat) % 2 ^ 32) with
      | some s => some s
      | none => find_sensor_loop_checked table type_id bits fuel (b - 4)
    else none

/-- The search of `parse_oregon_message`, over the rows with checked functions. -/
def find_sensor_checked (table : List SensorTypeChecked) (type_id : Nat) (bits : Int) :
    Option SensorTypeChecked :=
  find_sensor_loop_checked table type_id bits bits.toNat bits

/-- The part of `parse_oregon_message` after the label `found`, reads checked:
`none` when the checksum validator or the decode method read outside `payload`. -/
def report_sensor_checked (found_sensor : SensorTypeChecked) (payload : List Nat) :
    Option ParseResult :=
  match (match found_sensor.checksum_func with
      | some checksum_func => checksum_func payload
      | none => some true) with
  | none => none
  | some ok =>
    if ok then
      match found_sensor.method_func with
      | some method_func =>
        match method_func found_sensor.part_name payload with
        | none => none
        | some readings => some (ParseResult.decoded found_sensor.part_name readings)
      | none => some (ParseResult.no_method found_sensor.part_name)
    else some (ParseResult.checksum_failed found_sensor.part_name)

/-- The part of `parse_oregon_message` after the length test, reads checked;
`msg_bytes` holds the bytes that were stored and `payload = &msg_bytes[1]` those
after the first. -/
def parse_bytes_checked (table : List SensorTypeChecked) (msg_bytes : List Nat) :
    Option ParseResult :=
  let payload : List Nat := msg_bytes.drop 1
  match read_byte msg_bytes 0, read_byte payload 0, read_byte payload 1 with
  | some bits0, some p0, some p1 =>
    let bits : Int := bits0
    let type_id : Nat := ((p0 <<< 8) ||| p1) % 2 ^ 16
    match find_sensor_checked table type_id bits with
    | none => some ParseResult.unknown_sensor
    | some found_sensor => report_sensor_checked found_sensor payload
  | _, _, _ => none

/-- `parse_oregon_message` with checked reads: `none` when a byte of `msg_bytes`
that `hex_to_bytes` did not store was read. -/
def parse_oregon_message_checked (hex_msg : List Char) : Option ParseResult :=
  match hex_to_bytes hex_msg 32 with
  | none => some ParseResult.invalid_message
  | some bytes =>
    if bytes.length < 3 then some ParseResult.invalid_message
    else parse_bytes_checked SENSOR_TYPES_checked bytes

/-! ## Reference definitions and sample inputs -/

/-- The message of end-to-end scenario 1 (the example of the usage text in `main.c`). -/
def scenario1_msg : List Char :=
  "omAAAAAAAB32D4CB3554D54CAB5554B53554B54D4D555414".toList

/-- What the preprocessor returns for `scenario1_msg`. -/
def scenario1_hex : List Char := "481A2D10F40023304400".toList

/-- A well-framed message of 67 characters: "omF5" and 63 times "0". Its bit string
has 260 bits, no V2 preamble, and 256 bits from the first "0101" on. -/
def long_v3_msg : List Char := "omF5".toList ++ List.replicate 63 '0'

/-- Reference (spec 4.8): the candidate bit lengths in the order they are tried:
`L`, `L - 4`, `L - 8`, without those that are not positive. -/
def lookup_candidates (L : Int) : List Int :=
  [L, L - 4, L - 8].filter (fun b => decide (0 < b))

/-- Reference (spec 3): the sensor key `(type_id << 16) | bit_length`. -/
def sensor_key (type_id : Nat) (b : Int) : Nat := (type_id <<< 16) ||| b.toNat

/-- Reference (spec 4.8): the row of the first candidate whose key is in the registry. -/
def lookup_reference (table : List SensorType) (type_id : Nat) (L : Int) :
    Option SensorType :=
  (lookup_candidates L).findSome? (fun b => find_key table (sensor_key type_id b))

/-- Reference (spec 4.8): the declared bit length, byte 0 of the decoded message. -/
def declared_bits (bytes : List Nat) : Int := (bytes.getD 0 0 : Nat)

/-- Reference (spec 4.8): the type id, the big-endian 16-bit value of payload bytes
0 and 1 (bytes 1 and 2 of the decoded message). -/
def payload_type_id (bytes : List Nat) : Nat := bytes.getD 1 0 * 256 + bytes.getD 2 0

/-- The payload the parser works on: `&msg_bytes[1]` after `bytes` were stored. -/
def payload_of (stack : Nat → Nat) (bytes : List Nat) : Nat → Nat :=
  fun i => msg_bytes_of stack bytes (i + 1)

/-- A canonical payload with declared length 0x58 = 88 and type id 0x1A2D: the
registry has a row for the third candidate, 80. -/
def lookup_third_hex : List Char := "581A2D10F400233044340000".toList

/-- Reference (glossary): the high 4-bit half of a byte. -/
def high_nibble (x : Nat) : Nat := x / 16

/-- Reference (glossary): the low 4-bit half of a byte. -/
def low_nibble (x : Nat) : Nat := x % 16

/-- Reference (spec 4.5): the sum of the high and the low nibble of each of the
first `n` payload bytes. -/
def nibble_sum_reference (payload : Nat → Nat) (n : Nat) : Int :=
  (((List.range n).map (fun i => high_nibble (payload i) + low_nibble (payload i))).sum : Nat)

/-- Reference (spec 4.5): what `checksum1` sums, 6.5 bytes: the nibbles of
payload[0..5] and the high nibble of payload[6]. -/
def checksum1_sum_reference (payload : Nat → Nat) : Int :=
  nibble_sum_reference payload 6 + Int.ofNat (high_nibble (payload 6))

/-- Reference (spec 4.5): the checksum byte of `checksum1`, put together from
the high nibble of payload[6] and the low nibble of payload[7] shifted by 4. -/
def checksum1_byte_reference (payload : Nat → Nat) : Nat :=
  high_nibble (payload 6) + (low_nibble (payload 7) <<< 4)

/-- The payload 1A 2D 10 F4 00 23 30 44 34 00 (zero beyond). -/
def sample_payload : Nat → Nat :=
  fun i => [0x1a, 0x2d, 0x10, 0xf4, 0x00, 0x23, 0x30, 0x44, 0x34, 0x00].getD i 0

/-- A canonical payload for row THGR228N (length 0x50, type id 0x1A2D) whose
payload[8] is 0x00 while the checksum of its first 8 bytes is 0x34. -/
def bad_checksum_hex : List Char := "501A2D10F4002330440000".toList

/-- A canonical payload for row THN132N (length 0x40, type id 0xEA4C), which has a
checksum validator and no decode method; `checksum1` passes on it. -/
def no_method_hex : List Char := "40EA4C200000000002".toList

/-- The canonical payload "501A2D10F4002330443400" for row THGR228N with the
character at offset 11 replaced by "G", which is not a hex digit. -/
def bad_hex_msg : List Char := "501A2D10F40G2330443400".toList

/-- Reference: a value below 256 as exactly two lower-case hex digits. -/
def hex2_lower (v : Nat) : List Char := [hex_digit_lower (v / 16), hex_digit_lower (v % 16)]

/-- Reference: a value below 256 as exactly two upper-case hex digits. -/
def hex2_upper (v : Nat) : List Char := [hex_digit_upper (v / 16), hex_digit_upper (v % 16)]

/-- Reference (spec 4.6, 8): the device string `<part>_<hex(payload[3])>`, followed
by `_<channel>` when the high nibble of payload[2], the channel, is above 0. -/
def device_string_reference (part_name : List Char) (payload : Nat → Nat) : List Char :=
  part_name ++ "_".toList ++ hex2_lower (payload 3) ++
    (if high_nibble (payload 2) > 0 then "_".toList ++ Nat.toDigits 10 (high_nibble (payload 2))
     else [])

/-- A part name of 47 characters. -/
def long_part_name : List Char := List.replicate 47 'A'

/-- Reference (spec 4.1): the hex digits `0-9a-fA-F`. -/
def is_hex_digit (c : Char) : Prop :=
  ('0' ≤ c ∧ c ≤ '9') ∨ ('a' ≤ c ∧ c ≤ 'f') ∨ ('A' ≤ c ∧ c ≤ 'F')

/-- Reference (spec 4.1): the 4-character binary representation of a value below
16, most significant bit first. -/
def nibble_bits (v : Nat) : List Char :=
  [v / 8 % 2, v / 4 % 2, v / 2 % 2, v % 2].map (fun b => if b = 1 then '1' else '0')

/-- Reference (spec 4.1): each character expanded to its 4 bits, in input order. -/
def bit_string_reference (hex : List Char) : List Char :=
  hex.flatMap (fun c => nibble_bits ((hex_digit_val c).getD 0))

/-- Reference: bit `k` of `x` (bit 0 the least significant) is set. -/
def bit_set (x k : Nat) : Bool := x / 2 ^ k % 2 = 1

/-- Reference (spec 4.6): BCD(x) = 10 * high nibble + low nibble. -/
def bcd_reference (x : Nat) : Nat := 10 * high_nibble x + low_nibble x

/-- Reference (spec 4.6): the sign of the temperature, -1 when bit 3 of payload[6]
is set, +1 otherwise. -/
def temperature_sign (payload : Nat → Nat) : ℚ := if bit_set (payload 6) 3 then -1 else 1

/-- Reference (spec 4.6): the forecast string for a 4-bit code. -/
def forecast_reference (code : Nat) : List Char :=
  if code = 0xC then "sunny".toList
  else if code = 0x6 then "partly".toList
  else if code = 0x2 then "cloudy".toList
  else if code = 0x3 then "rain".toList
  else "unknown".toList

/-- Reference (spec 4.6): the comfort strings, indexed by the top 2 bits of payload[7]. -/
def comfort_table : List (List Char) :=
  ["normal".toList, "comfortable".toList, "dry".toList, "wet".toList]

/-- Reference (spec 8): the payload with bit `k` of byte `j` flipped. -/
def flip_bit (payload : Nat → Nat) (j k : Nat) : Nat → Nat :=
  fun i => if i = j then payload i ^^^ 2 ^ k else payload i

/-- Reference: `f` reads no payload byte at an index of `n` or more: its result
is the same on any two payloads that agree on the indices below `n`. -/
def reads_below {α : Type} (f : (Nat → Nat) → α) (n : Nat) : Prop :=
  ∀ b1 b2 : Nat → Nat, (∀ i, i < n → b1 i = b2 i) → f b1 = f b2

/-- The canonical payload "501A2D10F4002330443400": declared length 0x50 = 8 * 10,
10 payload bytes, row THGR228N, checksum byte 0x34 right. -/
def good_hex_msg : List Char := "501A2D10F4002330443400".toList

/-- Reference (spec 3): a bit string, a sequence of the characters "0" and "1". -/
def is_bit_string (bits : List Char) : Prop := ∀ c ∈ bits, c = '0' ∨ c = '1'

/-- Reference: the input bit at index `k`, as a number (0 beyond the end). -/
def bit_at (bits : List Char) (k : Nat) : Nat := if bits.getD k '0' = '1' then 1 else 0

/-- Reference: `needle` occurs in `hay` at index `k`. -/
def occurs_at (needle hay : List Char) (k : Nat) : Prop := needle <+: hay.drop k

/-- Reference: `pos` is the index of the first occurrence of `needle` in `hay`. -/
def first_occurrence (needle hay : List Char) (pos : Nat) : Prop :=
  occurs_at needle hay pos ∧ ∀ k, k < pos → ¬ occurs_at needle hay k

/-- Reference (spec 4.2): byte `j` of the V2 decode from `pos`: bit `i` (bit 0 the
least significant) is the input bit at index `pos + 16 * j + 2 * i + 1`. -/
def v2_byte_reference (bits : List Char) (pos j : Nat) : Nat :=
  ((List.range 8).map (fun i => bit_at bits (pos + 16 * j + 2 * i + 1) * 2 ^ i)).sum

/-- Reference (spec 4.3): byte `j` of the V3 decode from `start`: bit `i` (bit 0 the
least significant) is the input bit at index `start + 8 * j + i`. -/
def v3_byte_reference (bits : List Char) (start j : Nat) : Nat :=
  ((List.range 8).map (fun i => bit_at bits (start + 8 * j + i) * 2 ^ i)).sum

/-- Reference (spec 3): the canonical payload string of a list of payload bytes:
two hex digits for the bit count, 8 per byte, then two hex digits per byte. -/
def canonical_reference (payload : List Nat) : List Char :=
  hex2_upper (8 * payload.length) ++ payload.flatMap hex2_upper

/-- The payload EA 4C 20 00 00 00 00 02 of a THN132N message (zero beyond): its
first six bytes have nibble sum 42 = 0xA + 16 * 2. -/
def thn132n_payload : Nat → Nat :=
  fun i => [0xea, 0x4c, 0x20, 0x00, 0x00, 0x00, 0x00, 0x02].getD i 0

/-- Reference: `cc` is the validator `uc` with checked reads, and it reads below
`bound`: on a payload of at least `bound` stored bytes it returns what `uc` returns
on any memory that holds those bytes. -/
def checksum_refines (bound : Nat) (cc : Option (List Nat → Option Bool))
    (uc : Option ((Nat → Nat) → Bool)) : Prop :=
  match cc, uc with
  | none, none => True
  | some c, some u =>
    ∀ (p : List Nat) (b : Nat → Nat), bound ≤ p.length →
      (∀ i, i < p.length → b i = p.getD i 0) → c p = some (u b)
  | _, _ => False

/-- Reference: `cm` is the decode method `um` with checked reads, and it reads below
`bound`. -/
def method_refines (bound : Nat) (part_name : List Char) (cm : Option method_func_checked_t)
    (um : Option method_func_t) : Prop :=
  match cm, um with
  | none, none => True
  | some c, some u =>
    ∀ (p : List Nat) (b : Nat → Nat), bound ≤ p.length →
      (∀ i, i < p.length → b i = p.getD i 0) → c part_name p = some (u part_name b)
  | _, _ => False

/-- Reference: the row `c` is the registry row `r` with checked reads, and its
functions read below the number of bytes the key of the row declares (its bit
length over 8). -/
def row_refines (c : SensorTypeChecked) (r : SensorType) : Prop :=
  c.key = r.key ∧ c.part_name = r.part_name ∧
  checksum_refines (r.key % 65536 / 8) c.checksum_func r.checksum_func ∧
  method_refines (r.key % 65536 / 8) r.part_name c.method_func r.method_func

/-- The message "501A2D10F400233044": declared length 0x50 = 80 bits and type id
0x1A2D as for row THGR228N, but 8 payload bytes only. -/
def short_hex_msg : List Char := "501A2D10F400233044".toList

/-! ## Theorems -/

theorem preprocess_with_bad_framing (conv : List Char → Option (List Char))
    (v2 v3 : List Char → CResult) (cul_msg : List Char)
    (h : cul_msg.take 2 ≠ "om".toList ∨ cul_msg.length < 4) :
    preprocess_with conv v2 v3 cul_msg = CResult.null := by
  unfold preprocess_with
  rw [if_pos h]

theorem preprocess_with_framed (conv : List Char → Option (List Char))
    (v2 v3 : List Char → CResult) (cul_msg : List Char)
    (h1 : cul_msg.take 2 = "om".toList) (h2 : 4 ≤ cul_msg.length) :
    preprocess_with conv v2 v3 cul_msg =
      match conv (cul_msg.drop 2) with
      | none => CResult.null
      | some bit_string =>
        match v2 bit_string with
        | CResult.null => v3 bit_string
        | r => r := by
  unfold preprocess_with
  rw [if_neg]
  intro h
  rcases h with h | h
  · exact h h1
  · omega

theorem preprocess_with_v2 (conv : List Char → Option (List Char))
    (v2 v3 : List Char → CResult) (cul_msg bit_string : List Char)
    (h1 : cul_msg.take 2 = "om".toList) (h2 : 4 ≤ cul_msg.length)
    (hc : conv (cul_msg.drop 2) = some bit_string) (hv : v2 bit_string ≠ CResult.null) :
    preprocess_with conv v2 v3 cul_msg = v2 bit_string := by
  rw [preprocess_with_framed conv v2 v3 cul_msg h1 h2, hc]
  cases hr : v2 bit_string with
  | null => exact absurd hr hv
  | str s => simp only [hr]
  | overrun => simp only [hr]

theorem preprocess_with_v3 (conv : List Char → Option (List Char))
    (v2 v3 : List Char → CResult) (cul_msg bit_string : List Char)
    (h1 : cul_msg.take 2 = "om".toList) (h2 : 4 ≤ cul_msg.length)
    (hc : conv (cul_msg.drop 2) = some bit_string) (hv : v2 bit_string = CResult.null) :
    preprocess_with conv v2 v3 cul_msg = v3 bit_string := by
  rw [preprocess_with_framed conv v2 v3 cul_msg h1 h2, hc]
  simp only [hv]

theorem take_two_eq_iff_begins (cul_msg : List Char) :
    cul_msg.take 2 = "om".toList ↔ "om".toList <+: cul_msg := by
  rw [List.prefix_iff_eq_take]
  constructor
  · intro h
    exact h.symm
  · intro h
    exact h.symm

theorem parse_with_of_bytes (table : List SensorType) (stack : Nat → Nat)
    (hex_msg : List Char) (bytes : List Nat)
    (h : hex_to_bytes hex_msg 32 = some bytes) (h3 : 3 ≤ bytes.length) :
    parse_oregon_message_with table stack hex_msg
      = parse_bytes table (msg_bytes_of stack bytes) := by
  unfold parse_oregon_message_with
  rw [h]
  simp only
  rw [if_neg (by omega)]

theorem parse_bytes_unknown (table : List SensorType) (m : Nat → Nat)
    (h : find_sensor table (((m 1 <<< 8) ||| m 2) % 2 ^ 16) (m 0) = none) :
    parse_bytes table m = ParseResult.unknown_sensor := by
  unfold parse_bytes
  simp only [h]

theorem parse_bytes_found (table : List SensorType) (m : Nat → Nat) (row : SensorType)
    (h : find_sensor table (((m 1 <<< 8) ||| m 2) % 2 ^ 16) (m 0) = some row) :
    parse_bytes table m = report_sensor row (fun i => m (i + 1)) := by
  unfold parse_bytes
  simp only [h]

theorem scenario1_preprocess_eq :
    preprocess_cul_message scenario1_msg = CResult.str scenario1_hex := by
  decide

theorem scenario1_bytes :
    hex_to_bytes scenario1_hex 32
      = some [0x48, 0x1a, 0x2d, 0x10, 0xf4, 0x00, 0x23, 0x30, 0x44, 0x00] := by
  decide

theorem scenario1_no_row :
    find_sensor SENSOR_TYPES (((0x1a <<< 8) ||| 0x2d) % 2 ^ 16) ((0x48 : Nat) : Int) = none := by
  rfl

theorem scenario1_parse_eq (stack : Nat → Nat) :
    parse_oregon_message stack scenario1_hex = ParseResult.unknown_sensor := by
  unfold parse_oregon_message
  rw [parse_with_of_bytes _ _ _ _ scenario1_bytes (by decide)]
  apply parse_bytes_unknown
  exact scenario1_no_row

/-- C1 (as stated, refuted): for the scenario 1 message there is no run in which the
preprocessor returns a string on which the parser reports a decoded row with three
readings. -/
theorem C1_scenario1_no_readings :
    ¬ ∃ s : List Char, preprocess_cul_message scenario1_msg = CResult.str s ∧
        ∃ (stack : Nat → Nat) (part_name : List Char) (readings : List OregonReading),
          parse_oregon_message stack s = ParseResult.decoded part_name readings ∧
          readings.length = 3 := by
  rintro ⟨s, hs, stack, part_name, readings, hp, _⟩
  rw [scenario1_preprocess_eq] at hs
  injection hs with hs
  subst hs
  rw [scenario1_parse_eq] at hp
  cases hp

/-- C1 (amended): for the scenario 1 message the preprocessor returns
"481A2D10F40023304400" (declared length 0x48 = 72, type id 0x1A2D); none of the
candidate lengths 72, 68, 64 with that type id has a registry row (THGR228N is
registered for length 80), so the parser ends with "unknown sensor", runs no
checksum and reports no readings, whatever the stack held. -/
theorem C1_scenario1_unknown_sensor :
    preprocess_cul_message scenario1_msg = CResult.str "481A2D10F40023304400".toList ∧
    find_key SENSOR_TYPES 0x1a2d0048 = none ∧
    find_key SENSOR_TYPES 0x1a2d0044 = none ∧
    find_key SENSOR_TYPES 0x1a2d0040 = none ∧
    (find_key SENSOR_TYPES 0x1a2d0050).map SensorType.part_name = some "THGR228N".toList ∧
    ∀ stack : Nat → Nat,
      parse_oregon_message stack "481A2D10F40023304400".toList = ParseResult.unknown_sensor ∧
      (parse_oregon_message stack "481A2D10F40023304400".toList).readings = [] := by
  refine ⟨scenario1_preprocess_eq, rfl, rfl, rfl, rfl, fun stack => ?_⟩
  have h := scenario1_parse_eq stack
  unfold scenario1_hex at h
  rw [h]
  exact ⟨rfl, rfl⟩

/-- C2: on the scenario 1 message the preprocessor succeeds; the 46 hex characters
after "om" convert to a bit string on which the V2 decoder returns
"481A2D10F40023304400", and that is the string the preprocessor returns, whatever
the V3 decoder would do (it is not consulted). -/
theorem C2_scenario1_v2_path :
    (scenario1_msg.drop 2).length = 46 ∧
    ∃ bits : List Char,
      raw_hex_to_bit_string (scenario1_msg.drop 2) = some bits ∧
      decode_oregon_v2 bits = CResult.str "481A2D10F40023304400".toList ∧
      preprocess_cul_message scenario1_msg = decode_oregon_v2 bits ∧
      ∀ v3 : List Char → CResult,
        preprocess_with raw_hex_to_bit_string decode_oregon_v2 v3 scenario1_msg
          = decode_oregon_v2 bits := by
  refine ⟨by decide, ?_⟩
  have hm : (raw_hex_to_bit_string (scenario1_msg.drop 2)).map decode_oregon_v2
      = some (CResult.str "481A2D10F40023304400".toList) := by decide
  cases hb : raw_hex_to_bit_string (scenario1_msg.drop 2) with
  | none =>
    rw [hb] at hm
    cases hm
  | some bits =>
    rw [hb] at hm
    have hv : decode_oregon_v2 bits = CResult.str "481A2D10F40023304400".toList := by
      injection hm
    have hne : decode_oregon_v2 bits ≠ CResult.null := by
      rw [hv]
      intro hc
      cases hc
    refine ⟨bits, rfl, hv, ?_, fun v3 => ?_⟩
    · exact preprocess_with_v2 _ _ _ _ _ (by decide) (by decide) hb hne
    · exact preprocess_with_v2 _ _ _ _ _ (by decide) (by decide) hb hne

/-- C3: a message that does not begin with "om", or is shorter than 4 characters,
makes `preprocess_cul_message` return `NULL`, and it does so for any converter and
decoders put in place of the real ones: none of them is consulted. -/
theorem C3_bad_framing_null (cul_msg : List Char)
    (h : ¬ ("om".toList <+: cul_msg) ∨ cul_msg.length < 4) :
    preprocess_cul_message cul_msg = CResult.null ∧
    ∀ (conv : List Char → Option (List Char)) (v2 v3 : List Char → CResult),
      preprocess_with conv v2 v3 cul_msg = CResult.null := by
  have h2 : cul_msg.take 2 ≠ "om".toList ∨ cul_msg.length < 4 := by
    rcases h with h | h
    · left
      intro ht
      exact h ((take_two_eq_iff_begins cul_msg).mp ht)
    · right
      exact h
  exact ⟨preprocess_with_bad_framing _ _ _ _ h2,
    fun conv v2 v3 => preprocess_with_bad_framing conv v2 v3 cul_msg h2⟩

/-- C3 witness: the scenario 1 text without its "om" marker, and the 3-character "om1". -/
theorem C3_bad_framing_null_witness :
    (¬ ("om".toList <+: "AAAAAAAB32D4CB35".toList) ∨ "AAAAAAAB32D4CB35".toList.length < 4) ∧
    preprocess_cul_message "AAAAAAAB32D4CB35".toList = CResult.null ∧
    (¬ ("om".toList <+: "om1".toList) ∨ "om1".toList.length < 4) ∧
    preprocess_cul_message "om1".toList = CResult.null :=
  ⟨by decide, (C3_bad_framing_null "AAAAAAAB32D4CB35".toList (by decide)).1,
    by decide, (C3_bad_framing_null "om1".toList (by decide)).1⟩

theorem manchester_chunk_length (p : List Char) : (manchester_chunk p).length = 8 := by
  simp [manchester_chunk, List.length_take]

theorem fmt_02X_length (v : Nat) : 2 ≤ (fmt_02X v).length := by
  unfold fmt_02X pad_zero
  rw [List.length_append, List.length_replicate]
  omega

theorem v2_loop_length_pos (fuel : Nat) (p : List Char) (hf : 0 < fuel)
    (hp : 16 ≤ p.length) : 8 ≤ (v2_loop fuel p).length := by
  cases fuel with
  | zero => omega
  | succ n =>
    unfold v2_loop
    rw [if_pos hp, List.length_append, manchester_chunk_length]
    omega

theorem bits_to_hex_length_pos (fuel : Nat) (rest : List Char) (hf : 0 < fuel)
    (hr : rest ≠ []) : 2 ≤ (bits_to_hex fuel rest).length := by
  cases fuel with
  | zero => omega
  | succ n =>
    unfold bits_to_hex
    rw [if_neg hr, List.length_append]
    have := fmt_02X_length (bin_str_to_byte (rest.take 8))
    omega

theorem decode_oregon_v2_not_null (bit_data : List Char) (pos : Nat)
    (hs : strstr bit_data "10011001".toList = some pos)
    (hlen : pos + 16 ≤ bit_data.length) :
    decode_oregon_v2 bit_data ≠ CResult.null := by
  unfold decode_oregon_v2
  rw [hs]
  simp only
  have h8 : 8 ≤ (v2_loop bit_data.length (bit_data.drop pos)).length := by
    apply v2_loop_length_pos
    · omega
    · rw [List.length_drop]
      omega
  have hne : v2_loop bit_data.length (bit_data.drop pos) ≠ [] := by
    intro h0
    rw [h0] at h8
    simp at h8
  have h2 := bits_to_hex_length_pos (v2_loop bit_data.length (bit_data.drop pos)).length
    (v2_loop bit_data.length (bit_data.drop pos)) (by omega) hne
  split_ifs with ha hb hc
  · intro h
    cases h
  · intro h
    cases h
  · omega
  · intro h
    cases h

/-- C5 (the code at the failing input): for "omF5" followed by 63 times "0" the
bit string is "11110101" and 252 times "0"; the V2 decoder returns `NULL` and the
V3 decoder 32 payload bytes; the bit count 256 is printed as the three digits
"100", so the returned string has 67 = 3 + 2 * 32 characters, not 2 + 2 * 32, and
is one character longer than the `strlen(final_hex) + 3` bytes allocated for it
allow. -/
theorem C5_three_digit_length :
    long_v3_msg.length = 67 ∧
    raw_hex_to_bit_string (long_v3_msg.drop 2)
      = some ("11110101".toList ++ List.replicate 252 '0') ∧
    decode_oregon_v2 ("11110101".toList ++ List.replicate 252 '0') = CResult.null ∧
    decode_oregon_v3 ("11110101".toList ++ List.replicate 252 '0')
      = CResult.str ("100".toList ++ "0A".toList ++ List.replicate 62 '0') ∧
    preprocess_cul_message long_v3_msg
      = CResult.str ("100".toList ++ "0A".toList ++ List.replicate 62 '0') ∧
    ("100".toList ++ "0A".toList ++ List.replicate 62 '0').length = 3 + 2 * 32 ∧
    ("0A".toList ++ List.replicate 62 '0').length + 3
      < ("100".toList ++ "0A".toList ++ List.replicate 62 '0').length + 1 := by
  refine ⟨by decide, by decide, by decide, by decide, by decide, by decide, by decide⟩

theorem sensor_key_lt (type_id : Nat) (b : Int) (ht : type_id < 2 ^ 16) (hb : b < 256) :
    sensor_key type_id b < 2 ^ 32 := by
  unfold sensor_key
  apply Nat.or_lt_two_pow
  · rw [Nat.shiftLeft_eq]
    have : type_id * 2 ^ 16 < 2 ^ 16 * 2 ^ 16 := Nat.mul_lt_mul_of_pos_right ht (by norm_num)
    calc type_id * 2 ^ 16 < 2 ^ 16 * 2 ^ 16 := this
      _ = 2 ^ 32 := by norm_num
  · have : b.toNat < 256 := by omega
    calc b.toNat < 256 := this
      _ ≤ 2 ^ 32 := by norm_num

theorem find_sensor_loop_step (table : List SensorType) (type_id : Nat) (bits : Int)
    (fuel : Nat) (b : Int) (ht : type_id < 2 ^ 16) (hb : b < 256) :
    find_sensor_loop table type_id bits (fuel + 1) b =
      if b ≥ bits - 8 ∧ b > 0 then
        match find_key table (sensor_key type_id b) with
        | some s => some s
        | none => find_sensor_loop table type_id bits fuel (b - 4)
      else none := by
  rw [find_sensor_loop]
  have h : ((type_id <<< 16) ||| b.toNat) % 2 ^ 32 = sensor_key type_id b :=
    Nat.mod_eq_of_lt (sensor_key_lt type_id b ht hb)
  rw [h]

theorem find_sensor_loop_stop (table : List SensorType) (type_id : Nat) (bits : Int)
    (fuel : Nat) (b : Int) (h : b < bits - 8 ∨ b ≤ 0) :
    find_sensor_loop table type_id bits fuel b = none := by
  cases fuel with
  | zero => rfl
  | succ k =>
    rw [find_sensor_loop, if_neg]
    intro hc
    omega

theorem find_sensor_eq_reference (table : List SensorType) (type_id : Nat) (n : Nat)
    (ht : type_id < 2 ^ 16) (hn : n < 256) :
    find_sensor table type_id (n : Int) = lookup_reference table type_id (n : Int) := by
  unfold find_sensor lookup_reference lookup_candidates
  rw [Int.toNat_ofNat]
  rcases Nat.lt_or_ge n 1 with h0 | h1
  · have : n = 0 := by omega
    subst this
    simp [find_sensor_loop]
  · obtain ⟨m, rfl⟩ : ∃ m, n = m + 1 := ⟨n - 1, by omega⟩
    rw [find_sensor_loop_step table type_id _ m _ ht (by omega)]
    generalize hL : ((m + 1 : Nat) : Int) = L
    have hL1 : 1 ≤ L := by omega
    have hL2 : L < 256 := by omega
    have hpos : (0 : Int) < L := by omega
    rw [if_pos ⟨by omega, by omega⟩]
    by_cases h4 : (0 : Int) < L - 4
    · obtain ⟨k, rfl⟩ : ∃ k, m = k + 1 := ⟨m - 1, by omega⟩
      rw [find_sensor_loop_step table type_id _ k _ ht (by omega), if_pos ⟨by omega, by omega⟩]
      by_cases h8 : (0 : Int) < L - 8
      · obtain ⟨j, rfl⟩ : ∃ j, k = j + 1 := ⟨k - 1, by omega⟩
        rw [find_sensor_loop_step table type_id _ j _ ht (by omega),
          if_pos ⟨by omega, by omega⟩,
          find_sensor_loop_stop table type_id L j (L - 4 - 4 - 4) (by omega)]
        have e8 : L - 4 - 4 = L - 8 := by omega
        rw [e8]
        simp only [List.filter_cons, hpos, h4, h8, decide_True, if_true, List.filter_nil,
          List.findSome?_cons, List.findSome?_nil]
        cases find_key table (sensor_key type_id L) <;>
          cases find_key table (sensor_key type_id (L - 4)) <;>
          cases find_key table (sensor_key type_id (L - 8)) <;> rfl
      · rw [find_sensor_loop_stop table type_id L k (L - 4 - 4) (by omega)]
        simp only [List.filter_cons, hpos, h4, h8, decide_True, decide_False, if_true,
          List.filter_nil, List.findSome?_cons, List.findSome?_nil]
        cases find_key table (sensor_key type_id L) <;>
          cases find_key table (sensor_key type_id (L - 4)) <;> simp
    · have h8 : ¬ (0 : Int) < L - 8 := by omega
      rw [find_sensor_loop_stop table type_id L m (L - 4) (by omega)]
      simp only [List.filter_cons, hpos, h4, h8, decide_True, decide_False, if_true,
        List.filter_nil, List.findSome?_cons, List.findSome?_nil]
      cases find_key table (sensor_key type_id L) <;> simp

theorem char_le_toNat (a b : Char) : a ≤ b ↔ a.toNat ≤ b.toNat := by
  rw [Char.le_def]
  exact UInt32.le_def

theorem hex_digit_val_lt (c : Char) (v : Nat) (h : hex_digit_val c = some v) : v < 16 := by
  unfold hex_digit_val at h
  have e0 : ('0' : Char).toNat = 48 := rfl
  have e9 : ('9' : Char).toNat = 57 := rfl
  have ea : ('a' : Char).toNat = 97 := rfl
  have ef : ('f' : Char).toNat = 102 := rfl
  have eA : ('A' : Char).toNat = 65 := rfl
  have eF : ('F' : Char).toNat = 70 := rfl
  simp only [char_le_toNat, e0, e9, ea, ef, eA, eF] at h
  split_ifs at h with h1 h2 h3
  · injection h with h
    omega
  · injection h with h
    omega
  · injection h with h
    omega

theorem sscanf_2hhx_lt (s : List Char) (b : Nat) (h : sscanf_2hhx s = some b) : b < 256 := by
  unfold sscanf_2hhx at h
  cases hd : s.dropWhile isspace with
  | nil =>
    rw [hd] at h
    cases h
  | cons c0 rest =>
    rw [hd] at h
    simp only at h
    by_cases hs : c0 = '+' ∨ c0 = '-'
    · rw [if_pos hs] at h
      cases rest with
      | nil => cases h
      | cons c1 tl =>
        simp only at h
        cases hv : hex_digit_val c1 with
        | none =>
          rw [hv] at h
          cases h
        | some v =>
          rw [hv] at h
          simp only at h
          have hlt := hex_digit_val_lt _ _ hv
          injection h with h
          subst h
          by_cases hm : c0 = '-'
          · rw [if_pos hm]
            omega
          · rw [if_neg hm]
            omega
    · rw [if_neg hs] at h
      cases hv0 : hex_digit_val c0 with
      | none =>
        rw [hv0] at h
        cases h
      | some v0 =>
        rw [hv0] at h
        simp only at h
        have h0 := hex_digit_val_lt _ _ hv0
        cases rest with
        | nil =>
          simp only at h
          injection h with h
          omega
        | cons c1 tl =>
          simp only at h
          by_cases hx : c0 = '0' ∧ (c1 = 'x' ∨ c1 = 'X')
          · rw [if_pos hx] at h
            cases h
          · rw [if_neg hx] at h
            cases hv1 : hex_digit_val c1 with
            | none =>
              rw [hv1] at h
              simp only at h
              injection h with h
              omega
            | some v1 =>
              rw [hv1] at h
              simp only at h
              have h1 := hex_digit_val_lt _ _ hv1
              injection h with h
              omega

theorem hex_to_bytes_loop_lt (byte_len : Nat) :
    ∀ (s : List Char) (bytes : List Nat), hex_to_bytes_loop byte_len s = some bytes →
      ∀ b ∈ bytes, b < 256 := by
  induction byte_len with
  | zero =>
    intro s bytes h b hb
    rw [hex_to_bytes_loop] at h
    injection h with h
    subst h
    cases hb
  | succ n ih =>
    intro s bytes h b hb
    rw [hex_to_bytes_loop] at h
    split at h
    · cases h
    · rename_i b0 hb0
      split at h
      · cases h
      · rename_i bs hbs
        injection h with h
        subst h
        rcases List.mem_cons.mp hb with hb | hb
        · subst hb
          exact sscanf_2hhx_lt _ _ hb0
        · exact ih _ _ hbs b hb

theorem hex_to_bytes_lt (hex_str : List Char) (max_len : Nat) (bytes : List Nat)
    (h : hex_to_bytes hex_str max_len = some bytes) : ∀ b ∈ bytes, b < 256 := by
  unfold hex_to_bytes at h
  split_ifs at h
  exact hex_to_bytes_loop_lt _ _ _ h

theorem getD_lt (bytes : List Nat) (hb : ∀ b ∈ bytes, b < 256) (i d : Nat) (hd : d < 256) :
    bytes.getD i d < 256 := by
  by_cases hi : i < bytes.length
  · rw [List.getD_eq_getElem _ _ hi]
    exact hb _ (List.getElem_mem _)
  · rw [List.getD_eq_default _ _ (by omega)]
    exact hd

theorem msg_bytes_of_lt (stack : Nat → Nat) (bytes : List Nat) (hb : ∀ b ∈ bytes, b < 256)
    (i : Nat) : msg_bytes_of stack bytes i < 256 := by
  unfold msg_bytes_of
  exact getD_lt bytes hb i _ (Nat.mod_lt _ (by norm_num))

theorem msg_bytes_of_stored (stack : Nat → Nat) (bytes : List Nat) (i : Nat)
    (hi : i < bytes.length) : msg_bytes_of stack bytes i = bytes.getD i 0 := by
  unfold msg_bytes_of
  rw [List.getD_eq_getElem _ _ hi, List.getD_eq_getElem _ _ hi]

theorem type_id_eq (a b : Nat) (ha : a < 256) (hb : b < 256) :
    ((a <<< 8) ||| b) % 2 ^ 16 = a * 256 + b := by
  rw [Nat.shiftLeft_eq]
  have h := Nat.mul_add_lt_is_or (i := 8) (b := b) (by norm_num; exact hb) a
  rw [Nat.mul_comm] at h
  rw [← h]
  apply Nat.mod_eq_of_lt
  norm_num
  omega

theorem sensor_keys_nodup : (SENSOR_TYPES.map SensorType.key).Nodup := by
  decide

theorem find_key_some (table : List SensorType) (key : Nat) (row : SensorType)
    (h : find_key table key = some row) : row ∈ table ∧ row.key = key := by
  unfold find_key at h
  refine ⟨List.mem_of_find?_eq_some h, ?_⟩
  have := List.find?_some h
  simpa using this

theorem find_key_none (table : List SensorType) (key : Nat) :
    find_key table key = none ↔ ∀ r ∈ table, r.key ≠ key := by
  unfold find_key
  rw [List.find?_eq_none]
  simp

theorem find_key_of_mem (table : List SensorType) (hu : (table.map SensorType.key).Nodup)
    (row : SensorType) (hr : row ∈ table) : find_key table row.key = some row := by
  cases h : find_key table row.key with
  | none => exact absurd rfl ((find_key_none table row.key).mp h row hr)
  | some r =>
    obtain ⟨hm, hk⟩ := find_key_some _ _ _ h
    rw [List.inj_on_of_nodup_map hu hm hr hk]

theorem find_key_perm (t1 t2 : List SensorType) (hp : t1.Perm t2)
    (hu : (t2.map SensorType.key).Nodup) (key : Nat) :
    find_key t1 key = find_key t2 key := by
  cases h2 : find_key t2 key with
  | none =>
    rw [find_key_none] at h2 ⊢
    intro r hr
    exact h2 r (hp.mem_iff.mp hr)
  | some r =>
    obtain ⟨hm, hk⟩ := find_key_some _ _ _ h2
    have hu1 : (t1.map SensorType.key).Nodup := (hp.map SensorType.key).nodup_iff.mpr hu
    have := find_key_of_mem t1 hu1 r (hp.mem_iff.mpr hm)
    rw [hk] at this
    exact this

theorem find_sensor_loop_perm (t1 t2 : List SensorType) (hp : t1.Perm t2)
    (hu : (t2.map SensorType.key).Nodup) (type_id : Nat) (bits : Int) (fuel : Nat) :
    ∀ b : Int, find_sensor_loop t1 type_id bits fuel b = find_sensor_loop t2 type_id bits fuel b := by
  induction fuel with
  | zero =>
    intro b
    rfl
  | succ n ih =>
    intro b
    rw [find_sensor_loop, find_sensor_loop, find_key_perm t1 t2 hp hu, ih]

theorem candidates_pairwise (L : Int) : (lookup_candidates L).Pairwise (fun a b => b < a) := by
  unfold lookup_candidates
  apply List.Pairwise.filter
  apply List.Pairwise.cons
  · intro a ha
    simp only [List.mem_cons, List.mem_singleton, List.not_mem_nil, or_false] at ha
    rcases ha with rfl | rfl <;> omega
  · apply List.Pairwise.cons
    · intro a ha
      simp only [List.mem_cons, List.mem_singleton, List.not_mem_nil, or_false] at ha
      subst ha
      omega
    · apply List.Pairwise.cons
      · intro a ha
        cases ha
      · exact List.Pairwise.nil

theorem candidates_length (L : Int) : (lookup_candidates L).length ≤ 3 := by
  unfold lookup_candidates
  exact (List.length_filter_le _ _)

theorem lookup_reference_some_iff (table : List SensorType)
    (hu : (table.map SensorType.key).Nodup) (type_id : Nat) (L : Int) (row : SensorType) :
    lookup_reference table type_id L = some row ↔
      row ∈ table ∧ ∃ b ∈ lookup_candidates L, row.key = sensor_key type_id b ∧
        ∀ b2 ∈ lookup_candidates L, b < b2 → ∀ r ∈ table, r.key ≠ sensor_key type_id b2 := by
  unfold lookup_reference
  rw [List.findSome?_eq_some_iff]
  constructor
  · rintro ⟨l1, b, l2, hl, hf, hnone⟩
    obtain ⟨hm, hk⟩ := find_key_some _ _ _ hf
    refine ⟨hm, b, ?_, hk, ?_⟩
    · rw [hl]
      simp
    · intro b2 hb2 hlt
      have hpw := candidates_pairwise L
      rw [hl, List.pairwise_append] at hpw
      obtain ⟨_, hp2, _⟩ := hpw
      rw [List.pairwise_cons] at hp2
      rw [hl, List.mem_append, List.mem_cons] at hb2
      rcases hb2 with h1 | h1 | h1
      · exact (find_key_none _ _).mp (hnone b2 h1)
      · omega
      · have := hp2.1 b2 h1
        omega
  · rintro ⟨hm, b, hb, hk, hlarger⟩
    obtain ⟨l1, l2, hl⟩ := List.append_of_mem hb
    refine ⟨l1, b, l2, hl, ?_, ?_⟩
    · rw [← hk]
      exact find_key_of_mem table hu row hm
    · intro x hx
      have hpw := candidates_pairwise L
      rw [hl, List.pairwise_append] at hpw
      obtain ⟨_, _, hp3⟩ := hpw
      have hlt : b < x := hp3 x hx b (by simp)
      apply (find_key_none _ _).mpr
      exact hlarger x (by rw [hl]; simp [hx]) hlt

theorem lookup_reference_none_iff (table : List SensorType) (type_id : Nat) (L : Int) :
    lookup_reference table type_id L = none ↔
      ∀ b ∈ lookup_candidates L, ∀ r ∈ table, r.key ≠ sensor_key type_id b := by
  unfold lookup_reference
  rw [List.findSome?_eq_none_iff]
  constructor
  · intro h b hb
    exact (find_key_none _ _).mp (h b hb)
  · intro h b hb
    exact (find_key_none _ _).mpr (h b hb)

theorem report_sensor_ne_unknown (row : SensorType) (payload : Nat → Nat) :
    report_sensor row payload ≠ ParseResult.unknown_sensor := by
  unfold report_sensor
  split_ifs
  · split <;> (intro h; cases h)
  · intro h
    cases h

theorem parse_bytes_eq (table : List SensorType) (m : Nat → Nat) :
    parse_bytes table m =
      match find_sensor table (((m 1 <<< 8) ||| m 2) % 2 ^ 16) (m 0) with
      | none => ParseResult.unknown_sensor
      | some row => report_sensor row (fun i => m (i + 1)) := by
  cases h : find_sensor table (((m 1 <<< 8) ||| m 2) % 2 ^ 16) (m 0) with
  | none => rw [parse_bytes_unknown _ _ h]
  | some row => rw [parse_bytes_found _ _ _ h]

theorem parse_with_eq_find (table : List SensorType) (stack : Nat → Nat)
    (hex_msg : List Char) (bytes : List Nat)
    (h : hex_to_bytes hex_msg 32 = some bytes) (h3 : 3 ≤ bytes.length) :
    parse_oregon_message_with table stack hex_msg =
      match find_sensor table (payload_type_id bytes) (declared_bits bytes) with
      | none => ParseResult.unknown_sensor
      | some row => report_sensor row (payload_of stack bytes) := by
  rw [parse_with_of_bytes table stack hex_msg bytes h h3, parse_bytes_eq]
  have hlt := hex_to_bytes_lt _ _ _ h
  have e0 : msg_bytes_of stack bytes 0 = bytes.getD 0 0 :=
    msg_bytes_of_stored stack bytes 0 (by omega)
  have e1 : msg_bytes_of stack bytes 1 = bytes.getD 1 0 :=
    msg_bytes_of_stored stack bytes 1 (by omega)
  have e2 : msg_bytes_of stack bytes 2 = bytes.getD 2 0 :=
    msg_bytes_of_stored stack bytes 2 (by omega)
  rw [e0, e1, e2, type_id_eq _ _ (getD_lt bytes hlt 1 0 (by norm_num))
    (getD_lt bytes hlt 2 0 (by norm_num))]
  rfl

theorem payload_type_id_lt (bytes : List Nat) (hlt : ∀ b ∈ bytes, b < 256) :
    payload_type_id bytes < 2 ^ 16 := by
  unfold payload_type_id
  have h1 := getD_lt bytes hlt 1 0 (by norm_num)
  have h2 := getD_lt bytes hlt 2 0 (by norm_num)
  have e : (2 : Nat) ^ 16 = 65536 := by norm_num
  rw [e]
  omega

theorem parse_with_eq_reference (table : List SensorType) (stack : Nat → Nat)
    (hex_msg : List Char) (bytes : List Nat)
    (h : hex_to_bytes hex_msg 32 = some bytes) (h3 : 3 ≤ bytes.length) :
    find_sensor table (payload_type_id bytes) (declared_bits bytes)
      = lookup_reference table (payload_type_id bytes) (declared_bits bytes) ∧
    parse_oregon_message_with table stack hex_msg =
      match lookup_reference table (payload_type_id bytes) (declared_bits bytes) with
      | none => ParseResult.unknown_sensor
      | some row => report_sensor row (payload_of stack bytes) := by
  have hlt := hex_to_bytes_lt _ _ _ h
  have hf : find_sensor table (payload_type_id bytes) (declared_bits bytes)
      = lookup_reference table (payload_type_id bytes) (declared_bits bytes) := by
    unfold declared_bits
    exact find_sensor_eq_reference table _ _ (payload_type_id_lt bytes hlt)
      (getD_lt bytes hlt 0 0 (by norm_num))
  refine ⟨hf, ?_⟩
  rw [parse_with_eq_find table stack hex_msg bytes h h3, hf]

theorem find_sensor_perm (t1 t2 : List SensorType) (hp : t1.Perm t2)
    (hu : (t2.map SensorType.key).Nodup) (type_id : Nat) (bits : Int) :
    find_sensor t1 type_id bits = find_sensor t2 type_id bits := by
  unfold find_sensor
  exact find_sensor_loop_perm t1 t2 hp hu type_id bits _ _

/-- C6: for a message that decodes to at least 3 bytes, with `L` byte 0 and `type_id`
the big-endian value of payload bytes 0 and 1: the candidates are at most three
(`L`, `L - 4`, `L - 8`, those above 0); the search of the parser finds what the
reference lookup finds, the row of the first candidate that has one; that row is
the registry row with key `(type_id << 16) | b` for the largest candidate `b`
that has a row; any reordering of the registry gives the same parse; and the parse
ends with "unknown sensor" exactly when no candidate has a row. -/
theorem C6_sensor_lookup (stack : Nat → Nat) (hex_msg : List Char) (bytes : List Nat)
    (h : hex_to_bytes hex_msg 32 = some bytes) (h3 : 3 ≤ bytes.length) :
    (lookup_candidates (declared_bits bytes)).length ≤ 3 ∧
    find_sensor SENSOR_TYPES (payload_type_id bytes) (declared_bits bytes)
      = lookup_reference SENSOR_TYPES (payload_type_id bytes) (declared_bits bytes) ∧
    (parse_oregon_message stack hex_msg =
      match lookup_reference SENSOR_TYPES (payload_type_id bytes) (declared_bits bytes) with
      | none => ParseResult.unknown_sensor
      | some row => report_sensor row (payload_of stack bytes)) ∧
    (∀ row : SensorType,
      lookup_reference SENSOR_TYPES (payload_type_id bytes) (declared_bits bytes) = some row ↔
        row ∈ SENSOR_TYPES ∧ ∃ b ∈ lookup_candidates (declared_bits bytes),
          row.key = sensor_key (payload_type_id bytes) b ∧
          ∀ b2 ∈ lookup_candidates (declared_bits bytes), b < b2 →
            ∀ r ∈ SENSOR_TYPES, r.key ≠ sensor_key (payload_type_id bytes) b2) ∧
    (∀ table : List SensorType, table.Perm SENSOR_TYPES →
      parse_oregon_message_with table stack hex_msg = parse_oregon_message stack hex_msg) ∧
    (parse_oregon_message stack hex_msg = ParseResult.unknown_sensor ↔
      ∀ b ∈ lookup_candidates (declared_bits bytes),
        ∀ r ∈ SENSOR_TYPES, r.key ≠ sensor_key (payload_type_id bytes) b) := by
  obtain ⟨hf, hp⟩ := parse_with_eq_reference SENSOR_TYPES stack hex_msg bytes h h3
  refine ⟨candidates_length _, hf, hp, ?_, ?_, ?_⟩
  · intro row
    exact lookup_reference_some_iff SENSOR_TYPES sensor_keys_nodup _ _ row
  · intro table hperm
    unfold parse_oregon_message
    rw [parse_with_eq_find table stack hex_msg bytes h h3,
      parse_with_eq_find SENSOR_TYPES stack hex_msg bytes h h3,
      find_sensor_perm table SENSOR_TYPES hperm sensor_keys_nodup]
  · rw [← lookup_reference_none_iff]
    have hp2 : parse_oregon_message stack hex_msg =
        match lookup_reference SENSOR_TYPES (payload_type_id bytes) (declared_bits bytes) with
        | none => ParseResult.unknown_sensor
        | some row => report_sensor row (payload_of stack bytes) := hp
    rw [hp2]
    cases hl : lookup_reference SENSOR_TYPES (payload_type_id bytes) (declared_bits bytes) with
    | none => simp
    | some row =>
      simp only
      constructor
      · intro hc
        exact absurd hc (report_sensor_ne_unknown _ _)
      · intro hc
        cases hc

/-- C6 witness: "581A2D10F400233044340000" declares 88 bits; 88 and 84 have no row
for type id 0x1A2D, 80 has one, and the parse is that of row THGR228N. -/
theorem C6_sensor_lookup_witness :
    hex_to_bytes lookup_third_hex 32
      = some [0x58, 0x1a, 0x2d, 0x10, 0xf4, 0x00, 0x23, 0x30, 0x44, 0x34, 0x00, 0x00] ∧
    lookup_candidates (declared_bits
      [0x58, 0x1a, 0x2d, 0x10, 0xf4, 0x00, 0x23, 0x30, 0x44, 0x34, 0x00, 0x00]) = [88, 84, 80] ∧
    find_key SENSOR_TYPES 0x1a2d0058 = none ∧ find_key SENSOR_TYPES 0x1a2d0054 = none ∧
    (find_key SENSOR_TYPES 0x1a2d0050).map SensorType.part_name = some "THGR228N".toList ∧
    (parse_oregon_message (fun _ => 0) lookup_third_hex =
      match lookup_reference SENSOR_TYPES (payload_type_id
          [0x58, 0x1a, 0x2d, 0x10, 0xf4, 0x00, 0x23, 0x30, 0x44, 0x34, 0x00, 0x00])
        (declared_bits [0x58, 0x1a, 0x2d, 0x10, 0xf4, 0x00, 0x23, 0x30, 0x44, 0x34, 0x00, 0x00]) with
      | none => ParseResult.unknown_sensor
      | some row => report_sensor row (payload_of (fun _ => 0)
          [0x58, 0x1a, 0x2d, 0x10, 0xf4, 0x00, 0x23, 0x30, 0x44, 0x34, 0x00, 0x00])) :=
  ⟨by decide, by decide, rfl, rfl, rfl,
    (C6_sensor_lookup (fun _ => 0) lookup_third_hex
      [0x58, 0x1a, 0x2d, 0x10, 0xf4, 0x00, 0x23, 0x30, 0x44, 0x34, 0x00, 0x00]
      (by decide) (by decide)).2.2.1⟩

theorem HI_NIBBLE_eq (x : Nat) (hx : x < 256) : HI_NIBBLE x = high_nibble x := by
  unfold HI_NIBBLE high_nibble
  have e : (0x0F : Nat) = 2 ^ 4 - 1 := by norm_num
  rw [e, Nat.and_pow_two_sub_one_eq_mod, Nat.shiftRight_eq_div_pow]
  norm_num
  omega

theorem LO_NIBBLE_eq (x : Nat) : LO_NIBBLE x = low_nibble x := by
  unfold LO_NIBBLE low_nibble
  have e : (0x0F : Nat) = 2 ^ 4 - 1 := by norm_num
  rw [e, Nat.and_pow_two_sub_one_eq_mod]

theorem nibble_sum_loop_eq (b : Nat → Nat) (hb : ∀ i, b i < 256) (n : Nat) :
    nibble_sum_loop b n = nibble_sum_reference b n := by
  induction n with
  | zero => rfl
  | succ k ih =>
    rw [nibble_sum_loop, ih, HI_NIBBLE_eq _ (hb k), LO_NIBBLE_eq]
    unfold nibble_sum_reference
    rw [List.range_succ, List.map_append, List.sum_append]
    simp only [List.map_cons, List.map_nil, List.sum_cons, List.sum_nil]
    push_cast
    omega

theorem float_to_int_natCast (n : Nat) : float_to_int (n : ℚ) = n := by
  unfold float_to_int
  rw [if_pos (by positivity)]
  exact Int.floor_natCast n

theorem nibble_sum_whole (b : Nat → Nat) (n : Nat) :
    nibble_sum b (n : ℚ) = nibble_sum_loop b n := by
  unfold nibble_sum
  simp only [float_to_int_natCast, Int.toNat_ofNat]
  rw [if_neg]
  simp

theorem float_to_int_six_half : float_to_int 6.5 = 6 := by
  unfold float_to_int
  rw [if_pos (by norm_num)]
  rw [Int.floor_eq_iff]
  constructor <;> norm_num

theorem nibble_sum_six_half (b : Nat → Nat) :
    nibble_sum b 6.5 = nibble_sum_loop b 6 + HI_NIBBLE (b 6) := by
  unfold nibble_sum
  simp only [float_to_int_six_half]
  rw [if_pos (by norm_num)]
  rfl

theorem checksum_byte_iff (x : Int) (c : Nat) :
    (decide ((x % 256).toNat = c) = true) ↔ x % 256 = (c : Int) := by
  have h0 : 0 ≤ x % 256 := Int.emod_nonneg x (by norm_num)
  rw [decide_eq_true_iff]
  omega

theorem nibble_sum_nat (b : Nat → Nat) (hb : ∀ i, b i < 256) (n : Nat) :
    nibble_sum b (n : ℚ) = nibble_sum_reference b n := by
  rw [nibble_sum_whole, nibble_sum_loop_eq b hb]

theorem checksum2_iff (b : Nat → Nat) (hb : ∀ i, b i < 256) :
    checksum2 b = true ↔ (nibble_sum_reference b 8 - 0xA) % 256 = (b 8 : Int) := by
  have e : nibble_sum b 8 = nibble_sum_reference b 8 := by
    have := nibble_sum_nat b hb 8
    exact_mod_cast this
  unfold checksum2
  simp only
  rw [checksum_byte_iff, e]

theorem checksum4_iff (b : Nat → Nat) (hb : ∀ i, b i < 256) :
    checksum4 b = true ↔ (nibble_sum_reference b 9 - 0xA) % 256 = (b 9 : Int) := by
  have e : nibble_sum b 9 = nibble_sum_reference b 9 := by
    have := nibble_sum_nat b hb 9
    exact_mod_cast this
  unfold checksum4
  simp only
  rw [checksum_byte_iff, e]

theorem checksum5_iff (b : Nat → Nat) (hb : ∀ i, b i < 256) :
    checksum5 b = true ↔ (nibble_sum_reference b 10 - 0xA) % 256 = (b 10 : Int) := by
  have e : nibble_sum b 10 = nibble_sum_reference b 10 := by
    have := nibble_sum_nat b hb 10
    exact_mod_cast this
  unfold checksum5
  simp only
  rw [checksum_byte_iff, e]

theorem checksum1_iff (b : Nat → Nat) (hb : ∀ i, b i < 256) :
    checksum1 b = true ↔
      (checksum1_sum_reference b - 0xA) % 256 = (checksum1_byte_reference b : Int) := by
  unfold checksum1 checksum1_sum_reference checksum1_byte_reference
  simp only
  rw [checksum_byte_iff, nibble_sum_six_half, nibble_sum_loop_eq b hb, HI_NIBBLE_eq _ (hb 6),
    LO_NIBBLE_eq]
  have h6 := hb 6
  have e : (high_nibble (b 6) + low_nibble (b 7) <<< 4) % 256
      = high_nibble (b 6) + low_nibble (b 7) <<< 4 := by
    apply Nat.mod_eq_of_lt
    rw [Nat.shiftLeft_eq]
    unfold high_nibble low_nibble
    norm_num
    omega
  rw [e]
  rfl

/-- C10: for every payload of bytes, `checksum2`, `checksum4` and `checksum5` pass
exactly when (the nibble sum of the first 8, 9, 10 bytes - 0xA) mod 256 equals
payload[8], payload[9], payload[10]; `checksum1` passes exactly when (the nibble sum
of payload[0..5] plus the high nibble of payload[6] - 0xA) mod 256 equals
high-nibble(payload[6]) + (low-nibble(payload[7]) << 4). -/
theorem C10_checksums_reference (b : Nat → Nat) (hb : ∀ i, b i < 256) :
    (checksum2 b = true ↔ (nibble_sum_reference b 8 - 0xA) % 256 = (b 8 : Int)) ∧
    (checksum4 b = true ↔ (nibble_sum_reference b 9 - 0xA) % 256 = (b 9 : Int)) ∧
    (checksum5 b = true ↔ (nibble_sum_reference b 10 - 0xA) % 256 = (b 10 : Int)) ∧
    (checksum1 b = true ↔
      (checksum1_sum_reference b - 0xA) % 256 = (checksum1_byte_reference b : Int)) :=
  ⟨checksum2_iff b hb, checksum4_iff b hb, checksum5_iff b hb, checksum1_iff b hb⟩

/-- C10 witness: on the payload 1A 2D 10 F4 00 23 30 44 34 00 the nibble sum of the
first 8 bytes is 62, 62 - 10 = 0x34 is payload[8], and `checksum2` passes. -/
theorem C10_checksums_reference_witness :
    (∀ i, sample_payload i < 256) ∧ nibble_sum_reference sample_payload 8 = 62 ∧
    sample_payload 8 = 0x34 ∧ checksum2 sample_payload = true :=
  ⟨fun i => getD_lt _ (by decide) i 0 (by decide), by decide, by decide,
    (C10_checksums_reference sample_payload
      (fun i => getD_lt _ (by decide) i 0 (by decide))).1.mpr (by decide)⟩

theorem payload_of_lt (stack : Nat → Nat) (hex_msg : List Char) (bytes : List Nat)
    (h : hex_to_bytes hex_msg 32 = some bytes) (i : Nat) : payload_of stack bytes i < 256 :=
  msg_bytes_of_lt stack bytes (hex_to_bytes_lt _ _ _ h) (i + 1)

theorem parse_eq_report (stack : Nat → Nat) (hex_msg : List Char) (bytes : List Nat)
    (h : hex_to_bytes hex_msg 32 = some bytes) (h3 : 3 ≤ bytes.length) (row : SensorType)
    (hrow : find_sensor SENSOR_TYPES (payload_type_id bytes) (declared_bits bytes) = some row) :
    parse_oregon_message stack hex_msg = report_sensor row (payload_of stack bytes) := by
  unfold parse_oregon_message
  rw [parse_with_eq_find SENSOR_TYPES stack hex_msg bytes h h3, hrow]

theorem report_sensor_checksum_failed (row : SensorType) (payload : Nat → Nat)
    (ck : (Nat → Nat) → Bool) (hck : row.checksum_func = some ck) (hf : ck payload = false) :
    report_sensor row payload = ParseResult.checksum_failed row.part_name := by
  unfold report_sensor
  rw [hck]
  simp only [hf]
  rfl

theorem report_sensor_no_method (row : SensorType) (payload : Nat → Nat)
    (hm : row.method_func = none)
    (hck : ∀ ck, row.checksum_func = some ck → ck payload = true) :
    report_sensor row payload = ParseResult.no_method row.part_name := by
  unfold report_sensor
  rw [hm]
  cases hc : row.checksum_func with
  | none => rfl
  | some ck =>
    simp only [hck ck hc]
    rfl

theorem report_sensor_decoded (row : SensorType) (payload : Nat → Nat) (m : method_func_t)
    (hm : row.method_func = some m)
    (hck : ∀ ck, row.checksum_func = some ck → ck payload = true) :
    report_sensor row payload = ParseResult.decoded row.part_name (m row.part_name payload) := by
  unfold report_sensor
  rw [hm]
  cases hc : row.checksum_func with
  | none => rfl
  | some ck =>
    simp only [hck ck hc]
    rfl

/-- C7: when the row found for a message has a checksum validator and that
validator rejects the payload, the parser ends with "checksum validation failed",
reports no readings, and does so whatever decode method the row has (the method
is not consulted); for a row using `checksum2` this is the case whenever
(nibble sum of payload[0..7] - 0xA) mod 256 differs from payload[8]. -/
theorem C7_checksum_mismatch (stack : Nat → Nat) (hex_msg : List Char) (bytes : List Nat)
    (h : hex_to_bytes hex_msg 32 = some bytes) (h3 : 3 ≤ bytes.length) (row : SensorType)
    (hrow : find_sensor SENSOR_TYPES (payload_type_id bytes) (declared_bits bytes) = some row)
    (ck : (Nat → Nat) → Bool) (hck : row.checksum_func = some ck) :
    (ck (payload_of stack bytes) = false →
      parse_oregon_message stack hex_msg = ParseResult.checksum_failed row.part_name ∧
      (parse_oregon_message stack hex_msg).readings = [] ∧
      (parse_oregon_message stack hex_msg).is_error = true ∧
      ∀ method : Option method_func_t,
        report_sensor { row with method_func := method } (payload_of stack bytes)
          = ParseResult.checksum_failed row.part_name) ∧
    (ck = checksum2 →
      (nibble_sum_reference (payload_of stack bytes) 8 - 0xA) % 256
        ≠ (payload_of stack bytes 8 : Int) →
      parse_oregon_message stack hex_msg = ParseResult.checksum_failed row.part_name ∧
      (parse_oregon_message stack hex_msg).readings = []) := by
  have hp := parse_eq_report stack hex_msg bytes h h3 row hrow
  have key : ck (payload_of stack bytes) = false →
      parse_oregon_message stack hex_msg = ParseResult.checksum_failed row.part_name := by
    intro hf
    rw [hp]
    exact report_sensor_checksum_failed row _ ck hck hf
  constructor
  · intro hf
    refine ⟨key hf, ?_, ?_, ?_⟩
    · rw [key hf]
      rfl
    · rw [key hf]
      rfl
    · intro method
      exact report_sensor_checksum_failed { row with method_func := method } _ ck hck hf
  · intro h2 hne
    have hf : ck (payload_of stack bytes) = false := by
      subst h2
      cases hv : checksum2 (payload_of stack bytes) with
      | false => rfl
      | true =>
        exact absurd ((checksum2_iff _ (payload_of_lt stack hex_msg bytes h)).mp hv) hne
    refine ⟨key hf, ?_⟩
    rw [key hf]
    rfl

theorem bad_checksum_rejected :
    checksum2 (payload_of (fun _ => 0)
      [0x50, 0x1a, 0x2d, 0x10, 0xf4, 0x00, 0x23, 0x30, 0x44, 0x00, 0x00]) = false := by
  cases hv : checksum2 (payload_of (fun _ => 0)
      [0x50, 0x1a, 0x2d, 0x10, 0xf4, 0x00, 0x23, 0x30, 0x44, 0x00, 0x00]) with
  | false => rfl
  | true =>
    have hb : ∀ i, payload_of (fun _ => 0)
        [0x50, 0x1a, 0x2d, 0x10, 0xf4, 0x00, 0x23, 0x30, 0x44, 0x00, 0x00] i < 256 :=
      fun i => msg_bytes_of_lt _ _ (by decide) (i + 1)
    exact absurd ((checksum2_iff _ hb).mp hv) (by decide)

/-- C7 witness: "501A2D10F4002330440000" matches row THGR228N (`checksum2`); the
nibble sum of payload[0..7] is 62, 62 - 10 = 0x34 differs from payload[8] = 0x00,
`checksum2` rejects the payload and the parse ends with the checksum error. -/
theorem C7_checksum_mismatch_witness :
    hex_to_bytes bad_checksum_hex 32
      = some [0x50, 0x1a, 0x2d, 0x10, 0xf4, 0x00, 0x23, 0x30, 0x44, 0x00, 0x00] ∧
    parse_oregon_message (fun _ => 0) bad_checksum_hex
      = ParseResult.checksum_failed "THGR228N".toList ∧
    (parse_oregon_message (fun _ => 0) bad_checksum_hex).readings = [] :=
  ⟨by decide,
    ((C7_checksum_mismatch (fun _ => 0) bad_checksum_hex
      [0x50, 0x1a, 0x2d, 0x10, 0xf4, 0x00, 0x23, 0x30, 0x44, 0x00, 0x00] (by decide) (by decide)
      ⟨0x1a2d0050, "THGR228N".toList, some checksum2, some method_common_temphydro⟩ rfl
      checksum2 rfl).1 bad_checksum_rejected).1,
    ((C7_checksum_mismatch (fun _ => 0) bad_checksum_hex
      [0x50, 0x1a, 0x2d, 0x10, 0xf4, 0x00, 0x23, 0x30, 0x44, 0x00, 0x00] (by decide) (by decide)
      ⟨0x1a2d0050, "THGR228N".toList, some checksum2, some method_common_temphydro⟩ rfl
      checksum2 rfl).2 rfl (by decide)).2⟩

theorem find_sensor_loop_mem (table : List SensorType) (type_id : Nat) (bits : Int)
    (row : SensorType) (fuel : Nat) :
    ∀ b : Int, find_sensor_loop table type_id bits fuel b = some row → row ∈ table := by
  induction fuel with
  | zero =>
    intro b h
    rw [find_sensor_loop] at h
    cases h
  | succ n ih =>
    intro b h
    rw [find_sensor_loop] at h
    split_ifs at h with hc
    cases hk : find_key table (((type_id <<< 16) ||| b.toNat) % 2 ^ 32) with
    | none =>
      rw [hk] at h
      exact ih _ h
    | some s =>
      rw [hk] at h
      injection h with h
      subst h
      exact (find_key_some _ _ _ hk).1

theorem find_sensor_mem (table : List SensorType) (type_id : Nat) (bits : Int)
    (row : SensorType) (h : find_sensor table type_id bits = some row) : row ∈ table :=
  find_sensor_loop_mem table type_id bits row _ _ h

theorem null_method_rows (row : SensorType) (hr : row ∈ SENSOR_TYPES) :
    row.method_func = none ↔
      row.part_name ∈ ["WTGR800_A".toList, "WGR800".toList, "THWR288A".toList,
        "THN132N".toList] := by
  unfold SENSOR_TYPES at hr
  simp only [List.mem_cons, List.mem_singleton, List.not_mem_nil, or_false] at hr
  rcases hr with rfl | rfl | rfl | rfl | rfl | rfl | rfl | rfl | rfl | rfl
  all_goals first
    | exact ⟨fun _ => (by decide), fun _ => rfl⟩
    | exact ⟨fun hm => (by cases hm), fun hp => absurd hp (by decide)⟩

/-- C9: when the row found for a message has no decode method (in the registry
these are exactly WTGR800_A, WGR800, THWR288A and THN132N) and the payload passes
the row's checksum, the parser ends with the "no decoding method implemented"
notice for that row's part name, reports no readings and no error. -/
theorem C9_no_method_notice (stack : Nat → Nat) (hex_msg : List Char) (bytes : List Nat)
    (h : hex_to_bytes hex_msg 32 = some bytes) (h3 : 3 ≤ bytes.length) (row : SensorType)
    (hrow : find_sensor SENSOR_TYPES (payload_type_id bytes) (declared_bits bytes) = some row)
    (hm : row.method_func = none)
    (hck : ∀ ck, row.checksum_func = some ck → ck (payload_of stack bytes) = true) :
    parse_oregon_message stack hex_msg = ParseResult.no_method row.part_name ∧
    (parse_oregon_message stack hex_msg).readings = [] ∧
    (parse_oregon_message stack hex_msg).is_error = false ∧
    row.part_name ∈ ["WTGR800_A".toList, "WGR800".toList, "THWR288A".toList,
      "THN132N".toList] ∧
    ∀ r ∈ SENSOR_TYPES, (r.method_func = none ↔
      r.part_name ∈ ["WTGR800_A".toList, "WGR800".toList, "THWR288A".toList,
        "THN132N".toList]) := by
  have hp : parse_oregon_message stack hex_msg = ParseResult.no_method row.part_name := by
    rw [parse_eq_report stack hex_msg bytes h h3 row hrow]
    exact report_sensor_no_method row _ hm hck
  refine ⟨hp, ?_, ?_, ?_, fun r hr => null_method_rows r hr⟩
  · rw [hp]
    rfl
  · rw [hp]
    rfl
  · exact (null_method_rows row (find_sensor_mem _ _ _ _ hrow)).mp hm

/-- C9 witness: "40EA4C200000000002" matches row THN132N (`checksum1`, no method);
the nibble sum of payload[0..5] is 42, so `checksum1` passes, and the parse ends
with the notice for THN132N. -/
theorem C9_no_method_notice_witness :
    hex_to_bytes no_method_hex 32 = some [0x40, 0xea, 0x4c, 0x20, 0, 0, 0, 0, 0x02] ∧
    parse_oregon_message (fun _ => 0) no_method_hex
      = ParseResult.no_method "THN132N".toList :=
  ⟨by decide,
    (C9_no_method_notice (fun _ => 0) no_method_hex [0x40, 0xea, 0x4c, 0x20, 0, 0, 0, 0, 0x02]
      (by decide) (by decide) ⟨0xea4c0040, "THN132N".toList, some checksum1, none⟩ rfl rfl
      (fun ck hc => by
        injection hc with hc
        subst hc
        exact (checksum1_iff _ (payload_of_lt (fun _ => 0) no_method_hex _ (by decide))).mpr
          (by decide))).1⟩

theorem hex_to_bytes_loop_length (byte_len : Nat) :
    ∀ (s : List Char) (bytes : List Nat), hex_to_bytes_loop byte_len s = some bytes →
      bytes.length = byte_len := by
  induction byte_len with
  | zero =>
    intro s bytes h
    rw [hex_to_bytes_loop] at h
    injection h with h
    subst h
    rfl
  | succ n ih =>
    intro s bytes h
    rw [hex_to_bytes_loop] at h
    cases hb : sscanf_2hhx s with
    | none =>
      rw [hb] at h
      cases h
    | some b0 =>
      rw [hb] at h
      cases hr : hex_to_bytes_loop n (s.drop 2) with
      | none =>
        rw [hr] at h
        cases h
      | some bs =>
        rw [hr] at h
        injection h with h
        subst h
        rw [List.length_cons, ih _ _ hr]

theorem hex_to_bytes_length (hex_str : List Char) (max_len : Nat) (bytes : List Nat)
    (h : hex_to_bytes hex_str max_len = some bytes) :
    hex_str.length = 2 * bytes.length ∧ bytes.length ≤ max_len := by
  unfold hex_to_bytes at h
  split_ifs at h with h1 h2
  have := hex_to_bytes_loop_length _ _ _ h
  omega

theorem parse_rejects_bad_length (stack : Nat → Nat) (hex_msg : List Char)
    (h : hex_msg.length % 2 = 1 ∨ 64 < hex_msg.length ∨ hex_msg.length < 6) :
    parse_oregon_message stack hex_msg = ParseResult.invalid_message := by
  unfold parse_oregon_message parse_oregon_message_with
  cases hb : hex_to_bytes hex_msg 32 with
  | none => rfl
  | some bytes =>
    have hl := hex_to_bytes_length _ _ _ hb
    simp only
    rw [if_pos]
    omega

theorem nibble_sum_reference_congr (b1 b2 : Nat → Nat) (n : Nat)
    (h : ∀ i, i < n → b1 i = b2 i) :
    nibble_sum_reference b1 n = nibble_sum_reference b2 n := by
  unfold nibble_sum_reference
  have e : (List.range n).map (fun i => high_nibble (b1 i) + low_nibble (b1 i))
      = (List.range n).map (fun i => high_nibble (b2 i) + low_nibble (b2 i)) := by
    apply List.map_congr_left
    intro i hi
    rw [h i (List.mem_range.mp hi)]
  rw [e]

theorem bad_hex_payload (stack : Nat → Nat) (i : Nat) (hi : i < 10) :
    payload_of stack [0x50, 0x1a, 0x2d, 0x10, 0xf4, 0x00, 0x23, 0x30, 0x44, 0x34, 0x00] i
      = sample_payload i := by
  interval_cases i <;> rfl

theorem bad_hex_bytes :
    hex_to_bytes bad_hex_msg 32
      = some [0x50, 0x1a, 0x2d, 0x10, 0xf4, 0x00, 0x23, 0x30, 0x44, 0x34, 0x00] := by
  decide

/-- C8 (the code at the failing input): "501A2D10F40G2330443400" contains "G", which
is not a hex digit; `sscanf` with "%2hhx" reads the pair "0G" as the byte 0x00 and
returns 1, so `hex_to_bytes` returns 11 bytes, the lookup finds row THGR228N, the
checksum passes and three readings are reported, whatever the stack held. -/
theorem C8_non_hex_digit_accepted :
    'G' ∈ bad_hex_msg ∧ hex_digit_val 'G' = none ∧
    sscanf_2hhx (bad_hex_msg.drop 10) = some 0 ∧
    hex_to_bytes bad_hex_msg 32
      = some [0x50, 0x1a, 0x2d, 0x10, 0xf4, 0x00, 0x23, 0x30, 0x44, 0x34, 0x00] ∧
    ∀ stack : Nat → Nat,
      parse_oregon_message stack bad_hex_msg
        = ParseResult.decoded "THGR228N".toList
            (method_common_temphydro "THGR228N".toList
              (payload_of stack [0x50, 0x1a, 0x2d, 0x10, 0xf4, 0x00, 0x23, 0x30, 0x44, 0x34, 0x00])) ∧
      (parse_oregon_message stack bad_hex_msg).readings.length = 3 ∧
      (parse_oregon_message stack bad_hex_msg).readings.map OregonReading.type
        = ["temperature".toList, "humidity".toList, "battery_status".toList] := by
  refine ⟨by decide, by decide, by decide, bad_hex_bytes, fun stack => ?_⟩
  have hp : parse_oregon_message stack bad_hex_msg
      = ParseResult.decoded "THGR228N".toList
          (method_common_temphydro "THGR228N".toList
            (payload_of stack [0x50, 0x1a, 0x2d, 0x10, 0xf4, 0x00, 0x23, 0x30, 0x44, 0x34, 0x00])) := by
    rw [parse_eq_report stack bad_hex_msg _ bad_hex_bytes (by decide)
      ⟨0x1a2d0050, "THGR228N".toList, some checksum2, some method_common_temphydro⟩ rfl]
    apply report_sensor_decoded _ _ method_common_temphydro rfl
    intro ck hc
    injection hc with hc
    subst hc
    apply (checksum2_iff _ (payload_of_lt stack bad_hex_msg _ bad_hex_bytes)).mpr
    rw [nibble_sum_reference_congr _ sample_payload 8
      (fun i hi => bad_hex_payload stack i (by omega)), bad_hex_payload stack 8 (by omega)]
    decide
  refine ⟨hp, ?_, ?_⟩
  · rw [hp]
    rfl
  · rw [hp]
    rfl

theorem fmt_02x_byte : ∀ v, v < 256 → fmt_02x v = hex2_lower v := by
  decide

theorem fmt_02X_byte : ∀ v, v < 256 → fmt_02X v = hex2_upper v := by
  decide

theorem fmt_d_nibble : ∀ v, v < 16 → fmt_d v = Nat.toDigits 10 v := by
  decide

theorem high_nibble_lt (x : Nat) (hx : x < 256) : high_nibble x < 16 := by
  unfold high_nibble
  omega

theorem take_append_take (pre ch : List Char) :
    pre.take 49 ++ ch.take (50 - (pre.take 49).length - 1) = (pre ++ ch).take 49 := by
  rw [List.take_append_eq_append_take, List.length_take]
  congr 2
  omega

theorem get_device_string_eq_take (part_name : List Char) (bytes : Nat → Nat)
    (hb : ∀ i, bytes i < 256) :
    get_device_string 50 part_name bytes
      = (device_string_reference part_name bytes).take 49 := by
  unfold get_device_string device_string_reference
  have h2 := high_nibble_lt _ (hb 2)
  rw [HI_NIBBLE_eq _ (hb 2), fmt_02x_byte _ (hb 3), fmt_d_nibble _ h2]
  simp only
  by_cases hc : high_nibble (bytes 2) > 0
  · rw [if_pos hc, if_pos hc]
    have hlen : ("_".toList ++ Nat.toDigits 10 (high_nibble (bytes 2))).length ≤ 9 := by
      have : ∀ v, v < 16 → ("_".toList ++ Nat.toDigits 10 v).length ≤ 9 := by decide
      exact this _ h2
    rw [List.take_of_length_le hlen]
    exact take_append_take _ _
  · rw [if_neg hc, if_neg hc, List.append_nil]

theorem registry_names_short : ∀ row ∈ SENSOR_TYPES, row.part_name.length ≤ 43 := by
  intro row hr
  unfold SENSOR_TYPES at hr
  simp only [List.mem_cons, List.mem_singleton, List.not_mem_nil, or_false] at hr
  rcases hr with rfl | rfl | rfl | rfl | rfl | rfl | rfl | rfl | rfl | rfl <;> decide

theorem device_string_reference_length (part_name : List Char) (bytes : Nat → Nat)
    (hb : ∀ i, bytes i < 256) :
    (device_string_reference part_name bytes).length ≤ part_name.length + 6 := by
  unfold device_string_reference hex2_lower
  have h2 := high_nibble_lt _ (hb 2)
  have hd : ∀ v, v < 16 → (Nat.toDigits 10 v).length ≤ 2 := by decide
  have := hd _ h2
  split_ifs <;> simp
  all_goals omega

/-- A part name of 47 characters, longer than any the registry holds: with the
payload 1A 2D 10 F4 .. (payload[3] = 0xF4, channel 1) the buffer of 50 bytes is full
after "_f". -/
theorem device_string_long_name_cut :
    get_device_string 50 long_part_name sample_payload = long_part_name ++ "_f".toList ∧
    device_string_reference long_part_name sample_payload
      = long_part_name ++ "_f4".toList ++ "_1".toList ∧
    get_device_string 50 long_part_name sample_payload
      ≠ device_string_reference long_part_name sample_payload := by
  refine ⟨by decide, by decide, by decide⟩

/-- C11: for every part name `get_device_string` is called with and every payload of
bytes (the function is static; its callers, the two decode methods, pass the part
name of a registry row and their buffer of 50 bytes), the device string is
part_name, "_", payload[3] as exactly two hex digits, and then "_" and the decimal
channel number (the high nibble of payload[2]) if and only if that nibble is
greater than 0; nothing else is appended. The readings of the row's method carry
this string. The same holds for every part name of at most 43 characters; for any
part name at all the result is the first 49 characters of that string. -/
theorem C11_device_string (row : SensorType) (hr : row ∈ SENSOR_TYPES) (bytes : Nat → Nat)
    (hb : ∀ i, bytes i < 256) :
    get_device_string 50 row.part_name bytes = device_string_reference row.part_name bytes ∧
    (high_nibble (bytes 2) > 0 →
      get_device_string 50 row.part_name bytes
        = row.part_name ++ "_".toList ++ hex2_lower (bytes 3) ++ "_".toList
            ++ Nat.toDigits 10 (high_nibble (bytes 2))) ∧
    (¬ high_nibble (bytes 2) > 0 →
      get_device_string 50 row.part_name bytes
        = row.part_name ++ "_".toList ++ hex2_lower (bytes 3)) ∧
    (hex2_lower (bytes 3)).length = 2 ∧
    (∀ m, row.method_func = some m → ∀ r ∈ m row.part_name bytes,
      r.device = device_string_reference row.part_name bytes) ∧
    (∀ part_name : List Char, part_name.length ≤ 43 →
      get_device_string 50 part_name bytes = device_string_reference part_name bytes) ∧
    (∀ part_name : List Char,
      get_device_string 50 part_name bytes
        = (device_string_reference part_name bytes).take 49) := by
  have short : ∀ p : List Char, p.length ≤ 43 →
      get_device_string 50 p bytes = device_string_reference p bytes := by
    intro p hp
    rw [get_device_string_eq_take p bytes hb]
    apply List.take_of_length_le
    have := device_string_reference_length p bytes hb
    omega
  have hrow := short row.part_name (registry_names_short row hr)
  refine ⟨hrow, ?_, ?_, rfl, ?_, short, fun p => get_device_string_eq_take p bytes hb⟩
  · intro hc
    rw [hrow]
    unfold device_string_reference
    rw [if_pos hc]
    simp only [List.append_assoc]
  · intro hc
    rw [hrow]
    unfold device_string_reference
    rw [if_neg hc, List.append_nil]
  · intro m hm r hmem
    rw [← hrow]
    have hcases : m = method_common_temphydro ∨ m = method_alt_temphydrobaro := by
      unfold SENSOR_TYPES at hr
      simp only [List.mem_cons, List.mem_singleton, List.not_mem_nil, or_false] at hr
      rcases hr with rfl | rfl | rfl | rfl | rfl | rfl | rfl | rfl | rfl | rfl
      all_goals first
        | (injection hm with hm; exact Or.inl hm.symm)
        | (injection hm with hm; exact Or.inr hm.symm)
        | cases hm
    rcases hcases with rfl | rfl
    · unfold method_common_temphydro at hmem
      simp only [List.mem_cons, List.mem_singleton, List.not_mem_nil, or_false] at hmem
      rcases hmem with rfl | rfl | rfl <;> rfl
    · unfold method_alt_temphydrobaro at hmem
      simp only [List.mem_cons, List.mem_singleton, List.not_mem_nil, or_false] at hmem
      rcases hmem with rfl | rfl | rfl <;> rfl

/-- C11 witness: row THGR228N and the payload 1A 2D 10 F4 .. give "THGR228N_f4_1";
with payload[2] = 0x05 in place of 0x10 the channel part is absent. -/
theorem C11_device_string_witness :
    (⟨0x1a2d0050, "THGR228N".toList, some checksum2, some method_common_temphydro⟩
      : SensorType) ∈ SENSOR_TYPES ∧
    (∀ i, sample_payload i < 256) ∧
    get_device_string 50 "THGR228N".toList sample_payload = "THGR228N_f4_1".toList ∧
    get_device_string 50 "THGR228N".toList (fun i => [0x1a, 0x2d, 0x05, 0xf4].getD i 0)
      = "THGR228N_f4".toList :=
  ⟨(by unfold SENSOR_TYPES; simp),
    fun i => getD_lt _ (by decide) i 0 (by decide),
    ((C11_device_string
      ⟨0x1a2d0050, "THGR228N".toList, some checksum2, some method_common_temphydro⟩
      (by unfold SENSOR_TYPES; simp) sample_payload
      (fun i => getD_lt _ (by decide) i 0 (by decide))).1).trans (by decide),
    ((C11_device_string
      ⟨0x1a2d0050, "THGR228N".toList, some checksum2, some method_common_temphydro⟩
      (by unfold SENSOR_TYPES; simp) (fun i => [0x1a, 0x2d, 0x05, 0xf4].getD i 0)
      (fun i => getD_lt _ (by decide) i 0 (by decide))).1).trans (by decide)⟩

theorem hex_digit_val_some_iff (c : Char) : (hex_digit_val c).isSome ↔ is_hex_digit c := by
  unfold hex_digit_val is_hex_digit
  split_ifs with h1 h2 h3
  · simp [h1]
  · simp [h2]
  · simp [h3]
  · simp [h1, h2, h3]

theorem hex_char_to_bin_eq (c : Char) :
    hex_char_to_bin c = (hex_digit_val c).map nibble_bits := by
  have hc : c = Char.ofNat c.toNat := (Char.ofNat_toNat c).symm
  by_cases hr : (48 ≤ c.toNat ∧ c.toNat ≤ 57) ∨ (65 ≤ c.toNat ∧ c.toNat ≤ 70)
      ∨ (97 ≤ c.toNat ∧ c.toNat ≤ 102)
  · generalize c.toNat = n at hc hr
    subst hc
    rcases hr with ⟨h1, h2⟩ | ⟨h1, h2⟩ | ⟨h1, h2⟩ <;> interval_cases n <;> decide
  · have hne : ∀ d : Char, ((48 ≤ d.toNat ∧ d.toNat ≤ 57) ∨ (65 ≤ d.toNat ∧ d.toNat ≤ 70)
        ∨ (97 ≤ d.toNat ∧ d.toNat ≤ 102)) → c ≠ d := by
      intro d hd hcd
      subst hcd
      exact hr hd
    have hv : hex_digit_val c = none := by
      unfold hex_digit_val
      have e0 : ('0' : Char).toNat = 48 := rfl
      have e9 : ('9' : Char).toNat = 57 := rfl
      have ea : ('a' : Char).toNat = 97 := rfl
      have ef : ('f' : Char).toNat = 102 := rfl
      have eA : ('A' : Char).toNat = 65 := rfl
      have eF : ('F' : Char).toNat = 70 := rfl
      simp only [char_le_toNat, e0, e9, ea, ef, eA, eF]
      rw [if_neg (fun h => hr (Or.inl h)), if_neg (fun h => hr (Or.inr (Or.inr h))),
        if_neg (fun h => hr (Or.inr (Or.inl h)))]
    rw [hv]
    unfold hex_char_to_bin
    simp only [hne '0' (by decide), hne '1' (by decide), hne '2' (by decide),
      hne '3' (by decide), hne '4' (by decide), hne '5' (by decide), hne '6' (by decide),
      hne '7' (by decide), hne '8' (by decide), hne '9' (by decide), hne 'a' (by decide),
      hne 'b' (by decide), hne 'c' (by decide), hne 'd' (by decide), hne 'e' (by decide),
      hne 'f' (by decide), hne 'A' (by decide), hne 'B' (by decide), hne 'C' (by decide),
      hne 'D' (by decide), hne 'E' (by decide), hne 'F' (by decide), or_self, if_false,
      Option.map_none']

theorem nibble_bits_length (v : Nat) : (nibble_bits v).length = 4 := by
  simp [nibble_bits]

theorem raw_hex_to_bit_string_some (hex : List Char) (h : ∀ c ∈ hex, is_hex_digit c) :
    raw_hex_to_bit_string hex = some (bit_string_reference hex) := by
  induction hex with
  | nil => rfl
  | cons c cs ih =>
    have hc : is_hex_digit c := h c (List.mem_cons_self _ _)
    obtain ⟨v, hv⟩ := Option.isSome_iff_exists.mp ((hex_digit_val_some_iff c).mpr hc)
    rw [raw_hex_to_bit_string, hex_char_to_bin_eq, hv,
      ih (fun d hd => h d (List.mem_cons_of_mem _ hd))]
    simp [bit_string_reference, hv]

theorem raw_hex_to_bit_string_none (hex : List Char) (h : ¬ ∀ c ∈ hex, is_hex_digit c) :
    raw_hex_to_bit_string hex = none := by
  induction hex with
  | nil => exact absurd (fun c hc => by cases hc) h
  | cons c cs ih =>
    rw [raw_hex_to_bit_string, hex_char_to_bin_eq]
    cases hv : hex_digit_val c with
    | none => rfl
    | some v =>
      have hc : is_hex_digit c := (hex_digit_val_some_iff c).mp (by rw [hv]; rfl)
      have hcs : ¬ ∀ d ∈ cs, is_hex_digit d := by
        intro hall
        apply h
        intro d hd
        rcases List.mem_cons.mp hd with rfl | hd
        · exact hc
        · exact hall d hd
      simp [ih hcs]

theorem bit_string_reference_length (hex : List Char) :
    (bit_string_reference hex).length = 4 * hex.length := by
  induction hex with
  | nil => rfl
  | cons c cs ih =>
    have e : bit_string_reference (c :: cs)
        = nibble_bits ((hex_digit_val c).getD 0) ++ bit_string_reference cs := by
      simp [bit_string_reference]
    rw [e, List.length_append, nibble_bits_length, ih, List.length_cons]
    omega

/-- C12: `raw_hex_to_bit_string` succeeds exactly when every character is a hex
digit (0-9, a-f, A-F), whatever the length; on success the output is the
concatenation, in input order, of each digit's 4 bits, most significant first, and
its length is 4 times the input length. -/
theorem C12_hex_to_bits (hex : List Char) :
    ((raw_hex_to_bit_string hex).isSome ↔ ∀ c ∈ hex, is_hex_digit c) ∧
    (∀ bits, raw_hex_to_bit_string hex = some bits →
      bits = bit_string_reference hex ∧ bits.length = 4 * hex.length) ∧
    (∀ c, is_hex_digit c →
      ∃ v, hex_digit_val c = some v ∧ v < 16 ∧ hex_char_to_bin c = some (nibble_bits v)) := by
  refine ⟨?_, ?_, ?_⟩
  · constructor
    · intro hs
      by_contra hn
      rw [raw_hex_to_bit_string_none hex hn] at hs
      cases hs
    · intro hall
      rw [raw_hex_to_bit_string_some hex hall]
      rfl
  · intro bits hb
    by_cases hall : ∀ c ∈ hex, is_hex_digit c
    · rw [raw_hex_to_bit_string_some hex hall] at hb
      injection hb with hb
      subst hb
      exact ⟨rfl, bit_string_reference_length hex⟩
    · rw [raw_hex_to_bit_string_none hex hall] at hb
      cases hb
  · intro c hc
    obtain ⟨v, hv⟩ := Option.isSome_iff_exists.mp ((hex_digit_val_some_iff c).mpr hc)
    refine ⟨v, hv, hex_digit_val_lt c v hv, ?_⟩
    rw [hex_char_to_bin_eq, hv]
    rfl

/-- C12 witness: the three characters "a5F" (an odd length) give the 12 bits
"101001011111"; "a5G" gives no bit string. -/
theorem C12_hex_to_bits_witness :
    raw_hex_to_bit_string "a5F".toList = some "101001011111".toList ∧
    "101001011111".toList = bit_string_reference "a5F".toList ∧
    "101001011111".toList.length = 4 * "a5F".toList.length ∧
    raw_hex_to_bit_string "a5G".toList = none :=
  ⟨by decide,
    ((C12_hex_to_bits "a5F".toList).2.1 "101001011111".toList (by decide)).1,
    ((C12_hex_to_bits "a5F".toList).2.1 "101001011111".toList (by decide)).2,
    by decide⟩


theorem and_4_iff : ∀ x, x < 256 → ((x &&& 0x04 ≠ 0) ↔ bit_set x 2 = true) := by
  decide

theorem and_8_iff : ∀ x, x < 256 → ((x &&& 0x08 ≠ 0) ↔ bit_set x 3 = true) := by
  decide

theorem shift_6_lt : ∀ x, x < 256 → x >>> 6 = x / 64 ∧ x >>> 6 < 4 := by
  decide

theorem simple_battery_state (bytes : Nat → Nat) (hb : ∀ i, bytes i < 256)
    (dev_str : List Char) (r : OregonReading) :
    (decode_simple_battery bytes dev_str r).string_val
      = if bit_set (bytes 4) 2 then "low".toList else "ok".toList := by
  unfold decode_simple_battery
  simp only
  by_cases h : bit_set (bytes 4) 2 = true
  · have h2 : bytes 4 &&& 0x04 ≠ 0 := (and_4_iff _ (hb 4)).mpr h
    simp [h, h2]
  · have h2 : ¬ bytes 4 &&& 0x04 ≠ 0 := fun hc => h ((and_4_iff _ (hb 4)).mp hc)
    simp only [ne_eq, not_not] at h2
    simp [h, h2]

theorem device_string_registry (row : SensorType) (hr : row ∈ SENSOR_TYPES)
    (bytes : Nat → Nat) (hb : ∀ i, bytes i < 256) :
    get_device_string 50 row.part_name bytes
      = device_string_reference row.part_name bytes := by
  rw [get_device_string_eq_take _ bytes hb]
  apply List.take_of_length_le
  have h1 := device_string_reference_length row.part_name bytes hb
  have h2 := registry_names_short row hr
  omega

/-- C15: for every registry row using `method_common_temphydro` and every payload of
bytes, the method yields exactly three readings, of types temperature, humidity,
battery_status in this order; all three carry the device string `get_device_string`
builds from the row's part name and the payload; the battery reading's state is
"low" if bit 2 (mask 0x04) of payload[4] is set and "ok" otherwise. -/
theorem C15_common_temphydro (row : SensorType) (hr : row ∈ SENSOR_TYPES)
    (hm : row.method_func = some method_common_temphydro)
    (bytes : Nat → Nat) (hb : ∀ i, bytes i < 256) :
    ∃ m : method_func_t, row.method_func = some m ∧
      (m row.part_name bytes).length = 3 ∧
      (m row.part_name bytes).map OregonReading.type
        = ["temperature".toList, "humidity".toList, "battery_status".toList] ∧
      (∀ r ∈ m row.part_name bytes,
        r.device = get_device_string 50 row.part_name bytes) ∧
      get_device_string 50 row.part_name bytes
        = device_string_reference row.part_name bytes ∧
      ∃ t h b, m row.part_name bytes = [t, h, b] ∧
        b.string_val = if bit_set (bytes 4) 2 then "low".toList else "ok".toList := by
  refine ⟨method_common_temphydro, hm, rfl, rfl, ?_,
    device_string_registry row hr bytes hb, _, _, _, rfl, ?_⟩
  · intro r hmem
    unfold method_common_temphydro at hmem
    simp only [List.mem_cons, List.mem_singleton, List.not_mem_nil, or_false] at hmem
    rcases hmem with rfl | rfl | rfl <;> rfl
  · exact simple_battery_state bytes hb _ _

/-- C15 witness: row THGR228N on the payload 1A 2D 10 F4 00 23 30 44 34 00 gives
three readings with device "THGR228N_f4_1"; payload[4] = 0x00 has bit 2 clear, so
the battery state is "ok". -/
theorem C15_common_temphydro_witness :
    (∀ i, sample_payload i < 256) ∧
    ∃ m : method_func_t, m = method_common_temphydro ∧
      (m "THGR228N".toList sample_payload).length = 3 ∧
      (m "THGR228N".toList sample_payload).map OregonReading.device
        = ["THGR228N_f4_1".toList, "THGR228N_f4_1".toList, "THGR228N_f4_1".toList] ∧
      (m "THGR228N".toList sample_payload).map OregonReading.string_val
        = ["".toList, "comfortable".toList, "ok".toList] := by
  have hb : ∀ i, sample_payload i < 256 := fun i => getD_lt _ (by decide) i 0 (by decide)
  refine ⟨hb, ?_⟩
  obtain ⟨m, hm, hlen, _, _, _, _⟩ := C15_common_temphydro
    ⟨0x1a2d0050, "THGR228N".toList, some checksum2, some method_common_temphydro⟩
    (by unfold SENSOR_TYPES; simp) rfl sample_payload hb
  injection hm with hm
  subst hm
  exact ⟨_, rfl, hlen, by decide, by decide⟩

theorem pressure_forecast (bytes : Nat → Nat) (dev_str : List Char) (offset : Int)
    (code : Nat) (r : OregonReading) :
    (decode_pressure bytes dev_str offset code r).forecast = forecast_reference code := by
  rfl

/-- C16: for every part name and payload of bytes, `method_alt_temphydrobaro` yields
exactly three readings, of types temperature, humidity, pressure in this order, all
with the same device string; the pressure value is payload[8] + 856, so between 856
and 1111, its unit is "hPa", and its forecast is chosen by the high nibble of
payload[9]: 0xC sunny, 0x6 partly, 0x2 cloudy, 0x3 rain, anything else unknown. -/
theorem C16_alt_temphydrobaro (part_name : List Char) (bytes : Nat → Nat)
    (hb : ∀ i, bytes i < 256) :
    (method_alt_temphydrobaro part_name bytes).length = 3 ∧
    (method_alt_temphydrobaro part_name bytes).map OregonReading.type
      = ["temperature".toList, "humidity".toList, "pressure".toList] ∧
    (∀ r ∈ method_alt_temphydrobaro part_name bytes,
      r.device = get_device_string 50 part_name bytes) ∧
    ∃ t h p, method_alt_temphydrobaro part_name bytes = [t, h, p] ∧
      p.current = (bytes 8 : ℚ) + 856 ∧ 856 ≤ p.current ∧ p.current ≤ 1111 ∧
      p.units = "hPa".toList ∧
      p.forecast = forecast_reference (high_nibble (bytes 9)) ∧
      (high_nibble (bytes 9) = 0xC → p.forecast = "sunny".toList) ∧
      (high_nibble (bytes 9) = 0x6 → p.forecast = "partly".toList) ∧
      (high_nibble (bytes 9) = 0x2 → p.forecast = "cloudy".toList) ∧
      (high_nibble (bytes 9) = 0x3 → p.forecast = "rain".toList) ∧
      (high_nibble (bytes 9) ≠ 0xC → high_nibble (bytes 9) ≠ 0x6 →
        high_nibble (bytes 9) ≠ 0x2 → high_nibble (bytes 9) ≠ 0x3 →
        p.forecast = "unknown".toList) := by
  refine ⟨rfl, rfl, ?_, _, _, _, rfl, ?_⟩
  · intro r hmem
    unfold method_alt_temphydrobaro at hmem
    simp only [List.mem_cons, List.mem_singleton, List.not_mem_nil, or_false] at hmem
    rcases hmem with rfl | rfl | rfl <;> rfl
  · have hc : (decode_pressure bytes (get_device_string 50 part_name bytes) 856
        (HI_NIBBLE (bytes 9)) {}).current = (bytes 8 : ℚ) + 856 := by
      unfold decode_pressure
      simp only
      push_cast
      rfl
    have h8 : ((bytes 8 : Nat) : ℚ) ≤ 255 := by
      have := hb 8
      exact_mod_cast (by omega : bytes 8 ≤ 255)
    have h0 : (0 : ℚ) ≤ ((bytes 8 : Nat) : ℚ) := Nat.cast_nonneg _
    have hf : (decode_pressure bytes (get_device_string 50 part_name bytes) 856
        (HI_NIBBLE (bytes 9)) {}).forecast = forecast_reference (high_nibble (bytes 9)) := by
      rw [pressure_forecast, HI_NIBBLE_eq _ (hb 9)]
    refine ⟨hc, ?_, ?_, rfl, hf, ?_, ?_, ?_, ?_, ?_⟩
    · rw [hc]
      linarith
    · rw [hc]
      linarith
    · intro h
      rw [hf, h]
      rfl
    · intro h
      rw [hf, h]
      rfl
    · intro h
      rw [hf, h]
      rfl
    · intro h
      rw [hf, h]
      rfl
    · intro h1 h2 h3 h4
      rw [hf]
      unfold forecast_reference
      rw [if_neg h1, if_neg h2, if_neg h3, if_neg h4]

/-- C16 witness: on the payload 1A 2D 10 F4 00 23 30 44 34 00 with part name
"BTHR918N" the pressure value is 0x34 + 856 = 908 and, payload[9] being 0x00, the
forecast is "unknown". -/
theorem C16_alt_temphydrobaro_witness :
    (∀ i, sample_payload i < 256) ∧
    (method_alt_temphydrobaro "BTHR918N".toList sample_payload).length = 3 ∧
    (method_alt_temphydrobaro "BTHR918N".toList sample_payload).map OregonReading.forecast
      = ["".toList, "".toList, "unknown".toList] ∧
    (method_alt_temphydrobaro "BTHR918N".toList sample_payload).map OregonReading.type
      = ["temperature".toList, "humidity".toList, "pressure".toList] :=
  ⟨fun i => getD_lt _ (by decide) i 0 (by decide),
    (C16_alt_temphydrobaro "BTHR918N".toList sample_payload
      (fun i => getD_lt _ (by decide) i 0 (by decide))).1,
    by decide,
    (C16_alt_temphydrobaro "BTHR918N".toList sample_payload
      (fun i => getD_lt _ (by decide) i 0 (by decide))).2.1⟩

theorem bcd_to_dec_eq (x : Nat) (hx : x < 256) : bcd_to_dec x = bcd_reference x := by
  unfold bcd_to_dec bcd_reference
  rw [HI_NIBBLE_eq _ hx, LO_NIBBLE_eq]
  unfold high_nibble low_nibble
  omega

/-- The temperature formula in exact arithmetic (the `double` operations of
`decode_temperature` taken without rounding): the value is
s * (BCD(payload[5]) + high-nibble(payload[4]) / 10) with BCD(x) = 10 * high nibble +
low nibble and s = -1 if bit 3 (mask 0x08) of payload[6] is set, +1 otherwise; so
10 * value = s * (100 * high-nibble(payload[5]) + 10 * low-nibble(payload[5]) +
high-nibble(payload[4])); the unit is "C". In binary64 the quotient by 10.0 is
rounded, which this statement does not cover. -/
theorem temperature_exact_arithmetic (bytes : Nat → Nat) (hb : ∀ i, bytes i < 256)
    (dev_str : List Char) (r : OregonReading) :
    (decode_temperature bytes dev_str r).current
      = temperature_sign bytes *
          ((bcd_reference (bytes 5) : ℚ) + (high_nibble (bytes 4) : ℚ) / 10) ∧
    10 * (decode_temperature bytes dev_str r).current
      = temperature_sign bytes *
          (100 * (high_nibble (bytes 5) : ℚ) + 10 * (low_nibble (bytes 5) : ℚ)
            + (high_nibble (bytes 4) : ℚ)) ∧
    (temperature_sign bytes = -1 ∨ temperature_sign bytes = 1) ∧
    (decode_temperature bytes dev_str r).units = "C".toList ∧
    (decode_temperature bytes dev_str r).type = "temperature".toList := by
  have hs : (if bytes 6 &&& 0x08 ≠ 0 then (-1 : ℚ) else 1) = temperature_sign bytes := by
    unfold temperature_sign
    by_cases h : bit_set (bytes 6) 3 = true
    · rw [if_pos ((and_8_iff _ (hb 6)).mpr h), if_pos h]
    · rw [if_neg (fun hc => h ((and_8_iff _ (hb 6)).mp hc)), if_neg h]
  have hc : (decode_temperature bytes dev_str r).current
      = temperature_sign bytes *
          ((bcd_reference (bytes 5) : ℚ) + (high_nibble (bytes 4) : ℚ) / 10) := by
    unfold decode_temperature
    simp only
    rw [hs, bcd_to_dec_eq _ (hb 5), HI_NIBBLE_eq _ (hb 4)]
  refine ⟨hc, ?_, ?_, rfl, rfl⟩
  · rw [hc]
    unfold bcd_reference
    push_cast
    ring
  · unfold temperature_sign
    split_ifs
    · left
      rfl
    · right
      rfl

/-- Example for `temperature_exact_arithmetic`: payload[4] = 0x30, payload[5] = 0x21,
payload[6] = 0x08 (bit 3 set): ten times the value is -213, the value -21.3. -/
theorem temperature_exact_arithmetic_example :
    (∀ i, [0, 0, 0, 0, 0x30, 0x21, 0x08].getD i 0 < 256) ∧
    10 * (decode_temperature (fun i => [0, 0, 0, 0, 0x30, 0x21, 0x08].getD i 0) [] {}).current
      = -213 := by
  have hb : ∀ i, [0, 0, 0, 0, 0x30, 0x21, 0x08].getD i 0 < 256 :=
    fun i => getD_lt _ (by decide) i 0 (by decide)
  refine ⟨hb, ?_⟩
  rw [(temperature_exact_arithmetic (fun i => [0, 0, 0, 0, 0x30, 0x21, 0x08].getD i 0) hb [] {}).2.1]
  have hs : temperature_sign (fun i => [0, 0, 0, 0, 0x30, 0x21, 0x08].getD i 0) = -1 := by
    unfold temperature_sign
    rw [if_pos (by decide)]
  have h5 : high_nibble ([0, 0, 0, 0, 0x30, 0x21, 0x08].getD 5 0) = 2 := by decide
  have l5 : low_nibble ([0, 0, 0, 0, 0x30, 0x21, 0x08].getD 5 0) = 1 := by decide
  have h4 : high_nibble ([0, 0, 0, 0, 0x30, 0x21, 0x08].getD 4 0) = 3 := by decide
  rw [hs, h5, l5, h4]
  norm_num

/-- C18: for every payload of bytes the humidity reading's value is
low-nibble(payload[7]) * 10 + high-nibble(payload[6]), its unit is "%", and its
comfort string is entry payload[7] >> 6 of normal, comfortable, dry, wet; that index
is payload[7] / 64 and always below 4, so the entry exists. -/
theorem C18_humidity (bytes : Nat → Nat) (hb : ∀ i, bytes i < 256)
    (dev_str : List Char) (r : OregonReading) :
    (decode_humidity bytes dev_str r).current
      = ((low_nibble (bytes 7) * 10 + high_nibble (bytes 6) : Nat) : ℚ) ∧
    (decode_humidity bytes dev_str r).units = "%".toList ∧
    (decode_humidity bytes dev_str r).type = "humidity".toList ∧
    bytes 7 >>> 6 = bytes 7 / 64 ∧ bytes 7 >>> 6 < comfort_table.length ∧
    comfort_table.length = 4 ∧
    comfort_table.get? (bytes 7 >>> 6) = some (decode_humidity bytes dev_str r).string_val := by
  have h7 := shift_6_lt _ (hb 7)
  refine ⟨?_, rfl, rfl, h7.1, h7.2, rfl, ?_⟩
  · unfold decode_humidity
    simp only
    rw [LO_NIBBLE_eq, HI_NIBBLE_eq _ (hb 6)]
  · unfold decode_humidity
    simp only
    have hl : bytes 7 >>> 6 < comfort_table.length := h7.2
    rw [List.get?_eq_get hl]
    show some (comfort_table.get ⟨bytes 7 >>> 6, hl⟩)
      = some (comfort_table.getD (bytes 7 >>> 6) [])
    rw [List.getD_eq_getElem _ _ hl]
    rfl

/-- C18 witness: payload[6] = 0x30, payload[7] = 0x44: the value is 4 * 10 + 3 = 43
and the index 0x44 >> 6 = 1 selects "comfortable". -/
theorem C18_humidity_witness :
    (∀ i, sample_payload i < 256) ∧
    (decode_humidity sample_payload [] {}).current = 43 ∧
    (decode_humidity sample_payload [] {}).string_val = "comfortable".toList := by
  have hb : ∀ i, sample_payload i < 256 := fun i => getD_lt _ (by decide) i 0 (by decide)
  refine ⟨hb, ?_, by decide⟩
  rw [(C18_humidity sample_payload hb [] {}).1]
  have e : low_nibble (sample_payload 7) * 10 + high_nibble (sample_payload 6) = 43 := by
    decide
  rw [e]
  norm_num


theorem flip_byte_lt : ∀ x, x < 256 → ∀ k, k < 8 → x ^^^ 2 ^ k < 256 := by
  decide

theorem flip_byte_nibbles : ∀ x, x < 256 → ∀ k, k < 8 →
    high_nibble (x ^^^ 2 ^ k) + low_nibble (x ^^^ 2 ^ k) ≠ high_nibble x + low_nibble x := by
  decide

theorem flip_byte_high : ∀ x, x < 256 → ∀ k, k < 8 → 4 ≤ k →
    high_nibble (x ^^^ 2 ^ k) ≠ high_nibble x := by
  decide

theorem flip_bit_lt (b : Nat → Nat) (hb : ∀ i, b i < 256) (j k : Nat) (hk : k < 8) :
    ∀ i, flip_bit b j k i < 256 := by
  intro i
  unfold flip_bit
  split_ifs
  · exact flip_byte_lt _ (hb i) k hk
  · exact hb i

theorem nibble_sum_reference_succ (b : Nat → Nat) (n : Nat) :
    nibble_sum_reference b (n + 1)
      = nibble_sum_reference b n + ((high_nibble (b n) + low_nibble (b n) : Nat) : Int) := by
  unfold nibble_sum_reference
  rw [List.range_succ, List.map_append, List.sum_append]
  simp only [List.map_cons, List.map_nil, List.sum_cons, List.sum_nil]
  push_cast
  omega

theorem nibble_sum_reference_flip (b : Nat → Nat) (j k n : Nat) :
    (n ≤ j → nibble_sum_reference (flip_bit b j k) n = nibble_sum_reference b n) ∧
    (j < n → nibble_sum_reference (flip_bit b j k) n
        + ((high_nibble (b j) + low_nibble (b j) : Nat) : Int)
      = nibble_sum_reference b n
        + ((high_nibble (b j ^^^ 2 ^ k) + low_nibble (b j ^^^ 2 ^ k) : Nat) : Int)) := by
  induction n with
  | zero =>
    constructor
    · intro _
      rfl
    · intro h
      omega
  | succ m ih =>
    rw [nibble_sum_reference_succ, nibble_sum_reference_succ]
    constructor
    · intro h
      have hm : flip_bit b j k m = b m := by
        unfold flip_bit
        rw [if_neg (by omega)]
      rw [ih.1 (by omega), hm]
    · intro h
      by_cases hj : m = j
      · have hm : flip_bit b j k m = b j ^^^ 2 ^ k := by
          unfold flip_bit
          rw [if_pos hj, hj]
        rw [ih.1 (by omega), hm, hj]
        omega
      · have hm : flip_bit b j k m = b m := by
          unfold flip_bit
          rw [if_neg hj]
        have := ih.2 (by omega)
        rw [hm]
        omega

theorem nibble_sum_flip_whole (b : Nat → Nat) (hb : ∀ i, b i < 256) (j k n : Nat)
    (hk : k < 8) (hj : j < n) :
    nibble_sum (flip_bit b j k) (n : ℚ) ≠ nibble_sum b (n : ℚ) := by
  rw [nibble_sum_nat _ (flip_bit_lt b hb j k hk), nibble_sum_nat _ hb]
  have h1 := (nibble_sum_reference_flip b j k n).2 hj
  have h2 := flip_byte_nibbles _ (hb j) k hk
  intro he
  rw [he] at h1
  apply h2
  have : ((high_nibble (b j) + low_nibble (b j) : Nat) : Int)
      = ((high_nibble (b j ^^^ 2 ^ k) + low_nibble (b j ^^^ 2 ^ k) : Nat) : Int) := by
    omega
  exact_mod_cast this.symm

/-- C19: for every payload of bytes and every bit `k` of a byte `j` inside the range a
checksum variant sums (bytes 0..7, 0..8, 0..9 for `checksum2`, `checksum4`,
`checksum5`; bytes 0..5 and the high nibble of byte 6 for `checksum1`), flipping
that bit changes the value `nibble_sum` computes over that range. -/
theorem C19_bit_flip_changes_sum (b : Nat → Nat) (hb : ∀ i, b i < 256) (j k : Nat)
    (hk : k < 8) :
    (∀ i, flip_bit b j k i < 256) ∧
    (j < 8 → nibble_sum (flip_bit b j k) 8 ≠ nibble_sum b 8) ∧
    (j < 9 → nibble_sum (flip_bit b j k) 9 ≠ nibble_sum b 9) ∧
    (j < 10 → nibble_sum (flip_bit b j k) 10 ≠ nibble_sum b 10) ∧
    (j < 6 ∨ (j = 6 ∧ 4 ≤ k) → nibble_sum (flip_bit b j k) 6.5 ≠ nibble_sum b 6.5) := by
  refine ⟨flip_bit_lt b hb j k hk, ?_, ?_, ?_, ?_⟩
  · intro hj
    have := nibble_sum_flip_whole b hb j k 8 hk hj
    exact_mod_cast this
  · intro hj
    have := nibble_sum_flip_whole b hb j k 9 hk hj
    exact_mod_cast this
  · intro hj
    have := nibble_sum_flip_whole b hb j k 10 hk hj
    exact_mod_cast this
  · intro hj
    have hb2 := flip_bit_lt b hb j k hk
    rw [nibble_sum_six_half, nibble_sum_six_half, nibble_sum_loop_eq _ hb2,
      nibble_sum_loop_eq _ hb, HI_NIBBLE_eq _ (hb2 6), HI_NIBBLE_eq _ (hb 6)]
    rcases hj with hj | ⟨hj, hk4⟩
    · have h6 : flip_bit b j k 6 = b 6 := by
        unfold flip_bit
        rw [if_neg (by omega)]
      have h1 := (nibble_sum_reference_flip b j k 6).2 hj
      have h2 := flip_byte_nibbles _ (hb j) k hk
      rw [h6]
      intro he
      apply h2
      have : ((high_nibble (b j) + low_nibble (b j) : Nat) : Int)
          = ((high_nibble (b j ^^^ 2 ^ k) + low_nibble (b j ^^^ 2 ^ k) : Nat) : Int) := by
        omega
      exact_mod_cast this.symm
    · subst hj
      have h6 : flip_bit b 6 k 6 = b 6 ^^^ 2 ^ k := by
        unfold flip_bit
        rw [if_pos rfl]
      have h1 := (nibble_sum_reference_flip b 6 k 6).1 (le_refl _)
      have h2 := flip_byte_high _ (hb 6) k hk hk4
      rw [h6, h1]
      intro he
      apply h2
      have : ((high_nibble (b 6 ^^^ 2 ^ k) : Nat) : Int) = ((high_nibble (b 6) : Nat) : Int) := by
        omega
      exact_mod_cast this

/-- C19 witness: flipping bit 0 of byte 3 (0xF4 to 0xF5) of the payload
1A 2D 10 F4 00 23 30 44 .. changes the sum over 8 bytes; flipping bit 7 of byte 6
changes the sum over 6.5 bytes. -/
theorem C19_bit_flip_changes_sum_witness :
    (∀ i, sample_payload i < 256) ∧ flip_bit sample_payload 3 0 3 = 0xf5 ∧
    nibble_sum (flip_bit sample_payload 3 0) 8 ≠ nibble_sum sample_payload 8 ∧
    nibble_sum (flip_bit sample_payload 6 7) 6.5 ≠ nibble_sum sample_payload 6.5 :=
  ⟨fun i => getD_lt _ (by decide) i 0 (by decide), by decide,
    (C19_bit_flip_changes_sum sample_payload
      (fun i => getD_lt _ (by decide) i 0 (by decide)) 3 0 (by decide)).2.1 (by decide),
    (C19_bit_flip_changes_sum sample_payload
      (fun i => getD_lt _ (by decide) i 0 (by decide)) 6 7 (by decide)).2.2.2.2
      (Or.inr ⟨rfl, by decide⟩)⟩


theorem reads_below_mono {α : Type} (f : (Nat → Nat) → α) (m n : Nat) (hmn : m ≤ n)
    (h : reads_below f m) : reads_below f n := by
  intro b1 b2 hb
  exact h b1 b2 (fun i hi => hb i (by omega))

theorem nibble_sum_loop_congr (b1 b2 : Nat → Nat) (n : Nat)
    (h : ∀ i, i < n → b1 i = b2 i) : nibble_sum_loop b1 n = nibble_sum_loop b2 n := by
  induction n with
  | zero => rfl
  | succ m ih =>
    rw [nibble_sum_loop, nibble_sum_loop, ih (fun i hi => h i (by omega)), h m (by omega)]

theorem nibble_sum_count_congr (b1 b2 : Nat → Nat) (n : Nat)
    (h : ∀ i, i < n → b1 i = b2 i) : nibble_sum b1 (n : ℚ) = nibble_sum b2 (n : ℚ) := by
  rw [nibble_sum_whole, nibble_sum_whole, nibble_sum_loop_congr b1 b2 n h]

theorem checksum2_reads : reads_below checksum2 9 := by
  intro b1 b2 h
  have e : nibble_sum b1 8 = nibble_sum b2 8 := by
    have := nibble_sum_count_congr b1 b2 8 (fun i hi => h i (by omega))
    exact_mod_cast this
  unfold checksum2
  simp only [e, h 8 (by omega)]

theorem checksum4_reads : reads_below checksum4 10 := by
  intro b1 b2 h
  have e : nibble_sum b1 9 = nibble_sum b2 9 := by
    have := nibble_sum_count_congr b1 b2 9 (fun i hi => h i (by omega))
    exact_mod_cast this
  unfold checksum4
  simp only [e, h 9 (by omega)]

theorem checksum5_reads : reads_below checksum5 11 := by
  intro b1 b2 h
  have e : nibble_sum b1 10 = nibble_sum b2 10 := by
    have := nibble_sum_count_congr b1 b2 10 (fun i hi => h i (by omega))
    exact_mod_cast this
  unfold checksum5
  simp only [e, h 10 (by omega)]

theorem checksum1_reads : reads_below checksum1 8 := by
  intro b1 b2 h
  unfold checksum1
  simp only [nibble_sum_six_half, nibble_sum_loop_congr b1 b2 6 (fun i hi => h i (by omega)),
    h 6 (by omega), h 7 (by omega)]

theorem get_device_string_reads (len : Nat) (part_name : List Char) :
    reads_below (get_device_string len part_name) 4 := by
  intro b1 b2 h
  unfold get_device_string
  simp only [h 2 (by omega), h 3 (by omega)]

theorem method_common_temphydro_reads (part_name : List Char) :
    reads_below (method_common_temphydro part_name) 8 := by
  intro b1 b2 h
  unfold method_common_temphydro decode_temperature decode_humidity decode_simple_battery
  simp only [get_device_string_reads 50 part_name b1 b2 (fun i hi => h i (by omega)),
    h 4 (by omega), h 5 (by omega), h 6 (by omega), h 7 (by omega)]

theorem method_alt_temphydrobaro_reads (part_name : List Char) :
    reads_below (method_alt_temphydrobaro part_name) 10 := by
  intro b1 b2 h
  unfold method_alt_temphydrobaro decode_temperature decode_humidity decode_pressure
  simp only [get_device_string_reads 50 part_name b1 b2 (fun i hi => h i (by omega)),
    h 4 (by omega), h 5 (by omega), h 6 (by omega), h 7 (by omega), h 8 (by omega),
    h 9 (by omega)]

theorem row_reads_common (key : Nat) (name : List Char) (n : Nat) (hn : 9 ≤ n) :
    (∀ ck, (SensorType.mk key name (some checksum2) (some method_common_temphydro)).checksum_func
        = some ck → reads_below ck n) ∧
    (∀ m, (SensorType.mk key name (some checksum2) (some method_common_temphydro)).method_func
        = some m →
      reads_below (m (SensorType.mk key name (some checksum2)
        (some method_common_temphydro)).part_name) n) := by
  constructor
  · intro ck hck
    injection hck with hck
    subst hck
    exact reads_below_mono _ 9 n hn checksum2_reads
  · intro m hm
    injection hm with hm
    subst hm
    exact reads_below_mono _ 8 n (by omega) (method_common_temphydro_reads name)

theorem row_reads_alt (key : Nat) (name : List Char) (n : Nat) (hn : 11 ≤ n) :
    (∀ ck, (SensorType.mk key name (some checksum5) (some method_alt_temphydrobaro)).checksum_func
        = some ck → reads_below ck n) ∧
    (∀ m, (SensorType.mk key name (some checksum5) (some method_alt_temphydrobaro)).method_func
        = some m →
      reads_below (m (SensorType.mk key name (some checksum5)
        (some method_alt_temphydrobaro)).part_name) n) := by
  constructor
  · intro ck hck
    injection hck with hck
    subst hck
    exact reads_below_mono _ 11 n hn checksum5_reads
  · intro m hm
    injection hm with hm
    subst hm
    exact reads_below_mono _ 10 n (by omega) (method_alt_temphydrobaro_reads name)

theorem row_reads_checksum4 (key : Nat) (name : List Char) (n : Nat) (hn : 10 ≤ n) :
    (∀ ck, (SensorType.mk key name (some checksum4) none).checksum_func
        = some ck → reads_below ck n) ∧
    (∀ m, (SensorType.mk key name (some checksum4) none).method_func = some m →
      reads_below (m (SensorType.mk key name (some checksum4) none).part_name) n) := by
  constructor
  · intro ck hck
    injection hck with hck
    subst hck
    exact reads_below_mono _ 10 n hn checksum4_reads
  · intro m hm
    cases hm

theorem row_reads_checksum1 (key : Nat) (name : List Char) (n : Nat) (hn : 8 ≤ n) :
    (∀ ck, (SensorType.mk key name (some checksum1) none).checksum_func
        = some ck → reads_below ck n) ∧
    (∀ m, (SensorType.mk key name (some checksum1) none).method_func = some m →
      reads_below (m (SensorType.mk key name (some checksum1) none).part_name) n) := by
  constructor
  · intro ck hck
    injection hck with hck
    subst hck
    exact reads_below_mono _ 8 n hn checksum1_reads
  · intro m hm
    cases hm

theorem registry_reads (row : SensorType) (hr : row ∈ SENSOR_TYPES) (n : Nat)
    (hn : row.key % 65536 ≤ 8 * n) :
    (∀ ck, row.checksum_func = some ck → reads_below ck n) ∧
    (∀ m, row.method_func = some m → reads_below (m row.part_name) n) := by
  unfold SENSOR_TYPES at hr
  simp only [List.mem_cons, List.mem_singleton, List.not_mem_nil, or_false] at hr
  rcases hr with rfl | rfl | rfl | rfl | rfl | rfl | rfl | rfl | rfl | rfl
  · simp only [Nat.reduceMod] at hn
    exact row_reads_common _ _ n (by omega)
  · simp only [Nat.reduceMod] at hn
    exact row_reads_common _ _ n (by omega)
  · simp only [Nat.reduceMod] at hn
    exact row_reads_checksum4 _ _ n (by omega)
  · simp only [Nat.reduceMod] at hn
    exact row_reads_checksum4 _ _ n (by omega)
  · simp only [Nat.reduceMod] at hn
    exact row_reads_checksum1 _ _ n (by omega)
  · simp only [Nat.reduceMod] at hn
    exact row_reads_checksum1 _ _ n (by omega)
  · simp only [Nat.reduceMod] at hn
    exact row_reads_common _ _ n (by omega)
  · simp only [Nat.reduceMod] at hn
    exact row_reads_common _ _ n (by omega)
  · simp only [Nat.reduceMod] at hn
    exact row_reads_alt _ _ n (by omega)
  · simp only [Nat.reduceMod] at hn
    exact row_reads_common _ _ n (by omega)

theorem sensor_key_low (type_id : Nat) (b : Int) (hb : b.toNat < 65536) :
    sensor_key type_id b % 65536 = b.toNat := by
  unfold sensor_key
  have h := Nat.mul_add_lt_is_or (i := 16) (b := b.toNat) (by norm_num; exact hb) type_id
  rw [Nat.shiftLeft_eq, Nat.mul_comm, ← h]
  norm_num
  omega

theorem report_sensor_congr (row : SensorType) (n : Nat) (p1 p2 : Nat → Nat)
    (hck : ∀ ck, row.checksum_func = some ck → reads_below ck n)
    (hm : ∀ m, row.method_func = some m → reads_below (m row.part_name) n)
    (hp : ∀ i, i < n → p1 i = p2 i) :
    report_sensor row p1 = report_sensor row p2 := by
  unfold report_sensor
  have e1 : (match row.checksum_func with
      | some checksum_func => checksum_func p1
      | none => true) = (match row.checksum_func with
      | some checksum_func => checksum_func p2
      | none => true) := by
    cases hc : row.checksum_func with
    | none => rfl
    | some ck => exact hck ck hc p1 p2 hp
  have e2 : (match row.method_func with
      | some method_func =>
        ParseResult.decoded row.part_name (method_func row.part_name p1)
      | none => ParseResult.no_method row.part_name) = (match row.method_func with
      | some method_func =>
        ParseResult.decoded row.part_name (method_func row.part_name p2)
      | none => ParseResult.no_method row.part_name) := by
    cases hc : row.method_func with
    | none => rfl
    | some m =>
      simp only
      rw [hm m hc p1 p2 hp]
  rw [e1, e2]

theorem payload_of_stored (stack1 stack2 : Nat → Nat) (bytes : List Nat) (i : Nat)
    (hi : i + 1 < bytes.length) : payload_of stack1 bytes i = payload_of stack2 bytes i := by
  unfold payload_of
  rw [msg_bytes_of_stored stack1 bytes (i + 1) hi, msg_bytes_of_stored stack2 bytes (i + 1) hi]

theorem found_row_bits (hex_msg : List Char) (bytes : List Nat)
    (h : hex_to_bytes hex_msg 32 = some bytes) (h3 : 3 ≤ bytes.length) (row : SensorType)
    (hrow : find_sensor SENSOR_TYPES (payload_type_id bytes) (declared_bits bytes) = some row) :
    row ∈ SENSOR_TYPES ∧ 0 < row.key % 65536 ∧ (row.key % 65536 : Nat) ≤ bytes.getD 0 0 := by
  have hf := (parse_with_eq_reference SENSOR_TYPES (fun _ => 0) hex_msg bytes h h3).1
  rw [hf] at hrow
  obtain ⟨hmem, b, hb, hk, _⟩ :=
    (lookup_reference_some_iff SENSOR_TYPES sensor_keys_nodup _ _ row).mp hrow
  have hlt := getD_lt bytes (hex_to_bytes_lt _ _ _ h) 0 0 (by norm_num)
  unfold lookup_candidates declared_bits at hb
  simp only [List.mem_filter, List.mem_cons, List.mem_singleton, List.not_mem_nil, or_false,
    decide_eq_true_eq] at hb
  obtain ⟨hb1, hb0⟩ := hb
  have hbn : b.toNat < 65536 := by omega
  rw [hk, sensor_key_low _ _ hbn]
  refine ⟨hmem, by omega, ?_⟩
  rcases hb1 with rfl | rfl | rfl <;> omega

theorem read_byte_lt (p : List Nat) (i : Nat) (h : i < p.length) :
    read_byte p i = some (p.getD i 0) := by
  unfold read_byte
  rw [List.get?_eq_get h, List.getD_eq_getElem _ _ h]
  rfl

theorem read_byte_ge (p : List Nat) (i : Nat) (h : p.length ≤ i) : read_byte p i = none := by
  unfold read_byte
  exact List.get?_eq_none.mpr h

theorem nibble_sum_loop_checked_some (p : List Nat) (k : Nat) (h : k ≤ p.length) :
    nibble_sum_loop_checked p k = some (nibble_sum_loop (fun i => p.getD i 0) k) := by
  induction k with
  | zero => rfl
  | succ j ih =>
    rw [nibble_sum_loop_checked, ih (by omega), read_byte_lt p j (by omega)]
    rfl

theorem nibble_sum_loop_checked_none (p : List Nat) (k : Nat) (h : p.length < k) :
    nibble_sum_loop_checked p k = none := by
  induction k with
  | zero => omega
  | succ j ih =>
    rw [nibble_sum_loop_checked]
    by_cases hj : p.length < j
    · rw [ih hj]
      rfl
    · rw [nibble_sum_loop_checked_some p j (by omega), read_byte_ge p j (by omega)]
      rfl

theorem nibble_sum_checked_whole_some (p : List Nat) (n : Nat) (h : n ≤ p.length) :
    nibble_sum_checked p (n : ℚ) = some (nibble_sum (fun i => p.getD i 0) (n : ℚ)) := by
  rw [nibble_sum_whole]
  unfold nibble_sum_checked
  simp only [float_to_int_natCast, Int.toNat_ofNat]
  rw [nibble_sum_loop_checked_some p n h]
  simp

theorem nibble_sum_checked_whole_none (p : List Nat) (n : Nat) (h : p.length < n) :
    nibble_sum_checked p (n : ℚ) = none := by
  unfold nibble_sum_checked
  simp only [float_to_int_natCast, Int.toNat_ofNat]
  rw [nibble_sum_loop_checked_none p n h]
  rfl

theorem nibble_sum_checked_six_half_some (p : List Nat) (h : 7 ≤ p.length) :
    nibble_sum_checked p 6.5 = some (nibble_sum (fun i => p.getD i 0) 6.5) := by
  rw [nibble_sum_six_half]
  unfold nibble_sum_checked
  simp only [float_to_int_six_half]
  have e : (6 : Int).toNat = 6 := rfl
  rw [e, nibble_sum_loop_checked_some p 6 (by omega), read_byte_lt p 6 (by omega)]
  simp only [Option.bind_eq_bind, Option.some_bind]
  rw [if_pos (by norm_num)]

theorem nibble_sum_checked_six_half_none (p : List Nat) (h : p.length < 7) :
    nibble_sum_checked p 6.5 = none := by
  unfold nibble_sum_checked
  simp only [float_to_int_six_half]
  have e : (6 : Int).toNat = 6 := rfl
  rw [e]
  by_cases h6 : p.length < 6
  · rw [nibble_sum_loop_checked_none p 6 h6]
    rfl
  · rw [nibble_sum_loop_checked_some p 6 (by omega), read_byte_ge p 6 (by omega)]
    simp only [Option.bind_eq_bind, Option.some_bind]
    rw [if_pos (by norm_num)]
    rfl

theorem checksum1_checked_some (p : List Nat) (h : 8 ≤ p.length) :
    checksum1_checked p = some (checksum1 (fun i => p.getD i 0)) := by
  unfold checksum1_checked checksum1
  rw [read_byte_lt p 6 (by omega), read_byte_lt p 7 (by omega),
    nibble_sum_checked_six_half_some p (by omega)]
  rfl

theorem checksum1_checked_none (p : List Nat) (h : p.length < 8) :
    checksum1_checked p = none := by
  unfold checksum1_checked
  rw [read_byte_ge p 7 (by omega)]
  cases read_byte p 6 <;> rfl

theorem checksum2_checked_some (p : List Nat) (h : 9 ≤ p.length) :
    checksum2_checked p = some (checksum2 (fun i => p.getD i 0)) := by
  have e : nibble_sum_checked p 8 = some (nibble_sum (fun i => p.getD i 0) 8) := by
    exact_mod_cast nibble_sum_checked_whole_some p 8 (by omega)
  unfold checksum2_checked checksum2
  rw [read_byte_lt p 8 (by omega), e]
  rfl

theorem checksum2_checked_none (p : List Nat) (h : p.length < 9) :
    checksum2_checked p = none := by
  unfold checksum2_checked
  rw [read_byte_ge p 8 (by omega)]
  rfl

theorem checksum4_checked_some (p : List Nat) (h : 10 ≤ p.length) :
    checksum4_checked p = some (checksum4 (fun i => p.getD i 0)) := by
  have e : nibble_sum_checked p 9 = some (nibble_sum (fun i => p.getD i 0) 9) := by
    exact_mod_cast nibble_sum_checked_whole_some p 9 (by omega)
  unfold checksum4_checked checksum4
  rw [read_byte_lt p 9 (by omega), e]
  rfl

theorem checksum4_checked_none (p : List Nat) (h : p.length < 10) :
    checksum4_checked p = none := by
  unfold checksum4_checked
  rw [read_byte_ge p 9 (by omega)]
  rfl

theorem checksum5_checked_some (p : List Nat) (h : 11 ≤ p.length) :
    checksum5_checked p = some (checksum5 (fun i => p.getD i 0)) := by
  have e : nibble_sum_checked p 10 = some (nibble_sum (fun i => p.getD i 0) 10) := by
    exact_mod_cast nibble_sum_checked_whole_some p 10 (by omega)
  unfold checksum5_checked checksum5
  rw [read_byte_lt p 10 (by omega), e]
  rfl

theorem checksum5_checked_none (p : List Nat) (h : p.length < 11) :
    checksum5_checked p = none := by
  unfold checksum5_checked
  rw [read_byte_ge p 10 (by omega)]
  rfl

theorem get_device_string_checked_some (len : Nat) (part_name : List Char) (p : List Nat)
    (h : 4 ≤ p.length) :
    get_device_string_checked len part_name p
      = some (get_device_string len part_name (fun i => p.getD i 0)) := by
  unfold get_device_string_checked get_device_string
  rw [read_byte_lt p 3 (by omega), read_byte_lt p 2 (by omega)]
  simp only [Option.bind_eq_bind, Option.some_bind]
  split_ifs <;> rfl

theorem get_device_string_checked_none (len : Nat) (part_name : List Char) (p : List Nat)
    (h : p.length < 4) : get_device_string_checked len part_name p = none := by
  unfold get_device_string_checked
  rw [read_byte_ge p 3 (by omega)]
  rfl

theorem decode_temperature_checked_some (p : List Nat) (dev_str : List Char)
    (r : OregonReading) (h : 7 ≤ p.length) :
    decode_temperature_checked p dev_str r
      = some (decode_temperature (fun i => p.getD i 0) dev_str r) := by
  unfold decode_temperature_checked decode_temperature
  rw [read_byte_lt p 6 (by omega), read_byte_lt p 5 (by omega), read_byte_lt p 4 (by omega)]
  rfl

theorem decode_humidity_checked_some (p : List Nat) (dev_str : List Char)
    (r : OregonReading) (h : 8 ≤ p.length) :
    decode_humidity_checked p dev_str r
      = some (decode_humidity (fun i => p.getD i 0) dev_str r) := by
  unfold decode_humidity_checked decode_humidity
  rw [read_byte_lt p 7 (by omega), read_byte_lt p 6 (by omega)]
  rfl

theorem decode_humidity_checked_none (p : List Nat) (dev_str : List Char)
    (r : OregonReading) (h : p.length < 8) : decode_humidity_checked p dev_str r = none := by
  unfold decode_humidity_checked
  rw [read_byte_ge p 7 (by omega)]
  rfl

theorem decode_simple_battery_checked_some (p : List Nat) (dev_str : List Char)
    (r : OregonReading) (h : 5 ≤ p.length) :
    decode_simple_battery_checked p dev_str r
      = some (decode_simple_battery (fun i => p.getD i 0) dev_str r) := by
  unfold decode_simple_battery_checked decode_simple_battery
  rw [read_byte_lt p 4 (by omega)]
  rfl

theorem decode_pressure_checked_some (p : List Nat) (dev_str : List Char) (offset : Int)
    (code : Nat) (r : OregonReading) (h : 9 ≤ p.length) :
    decode_pressure_checked p dev_str offset code r
      = some (decode_pressure (fun i => p.getD i 0) dev_str offset code r) := by
  unfold decode_pressure_checked decode_pressure
  rw [read_byte_lt p 8 (by omega)]
  rfl

theorem method_common_temphydro_checked_some (part_name : List Char) (p : List Nat)
    (h : 8 ≤ p.length) :
    method_common_temphydro_checked part_name p
      = some (method_common_temphydro part_name (fun i => p.getD i 0)) := by
  unfold method_common_temphydro_checked method_common_temphydro
  rw [get_device_string_checked_some 50 part_name p (by omega)]
  simp only [Option.bind_eq_bind, Option.some_bind]
  rw [decode_temperature_checked_some p _ _ (by omega),
    decode_humidity_checked_some p _ _ (by omega),
    decode_simple_battery_checked_some p _ _ (by omega)]
  rfl

theorem method_common_temphydro_checked_none (part_name : List Char) (p : List Nat)
    (h : p.length < 8) : method_common_temphydro_checked part_name p = none := by
  unfold method_common_temphydro_checked
  cases get_device_string_checked 50 part_name p with
  | none => rfl
  | some dev_str =>
    simp only [Option.bind_eq_bind, Option.some_bind]
    rw [decode_humidity_checked_none p _ _ h]
    cases decode_temperature_checked p dev_str {} <;> rfl

theorem method_alt_temphydrobaro_checked_some (part_name : List Char) (p : List Nat)
    (h : 10 ≤ p.length) :
    method_alt_temphydrobaro_checked part_name p
      = some (method_alt_temphydrobaro part_name (fun i => p.getD i 0)) := by
  unfold method_alt_temphydrobaro_checked method_alt_temphydrobaro
  rw [get_device_string_checked_some 50 part_name p (by omega)]
  simp only [Option.bind_eq_bind, Option.some_bind]
  rw [decode_temperature_checked_some p _ _ (by omega),
    decode_humidity_checked_some p _ _ (by omega), read_byte_lt p 9 (by omega)]
  simp only [Option.some_bind]
  rw [decode_pressure_checked_some p _ _ _ _ (by omega)]
  rfl

theorem method_alt_temphydrobaro_checked_none (part_name : List Char) (p : List Nat)
    (h : p.length < 10) : method_alt_temphydrobaro_checked part_name p = none := by
  unfold method_alt_temphydrobaro_checked
  rw [read_byte_ge p 9 (by omega)]
  cases get_device_string_checked 50 part_name p with
  | none => rfl
  | some dev_str =>
    simp only [Option.bind_eq_bind, Option.some_bind]
    cases decode_temperature_checked p dev_str {} with
    | none => rfl
    | some r0 =>
      simp only [Option.some_bind]
      cases decode_humidity_checked p dev_str {} <;> rfl

theorem checksum1_refines (bound : Nat) (h : 8 ≤ bound) :
    checksum_refines bound (some checksum1_checked) (some checksum1) := by
  intro p b hp hb
  rw [checksum1_checked_some p (by omega)]
  exact congrArg some (checksum1_reads _ _ (fun i hi => (hb i (by omega)).symm))

theorem checksum2_refines (bound : Nat) (h : 9 ≤ bound) :
    checksum_refines bound (some checksum2_checked) (some checksum2) := by
  intro p b hp hb
  rw [checksum2_checked_some p (by omega)]
  exact congrArg some (checksum2_reads _ _ (fun i hi => (hb i (by omega)).symm))

theorem checksum4_refines (bound : Nat) (h : 10 ≤ bound) :
    checksum_refines bound (some checksum4_checked) (some checksum4) := by
  intro p b hp hb
  rw [checksum4_checked_some p (by omega)]
  exact congrArg some (checksum4_reads _ _ (fun i hi => (hb i (by omega)).symm))

theorem checksum5_refines (bound : Nat) (h : 11 ≤ bound) :
    checksum_refines bound (some checksum5_checked) (some checksum5) := by
  intro p b hp hb
  rw [checksum5_checked_some p (by omega)]
  exact congrArg some (checksum5_reads _ _ (fun i hi => (hb i (by omega)).symm))

theorem method_common_refines (bound : Nat) (part_name : List Char) (h : 8 ≤ bound) :
    method_refines bound part_name (some method_common_temphydro_checked)
      (some method_common_temphydro) := by
  intro p b hp hb
  rw [method_common_temphydro_checked_some part_name p (by omega)]
  exact congrArg some
    (method_common_temphydro_reads part_name _ _ (fun i hi => (hb i (by omega)).symm))

theorem method_alt_refines (bound : Nat) (part_name : List Char) (h : 10 ≤ bound) :
    method_refines bound part_name (some method_alt_temphydrobaro_checked)
      (some method_alt_temphydrobaro) := by
  intro p b hp hb
  rw [method_alt_temphydrobaro_checked_some part_name p (by omega)]
  exact congrArg some
    (method_alt_temphydrobaro_reads part_name _ _ (fun i hi => (hb i (by omega)).symm))

theorem method_none_refines (bound : Nat) (part_name : List Char) :
    method_refines bound part_name none none :=
  trivial

theorem registry_refines : List.Forall₂ row_refines SENSOR_TYPES_checked SENSOR_TYPES := by
  unfold SENSOR_TYPES_checked SENSOR_TYPES
  refine List.Forall₂.cons ⟨rfl, rfl, checksum2_refines _ (by decide),
    method_common_refines _ _ (by decide)⟩ ?_
  refine List.Forall₂.cons ⟨rfl, rfl, checksum2_refines _ (by decide),
    method_common_refines _ _ (by decide)⟩ ?_
  refine List.Forall₂.cons ⟨rfl, rfl, checksum4_refines _ (by decide),
    method_none_refines _ _⟩ ?_
  refine List.Forall₂.cons ⟨rfl, rfl, checksum4_refines _ (by decide),
    method_none_refines _ _⟩ ?_
  refine List.Forall₂.cons ⟨rfl, rfl, checksum1_refines _ (by decide),
    method_none_refines _ _⟩ ?_
  refine List.Forall₂.cons ⟨rfl, rfl, checksum1_refines _ (by decide),
    method_none_refines _ _⟩ ?_
  refine List.Forall₂.cons ⟨rfl, rfl, checksum2_refines _ (by decide),
    method_common_refines _ _ (by decide)⟩ ?_
  refine List.Forall₂.cons ⟨rfl, rfl, checksum2_refines _ (by decide),
    method_common_refines _ _ (by decide)⟩ ?_
  refine List.Forall₂.cons ⟨rfl, rfl, checksum5_refines _ (by decide),
    method_alt_refines _ _ (by decide)⟩ ?_
  refine List.Forall₂.cons ⟨rfl, rfl, checksum2_refines _ (by decide),
    method_common_refines _ _ (by decide)⟩ ?_
  exact List.Forall₂.nil

theorem find_key_refines (cs : List SensorTypeChecked) (rs : List SensorType)
    (h : List.Forall₂ row_refines cs rs) (key : Nat) :
    (find_key_checked cs key = none ∧ find_key rs key = none) ∨
    ∃ c r, find_key_checked cs key = some c ∧ find_key rs key = some r ∧ row_refines c r := by
  induction h with
  | nil =>
    left
    exact ⟨rfl, rfl⟩
  | @cons c r cs rs hcr _ ih =>
    unfold find_key_checked find_key at ih ⊢
    rw [List.find?_cons, List.find?_cons, hcr.1]
    by_cases hk : (r.key == key) = true
    · right
      rw [hk]
      exact ⟨c, r, rfl, rfl, hcr⟩
    · rw [Bool.not_eq_true] at hk
      rw [hk]
      exact ih

theorem find_sensor_loop_refines (cs : List SensorTypeChecked) (rs : List SensorType)
    (h : List.Forall₂ row_refines cs rs) (type_id : Nat) (bits : Int) :
    ∀ (fuel : Nat) (b : Int),
      (find_sensor_loop_checked cs type_id bits fuel b = none ∧
        find_sensor_loop rs type_id bits fuel b = none) ∨
      ∃ c r, find_sensor_loop_checked cs type_id bits fuel b = some c ∧
        find_sensor_loop rs type_id bits fuel b = some r ∧ row_refines c r := by
  intro fuel
  induction fuel with
  | zero =>
    intro b
    left
    exact ⟨rfl, rfl⟩
  | succ k ih =>
    intro b
    rw [find_sensor_loop_checked, find_sensor_loop]
    by_cases hb : b ≥ bits - 8 ∧ b > 0
    · rw [if_pos hb, if_pos hb]
      rcases find_key_refines cs rs h (((type_id <<< 16) ||| b.toNat) % 2 ^ 32) with
        ⟨h1, h2⟩ | ⟨c, r, h1, h2, hcr⟩
      · rw [h1, h2]
        exact ih (b - 4)
      · rw [h1, h2]
        right
        exact ⟨c, r, rfl, rfl, hcr⟩
    · rw [if_neg hb, if_neg hb]
      left
      exact ⟨rfl, rfl⟩

theorem find_sensor_refines (type_id : Nat) (bits : Int) :
    (find_sensor_checked SENSOR_TYPES_checked type_id bits = none ∧
      find_sensor SENSOR_TYPES type_id bits = none) ∨
    ∃ c r, find_sensor_checked SENSOR_TYPES_checked type_id bits = some c ∧
      find_sensor SENSOR_TYPES type_id bits = some r ∧ row_refines c r :=
  find_sensor_loop_refines _ _ registry_refines type_id bits _ _

theorem report_sensor_refines (c : SensorTypeChecked) (r : SensorType) (hcr : row_refines c r)
    (p : List Nat) (b : Nat → Nat) (hlen : r.key % 65536 / 8 ≤ p.length)
    (hb : ∀ i, i < p.length → b i = p.getD i 0) :
    report_sensor_checked c p = some (report_sensor r b) := by
  obtain ⟨_, hname, hck, hm⟩ := hcr
  unfold checksum_refines at hck
  unfold method_refines at hm
  unfold report_sensor_checked report_sensor
  rw [hname]
  cases hcm : c.method_func with
  | none =>
    cases hrm : r.method_func with
    | some um =>
      rw [hcm, hrm] at hm
      exact hm.elim
    | none =>
      cases hcc : c.checksum_func with
      | none =>
        cases hrc : r.checksum_func with
        | some u =>
          rw [hcc, hrc] at hck
          exact hck.elim
        | none => rfl
      | some cc =>
        cases hrc : r.checksum_func with
        | none =>
          rw [hcc, hrc] at hck
          exact hck.elim
        | some u =>
          rw [hcc, hrc] at hck
          simp only
          rw [hck p b hlen hb]
          cases u b <;> rfl
  | some cm =>
    cases hrm : r.method_func with
    | none =>
      rw [hcm, hrm] at hm
      exact hm.elim
    | some um =>
      rw [hcm, hrm] at hm
      cases hcc : c.checksum_func with
      | none =>
        cases hrc : r.checksum_func with
        | some u =>
          rw [hcc, hrc] at hck
          exact hck.elim
        | none =>
          simp only
          rw [hm p b hlen hb]
          rfl
      | some cc =>
        cases hrc : r.checksum_func with
        | none =>
          rw [hcc, hrc] at hck
          exact hck.elim
        | some u =>
          rw [hcc, hrc] at hck
          simp only
          rw [hck p b hlen hb, hm p b hlen hb]
          cases u b <;> rfl

theorem payload_of_drop (stack : Nat → Nat) (bytes : List Nat) (i : Nat)
    (hi : i < (bytes.drop 1).length) :
    payload_of stack bytes i = (bytes.drop 1).getD i 0 := by
  rw [List.length_drop] at hi
  unfold payload_of
  rw [msg_bytes_of_stored stack bytes (i + 1) (by omega), List.getD_eq_getElem?_getD,
    List.getD_eq_getElem?_getD, List.getElem?_drop, Nat.add_comm]

theorem parse_checked_eq_find (hex_msg : List Char) (bytes : List Nat)
    (h : hex_to_bytes hex_msg 32 = some bytes) (h3 : 3 ≤ bytes.length) :
    parse_oregon_message_checked hex_msg =
      match find_sensor_checked SENSOR_TYPES_checked (payload_type_id bytes)
          (declared_bits bytes) with
      | none => some ParseResult.unknown_sensor
      | some found_sensor => report_sensor_checked found_sensor (bytes.drop 1) := by
  have hlt := hex_to_bytes_lt _ _ _ h
  unfold parse_oregon_message_checked
  rw [h]
  simp only
  rw [if_neg (by omega)]
  unfold parse_bytes_checked
  simp only
  rw [read_byte_lt bytes 0 (by omega),
    read_byte_lt (bytes.drop 1) 0 (by rw [List.length_drop]; omega),
    read_byte_lt (bytes.drop 1) 1 (by rw [List.length_drop]; omega)]
  simp only
  have e0 : (bytes.drop 1).getD 0 0 = bytes.getD 1 0 := by
    rw [List.getD_eq_getElem?_getD, List.getD_eq_getElem?_getD, List.getElem?_drop]
  have e1 : (bytes.drop 1).getD 1 0 = bytes.getD 2 0 := by
    rw [List.getD_eq_getElem?_getD, List.getD_eq_getElem?_getD, List.getElem?_drop]
  rw [e0, e1, type_id_eq _ _ (getD_lt bytes hlt 1 0 (by norm_num))
    (getD_lt bytes hlt 2 0 (by norm_num))]
  rfl

theorem parse_checked_eq (stack : Nat → Nat) (hex_msg : List Char) (bytes : List Nat) (n : Nat)
    (h : hex_to_bytes hex_msg 32 = some bytes) (hlen : bytes.length = n + 1) (hn : 2 ≤ n)
    (hL : bytes.getD 0 0 = 8 * n) :
    parse_oregon_message_checked hex_msg = some (parse_oregon_message stack hex_msg) := by
  have h3 : 3 ≤ bytes.length := by omega
  rw [parse_checked_eq_find hex_msg bytes h h3]
  unfold parse_oregon_message
  rw [parse_with_eq_find SENSOR_TYPES stack hex_msg bytes h h3]
  rcases find_sensor_refines (payload_type_id bytes) (declared_bits bytes) with
    ⟨h1, h2⟩ | ⟨c, r, h1, h2, hcr⟩
  · rw [h1, h2]
  · rw [h1, h2]
    simp only
    obtain ⟨_, _, hle⟩ := found_row_bits hex_msg bytes h h3 r h2
    rw [hL] at hle
    apply report_sensor_refines c r hcr
    · rw [List.length_drop]
      omega
    · intro i hi
      exact payload_of_drop stack bytes i hi

theorem checked_read_bounds (p : List Nat) (part_name : List Char) :
    ((checksum1_checked p).isSome ↔ 8 ≤ p.length) ∧
    ((checksum2_checked p).isSome ↔ 9 ≤ p.length) ∧
    ((checksum4_checked p).isSome ↔ 10 ≤ p.length) ∧
    ((checksum5_checked p).isSome ↔ 11 ≤ p.length) ∧
    ((get_device_string_checked 50 part_name p).isSome ↔ 4 ≤ p.length) ∧
    ((method_common_temphydro_checked part_name p).isSome ↔ 8 ≤ p.length) ∧
    ((method_alt_temphydrobaro_checked part_name p).isSome ↔ 10 ≤ p.length) := by
  refine ⟨?_, ?_, ?_, ?_, ?_, ?_, ?_⟩
  · by_cases h : 8 ≤ p.length
    · rw [checksum1_checked_some p h]
      exact ⟨fun _ => h, fun _ => rfl⟩
    · rw [checksum1_checked_none p (by omega)]
      exact ⟨fun hc => (by cases hc), fun hc => absurd hc h⟩
  · by_cases h : 9 ≤ p.length
    · rw [checksum2_checked_some p h]
      exact ⟨fun _ => h, fun _ => rfl⟩
    · rw [checksum2_checked_none p (by omega)]
      exact ⟨fun hc => (by cases hc), fun hc => absurd hc h⟩
  · by_cases h : 10 ≤ p.length
    · rw [checksum4_checked_some p h]
      exact ⟨fun _ => h, fun _ => rfl⟩
    · rw [checksum4_checked_none p (by omega)]
      exact ⟨fun hc => (by cases hc), fun hc => absurd hc h⟩
  · by_cases h : 11 ≤ p.length
    · rw [checksum5_checked_some p h]
      exact ⟨fun _ => h, fun _ => rfl⟩
    · rw [checksum5_checked_none p (by omega)]
      exact ⟨fun hc => (by cases hc), fun hc => absurd hc h⟩
  · by_cases h : 4 ≤ p.length
    · rw [get_device_string_checked_some 50 part_name p h]
      exact ⟨fun _ => h, fun _ => rfl⟩
    · rw [get_device_string_checked_none 50 part_name p (by omega)]
      exact ⟨fun hc => (by cases hc), fun hc => absurd hc h⟩
  · by_cases h : 8 ≤ p.length
    · rw [method_common_temphydro_checked_some part_name p h]
      exact ⟨fun _ => h, fun _ => rfl⟩
    · rw [method_common_temphydro_checked_none part_name p (by omega)]
      exact ⟨fun hc => (by cases hc), fun hc => absurd hc h⟩
  · by_cases h : 10 ≤ p.length
    · rw [method_alt_temphydrobaro_checked_some part_name p h]
      exact ⟨fun _ => h, fun _ => rfl⟩
    · rw [method_alt_temphydrobaro_checked_none part_name p (by omega)]
      exact ⟨fun hc => (by cases hc), fun hc => absurd hc h⟩

theorem short_hex_bytes :
    hex_to_bytes short_hex_msg 32
      = some [0x50, 0x1a, 0x2d, 0x10, 0xf4, 0x00, 0x23, 0x30, 0x44] := by
  decide

theorem short_msg_reads_outside : parse_oregon_message_checked short_hex_msg = none := by
  rw [parse_checked_eq_find short_hex_msg _ short_hex_bytes (by decide)]
  have hf : find_sensor_checked SENSOR_TYPES_checked
      (payload_type_id [0x50, 0x1a, 0x2d, 0x10, 0xf4, 0x00, 0x23, 0x30, 0x44])
      (declared_bits [0x50, 0x1a, 0x2d, 0x10, 0xf4, 0x00, 0x23, 0x30, 0x44])
      = some ⟨0x1a2d0050, "THGR228N".toList, some checksum2_checked,
          some method_common_temphydro_checked⟩ := by
    rfl
  rw [hf]
  simp only
  unfold report_sensor_checked
  simp only
  rw [checksum2_checked_none _ (by decide)]

theorem good_hex_bytes :
    hex_to_bytes good_hex_msg 32
      = some [0x50, 0x1a, 0x2d, 0x10, 0xf4, 0x00, 0x23, 0x30, 0x44, 0x34, 0x00] := by
  decide

theorem find_sensor_loop_checked_mem (table : List SensorTypeChecked) (type_id : Nat)
    (bits : Int) (c : SensorTypeChecked) :
    ∀ (fuel : Nat) (b : Int),
      find_sensor_loop_checked table type_id bits fuel b = some c → c ∈ table := by
  intro fuel
  induction fuel with
  | zero =>
    intro b h
    cases h
  | succ k ih =>
    intro b h
    rw [find_sensor_loop_checked] at h
    split_ifs at h
    cases hk : find_key_checked table (((type_id <<< 16) ||| b.toNat) % 2 ^ 32) with
    | none =>
      rw [hk] at h
      exact ih (b - 4) h
    | some s =>
      rw [hk] at h
      injection h with h
      subst h
      exact List.mem_of_find?_eq_some hk

/-- C20: for a message that decodes to a length byte and n payload bytes (2 ≤ n;
n ≤ 31 follows from the 32-byte buffer) with declared length L = 8 * n, if the
lookup finds a row, then the row's checksum validator and its decode method, run
with every read `bytes[i]` checked against the n payload bytes that were stored,
read no index of n or more (the device-string bytes 2 and 3 included): the checked
functions return a result, the one the functions of the parser return, and so does
the whole parse with checked reads, whatever the stack held. (The checked functions
return `none` exactly on payloads shorter than 8, 9, 10, 11 bytes for `checksum1`,
`checksum2`, `checksum4`, `checksum5`, than 8 and 10 bytes for the two methods and
than 4 bytes for the device string: `checked_read_bounds`.) Accordingly the results
are the same on any payloads that agree below n. -/
theorem C20_reads_inside_payload (stack : Nat → Nat) (hex_msg : List Char)
    (bytes : List Nat) (n : Nat)
    (h : hex_to_bytes hex_msg 32 = some bytes) (hlen : bytes.length = n + 1) (hn : 2 ≤ n)
    (hL : bytes.getD 0 0 = 8 * n) (row : SensorType)
    (hrow : find_sensor SENSOR_TYPES (payload_type_id bytes) (declared_bits bytes) = some row) :
    n ≤ 31 ∧ 8 ≤ n ∧ (bytes.drop 1).length = n ∧
    (∃ crow : SensorTypeChecked, crow ∈ SENSOR_TYPES_checked ∧
      find_sensor_checked SENSOR_TYPES_checked (payload_type_id bytes) (declared_bits bytes)
        = some crow ∧
      crow.key = row.key ∧ crow.part_name = row.part_name ∧
      (∀ ck, row.checksum_func = some ck → ∃ cck, crow.checksum_func = some cck ∧
        cck (bytes.drop 1) = some (ck (payload_of stack bytes))) ∧
      (∀ m, row.method_func = some m → ∃ cm, crow.method_func = some cm ∧
        cm row.part_name (bytes.drop 1) = some (m row.part_name (payload_of stack bytes))) ∧
      (row.checksum_func = none → crow.checksum_func = none) ∧
      (row.method_func = none → crow.method_func = none)) ∧
    get_device_string_checked 50 row.part_name (bytes.drop 1)
      = some (get_device_string 50 row.part_name (payload_of stack bytes)) ∧
    parse_oregon_message_checked hex_msg = some (parse_oregon_message stack hex_msg) ∧
    (∀ ck, row.checksum_func = some ck → reads_below ck n) ∧
    (∀ m, row.method_func = some m → reads_below (m row.part_name) n) ∧
    reads_below (get_device_string 50 row.part_name) 4 ∧
    (∀ stack2 : Nat → Nat, ∀ i, i < n →
      payload_of stack2 bytes i = payload_of stack bytes i) ∧
    (∀ stack2 : Nat → Nat,
      parse_oregon_message stack2 hex_msg = parse_oregon_message stack hex_msg) := by
  have h3 : 3 ≤ bytes.length := by omega
  obtain ⟨hmem, hpos, hle⟩ := found_row_bits hex_msg bytes h h3 row hrow
  rw [hL] at hle
  obtain ⟨hck, hm⟩ := registry_reads row hmem n hle
  have hn31 : n ≤ 31 := by
    have := (hex_to_bytes_length _ _ _ h).2
    omega
  have hn8 : 8 ≤ n := by
    have hk : row.key % 65536 = 80 ∨ row.key % 65536 = 88 ∨ row.key % 65536 = 64 := by
      unfold SENSOR_TYPES at hmem
      simp only [List.mem_cons, List.mem_singleton, List.not_mem_nil, or_false] at hmem
      rcases hmem with rfl | rfl | rfl | rfl | rfl | rfl | rfl | rfl | rfl | rfl <;> decide
    omega
  have hp : ∀ stack2 : Nat → Nat, ∀ i, i < n →
      payload_of stack2 bytes i = payload_of stack bytes i :=
    fun stack2 i hi => payload_of_stored stack2 stack bytes i (by omega)
  have hdl : (bytes.drop 1).length = n := by
    rw [List.length_drop]
    omega
  have hbound : row.key % 65536 / 8 ≤ (bytes.drop 1).length := by
    rw [hdl]
    omega
  have hagree : ∀ i, i < (bytes.drop 1).length →
      payload_of stack bytes i = (bytes.drop 1).getD i 0 :=
    fun i hi => payload_of_drop stack bytes i hi
  refine ⟨hn31, hn8, hdl, ?_, ?_, parse_checked_eq stack hex_msg bytes n h hlen hn hL,
    hck, hm, get_device_string_reads 50 row.part_name, hp, ?_⟩
  · rcases find_sensor_refines (payload_type_id bytes) (declared_bits bytes) with
      ⟨_, h2⟩ | ⟨c, r, h1, h2, hcr⟩
    · rw [h2] at hrow
      cases hrow
    · rw [h2] at hrow
      injection hrow with hrow
      subst hrow
      obtain ⟨hkey, hname, hcr1, hcr2⟩ := hcr
      unfold checksum_refines at hcr1
      unfold method_refines at hcr2
      refine ⟨c, find_sensor_loop_checked_mem _ _ _ c _ _ h1, h1, hkey, hname, ?_, ?_, ?_, ?_⟩
      · intro ck hrc
        rw [hrc] at hcr1
        cases hcc : c.checksum_func with
        | none =>
          rw [hcc] at hcr1
          exact hcr1.elim
        | some cck =>
          rw [hcc] at hcr1
          exact ⟨cck, rfl, hcr1 _ _ hbound hagree⟩
      · intro m hrm
        rw [hrm] at hcr2
        cases hcm : c.method_func with
        | none =>
          rw [hcm] at hcr2
          exact hcr2.elim
        | some cm =>
          rw [hcm] at hcr2
          exact ⟨cm, rfl, hcr2 _ _ hbound hagree⟩
      · intro hrc
        rw [hrc] at hcr1
        cases hcc : c.checksum_func with
        | none => rfl
        | some cck =>
          rw [hcc] at hcr1
          exact hcr1.elim
      · intro hrm
        rw [hrm] at hcr2
        cases hcm : c.method_func with
        | none => rfl
        | some cm =>
          rw [hcm] at hcr2
          exact hcr2.elim
  · rw [get_device_string_checked_some 50 row.part_name _ (by rw [hdl]; omega)]
    exact congrArg some
      (get_device_string_reads 50 row.part_name _ _ (fun i hi => (hagree i (by omega)).symm))
  · intro stack2
    rw [parse_eq_report stack2 hex_msg bytes h h3 row hrow,
      parse_eq_report stack hex_msg bytes h h3 row hrow]
    exact report_sensor_congr row n _ _ hck hm (hp stack2)

/-- C20 witness: "501A2D10F4002330443400" has 10 payload bytes and declares
0x50 = 8 * 10 bits; the row found is THGR228N; `checksum2` and
`method_common_temphydro` with checked reads return a result on the 10 payload
bytes, the parse with checked reads returns the result of the parser, and the parse
is the same for a stack of zeros and a stack of 0xFF bytes. For comparison,
"501A2D10F400233044" declares 0x50 bits with 8 payload bytes only: there the parse
with checked reads stops at the read of payload[8]. -/
theorem C20_reads_inside_payload_witness :
    hex_to_bytes good_hex_msg 32
      = some [0x50, 0x1a, 0x2d, 0x10, 0xf4, 0x00, 0x23, 0x30, 0x44, 0x34, 0x00] ∧
    (checksum2_checked [0x1a, 0x2d, 0x10, 0xf4, 0x00, 0x23, 0x30, 0x44, 0x34, 0x00]).isSome ∧
    (method_common_temphydro_checked "THGR228N".toList
      [0x1a, 0x2d, 0x10, 0xf4, 0x00, 0x23, 0x30, 0x44, 0x34, 0x00]).isSome ∧
    parse_oregon_message_checked good_hex_msg
      = some (parse_oregon_message (fun _ => 0) good_hex_msg) ∧
    reads_below checksum2 10 ∧
    reads_below (method_common_temphydro "THGR228N".toList) 10 ∧
    parse_oregon_message (fun _ => 255) good_hex_msg
      = parse_oregon_message (fun _ => 0) good_hex_msg ∧
    parse_oregon_message_checked short_hex_msg = none := by
  have hw := C20_reads_inside_payload (fun _ => 0) good_hex_msg _ 10 good_hex_bytes rfl
    (by decide) rfl
    ⟨0x1a2d0050, "THGR228N".toList, some checksum2, some method_common_temphydro⟩ rfl
  obtain ⟨_, _, _, ⟨crow, _, hfind, _, _, hcck, hcm, _, _⟩, _, hparse, hrb1, hrb2, _, _, hst⟩ := hw
  have hcrow : find_sensor_checked SENSOR_TYPES_checked
      (payload_type_id [0x50, 0x1a, 0x2d, 0x10, 0xf4, 0x00, 0x23, 0x30, 0x44, 0x34, 0x00])
      (declared_bits [0x50, 0x1a, 0x2d, 0x10, 0xf4, 0x00, 0x23, 0x30, 0x44, 0x34, 0x00])
      = some ⟨0x1a2d0050, "THGR228N".toList, some checksum2_checked,
          some method_common_temphydro_checked⟩ := by
    rfl
  rw [hcrow] at hfind
  injection hfind with hfind
  subst hfind
  obtain ⟨cck, hc1, hc2⟩ := hcck checksum2 rfl
  obtain ⟨cm, hm1, hm2⟩ := hcm method_common_temphydro rfl
  injection hc1 with hc1
  injection hm1 with hm1
  subst hc1 hm1
  refine ⟨good_hex_bytes, ?_, ?_, hparse, hrb1 checksum2 rfl,
    hrb2 method_common_temphydro rfl, hst (fun _ => 255), short_msg_reads_outside⟩
  · exact Option.isSome_iff_exists.mpr ⟨_, hc2⟩
  · exact Option.isSome_iff_exists.mpr ⟨_, hm2⟩

theorem strstr_some_first (hay needle : List Char) :
    ∀ pos, strstr hay needle = some pos → first_occurrence needle hay pos := by
  induction hay with
  | nil =>
    intro pos h
    unfold strstr at h
    split_ifs at h with hn
    injection h with h
    subst h hn
    exact ⟨List.nil_prefix, fun k hk => absurd hk (by omega)⟩
  | cons c cs ih =>
    intro pos h
    unfold strstr at h
    split_ifs at h with hp
    · injection h with h
      subst h
      exact ⟨List.isPrefixOf_iff_prefix.mp hp, fun k hk => absurd hk (by omega)⟩
    · cases hs : strstr cs needle with
      | none =>
        rw [hs] at h
        cases h
      | some p =>
        rw [hs] at h
        simp only [Option.map_some', Option.some.injEq] at h
        subst h
        obtain ⟨h1, h2⟩ := ih p hs
        refine ⟨h1, ?_⟩
        intro k hk
        cases k with
        | zero =>
          intro ho
          exact hp (List.isPrefixOf_iff_prefix.mpr ho)
        | succ k2 => exact h2 k2 (by omega)

theorem strstr_none_no_occurrence (hay needle : List Char) :
    strstr hay needle = none → ∀ k, ¬ occurs_at needle hay k := by
  induction hay with
  | nil =>
    intro h k ho
    unfold strstr at h
    split_ifs at h with hn
    unfold occurs_at at ho
    rw [List.drop_nil] at ho
    exact hn (List.prefix_nil.mp ho)
  | cons c cs ih =>
    intro h k
    unfold strstr at h
    split_ifs at h with hp
    cases hs : strstr cs needle with
    | some p =>
      rw [hs] at h
      cases h
    | none =>
      cases k with
      | zero =>
        intro ho
        exact hp (List.isPrefixOf_iff_prefix.mpr ho)
      | succ k2 => exact ih hs k2

theorem strstr_some_lt (hay needle : List Char) (hn : needle ≠ []) (pos : Nat)
    (h : strstr hay needle = some pos) : pos + needle.length ≤ hay.length := by
  have ho := (strstr_some_first hay needle pos h).1
  unfold occurs_at at ho
  have hl := ho.length_le
  rw [List.length_drop] at hl
  have hpos : 0 < needle.length := List.length_pos.mpr hn
  omega

theorem getD_drop (l : List Char) (n i : Nat) (d : Char) :
    (l.drop n).getD i d = l.getD (n + i) d := by
  rw [List.getD_eq_getElem?_getD, List.getD_eq_getElem?_getD, List.getElem?_drop]

theorem getD_take (l : List Char) (n i : Nat) (d : Char) (hi : i < n) :
    (l.take n).getD i d = l.getD i d := by
  rw [List.getD_eq_getElem?_getD, List.getD_eq_getElem?_getD, List.getElem?_take_of_lt hi]

theorem getD_is_bit (bits : List Char) (hbits : is_bit_string bits) (k : Nat) :
    bits.getD k '0' = '0' ∨ bits.getD k '0' = '1' := by
  by_cases hk : k < bits.length
  · rw [List.getD_eq_getElem _ _ hk]
    exact hbits _ (List.getElem_mem _)
  · rw [List.getD_eq_default _ _ (by omega)]
    left
    rfl

theorem manchester_chunk_eq (q : List Char) :
    manchester_chunk q = [q.getD 15 '0', q.getD 13 '0', q.getD 11 '0', q.getD 9 '0',
      q.getD 7 '0', q.getD 5 '0', q.getD 3 '0', q.getD 1 '0'] := by
  rfl

theorem strtol2_bit (c : Char) (cs : List Char) (acc : Nat) (hc : c = '0' ∨ c = '1') :
    strtol2 (c :: cs) acc = strtol2 cs (2 * acc + (if c = '1' then 1 else 0)) := by
  rcases hc with rfl | rfl
  · rfl
  · rfl

theorem range8_sum (f : Nat → Nat) :
    ((List.range 8).map f).sum = f 0 + f 1 + f 2 + f 3 + f 4 + f 5 + f 6 + f 7 := by
  simp [List.range_succ]
  omega

theorem bit_at_le (bits : List Char) (k : Nat) : bit_at bits k ≤ 1 := by
  unfold bit_at
  split_ifs <;> omega

theorem v2_byte_reference_lt (bits : List Char) (pos j : Nat) :
    v2_byte_reference bits pos j < 256 := by
  unfold v2_byte_reference
  rw [range8_sum]
  have h0 := bit_at_le bits (pos + 16 * j + 1)
  have h1 := bit_at_le bits (pos + 16 * j + 2 + 1)
  have h2 := bit_at_le bits (pos + 16 * j + 4 + 1)
  have h3 := bit_at_le bits (pos + 16 * j + 6 + 1)
  have h4 := bit_at_le bits (pos + 16 * j + 8 + 1)
  have h5 := bit_at_le bits (pos + 16 * j + 10 + 1)
  have h6 := bit_at_le bits (pos + 16 * j + 12 + 1)
  have h7 := bit_at_le bits (pos + 16 * j + 14 + 1)
  norm_num
  omega

theorem v3_byte_reference_lt (bits : List Char) (start j : Nat) :
    v3_byte_reference bits start j < 256 := by
  unfold v3_byte_reference
  rw [range8_sum]
  have h0 := bit_at_le bits (start + 8 * j)
  have h1 := bit_at_le bits (start + 8 * j + 1)
  have h2 := bit_at_le bits (start + 8 * j + 2)
  have h3 := bit_at_le bits (start + 8 * j + 3)
  have h4 := bit_at_le bits (start + 8 * j + 4)
  have h5 := bit_at_le bits (start + 8 * j + 5)
  have h6 := bit_at_le bits (start + 8 * j + 6)
  have h7 := bit_at_le bits (start + 8 * j + 7)
  norm_num
  omega


theorem bit_char_value (bits : List Char) (hbits : is_bit_string bits) (k : Nat) (cs : List Char)
    (acc : Nat) :
    strtol2 (bits.getD k '0' :: cs) acc = strtol2 cs (2 * acc + bit_at bits k) := by
  rw [strtol2_bit _ _ _ (getD_is_bit bits hbits k)]
  rfl

theorem v2_chunk_byte (bits : List Char) (hbits : is_bit_string bits) (off : Nat) :
    bin_str_to_byte (manchester_chunk ((bits.drop off).take 16))
      = v2_byte_reference bits off 0 := by
  rw [manchester_chunk_eq]
  simp only [getD_take _ 16 _ _ (by norm_num : 15 < 16), getD_take _ 16 _ _ (by norm_num : 13 < 16),
    getD_take _ 16 _ _ (by norm_num : 11 < 16), getD_take _ 16 _ _ (by norm_num : 9 < 16),
    getD_take _ 16 _ _ (by norm_num : 7 < 16), getD_take _ 16 _ _ (by norm_num : 5 < 16),
    getD_take _ 16 _ _ (by norm_num : 3 < 16), getD_take _ 16 _ _ (by norm_num : 1 < 16),
    getD_drop]
  unfold bin_str_to_byte
  simp only [bit_char_value bits hbits]
  rw [strtol2]
  unfold v2_byte_reference
  rw [range8_sum]
  have e0 : off + 16 * 0 + 2 * 0 + 1 = off + 1 := by omega
  have e1 : off + 16 * 0 + 2 * 1 + 1 = off + 3 := by omega
  have e2 : off + 16 * 0 + 2 * 2 + 1 = off + 5 := by omega
  have e3 : off + 16 * 0 + 2 * 3 + 1 = off + 7 := by omega
  have e4 : off + 16 * 0 + 2 * 4 + 1 = off + 9 := by omega
  have e5 : off + 16 * 0 + 2 * 5 + 1 = off + 11 := by omega
  have e6 : off + 16 * 0 + 2 * 6 + 1 = off + 13 := by omega
  have e7 : off + 16 * 0 + 2 * 7 + 1 = off + 15 := by omega
  rw [e0, e1, e2, e3, e4, e5, e6, e7]
  have h0 := bit_at_le bits (off + 1)
  have h1 := bit_at_le bits (off + 3)
  have h2 := bit_at_le bits (off + 5)
  have h3 := bit_at_le bits (off + 7)
  have h4 := bit_at_le bits (off + 9)
  have h5 := bit_at_le bits (off + 11)
  have h6 := bit_at_le bits (off + 13)
  have h7 := bit_at_le bits (off + 15)
  norm_num
  omega

theorem v2_loop_short (fuel : Nat) (p : List Char) (h : p.length < 16) : v2_loop fuel p = [] := by
  cases fuel with
  | zero => rfl
  | succ k => rw [v2_loop, if_neg (by omega)]

theorem bits_to_hex_nil (fuel : Nat) : bits_to_hex fuel [] = [] := by
  cases fuel with
  | zero => rfl
  | succ k => rw [bits_to_hex, if_pos rfl]

theorem v2_byte_reference_shift (bits : List Char) (off j : Nat) :
    v2_byte_reference bits off (j + 1) = v2_byte_reference bits (off + 16) j := by
  unfold v2_byte_reference
  have e : ∀ i, off + 16 * (j + 1) + 2 * i + 1 = off + 16 + 16 * j + 2 * i + 1 := by
    intro i
    omega
  apply congrArg
  apply List.map_congr_left
  intro i _
  rw [e i]

theorem bin_str_to_byte_lt (s : List Char) : bin_str_to_byte s < 256 := by
  unfold bin_str_to_byte
  omega

theorem hex2_flatMap_length (f : Nat → Nat) (l : List Nat) :
    (l.flatMap (fun j => hex2_upper (f j))).length = 2 * l.length := by
  induction l with
  | nil => rfl
  | cons a as ih =>
    rw [List.flatMap_cons, List.length_append, ih, List.length_cons]
    unfold hex2_upper
    simp only [List.length_cons, List.length_nil]
    omega

theorem v2_loop_length (bits : List Char) :
    ∀ (n off fuel : Nat), (bits.length - off) / 16 = n → n ≤ fuel →
      (v2_loop fuel (bits.drop off)).length = 8 * n := by
  intro n
  induction n with
  | zero =>
    intro off fuel hn _
    rw [v2_loop_short _ _ (by rw [List.length_drop]; omega)]
    rfl
  | succ m ih =>
    intro off fuel hn hf
    obtain ⟨f2, rfl⟩ : ∃ f2, fuel = f2 + 1 := ⟨fuel - 1, by omega⟩
    rw [v2_loop, if_pos (by rw [List.length_drop]; omega), List.length_append,
      manchester_chunk_length, List.drop_drop, ih (off + 16) f2 (by omega) (by omega)]
    omega

theorem v2_hex_eq (bits : List Char) (hbits : is_bit_string bits) :
    ∀ (n off fuel fuel2 : Nat), (bits.length - off) / 16 = n → n ≤ fuel → n ≤ fuel2 →
      bits_to_hex fuel2 (v2_loop fuel (bits.drop off))
        = (List.range n).flatMap (fun j => hex2_upper (v2_byte_reference bits off j)) := by
  intro n
  induction n with
  | zero =>
    intro off fuel fuel2 hn _ _
    rw [v2_loop_short _ _ (by rw [List.length_drop]; omega), bits_to_hex_nil]
    rfl
  | succ m ih =>
    intro off fuel fuel2 hn hf hf2
    obtain ⟨f1, rfl⟩ : ∃ f1, fuel = f1 + 1 := ⟨fuel - 1, by omega⟩
    obtain ⟨f2, rfl⟩ : ∃ f2, fuel2 = f2 + 1 := ⟨fuel2 - 1, by omega⟩
    have hmc := manchester_chunk_length ((bits.drop off).take 16)
    have hne : manchester_chunk ((bits.drop off).take 16)
        ++ v2_loop f1 ((bits.drop off).drop 16) ≠ [] := by
      intro h0
      have := congrArg List.length h0
      rw [List.length_append, hmc] at this
      simp at this
    rw [v2_loop, if_pos (by rw [List.length_drop]; omega), bits_to_hex, if_neg hne,
      List.take_left' hmc, List.drop_left' hmc, List.drop_drop,
      ih (off + 16) f1 f2 (by omega) (by omega) (by omega),
      fmt_02X_byte _ (bin_str_to_byte_lt _), v2_chunk_byte bits hbits off,
      List.range_succ_eq_map, List.flatMap_cons, List.flatMap_map]
    congr 1
    apply List.flatMap_congr
    intro j _
    rw [v2_byte_reference_shift]

theorem canonical_reference_range (f : Nat → Nat) (n : Nat) :
    canonical_reference ((List.range n).map f)
      = hex2_upper (8 * n) ++ (List.range n).flatMap (fun j => hex2_upper (f j)) := by
  unfold canonical_reference
  rw [List.length_map, List.length_range, List.flatMap_map]

theorem decode_oregon_v2_cases (bits : List Char) (hbits : is_bit_string bits) (pos : Nat)
    (hs : strstr bits "10011001".toList = some pos) :
    ((bits.length - pos) / 16 = 0 → decode_oregon_v2 bits = CResult.null) ∧
    (1 ≤ (bits.length - pos) / 16 → (bits.length - pos) / 16 ≤ 31 →
      decode_oregon_v2 bits = CResult.str (canonical_reference
        ((List.range ((bits.length - pos) / 16)).map (v2_byte_reference bits pos)))) ∧
    (32 ≤ (bits.length - pos) / 16 → decode_oregon_v2 bits = CResult.overrun) := by
  have hfuel : (bits.length - pos) / 16 ≤ bits.length := by omega
  have hlen := v2_loop_length bits _ pos bits.length rfl hfuel
  have hhex := v2_hex_eq bits hbits _ pos bits.length
    (v2_loop bits.length (bits.drop pos)).length rfl hfuel (by rw [hlen]; omega)
  have hhl : (bits_to_hex (v2_loop bits.length (bits.drop pos)).length
      (v2_loop bits.length (bits.drop pos))).length = 2 * ((bits.length - pos) / 16) := by
    rw [hhex, hex2_flatMap_length, List.length_range]
  unfold decode_oregon_v2
  rw [hs]
  simp only
  refine ⟨fun h0 => ?_, fun h1 h31 => ?_, fun h32 => ?_⟩
  · rw [if_neg (by rw [hlen]; omega), if_neg (by rw [hhl]; omega), if_pos (by rw [hhl]; omega)]
  · rw [if_neg (by rw [hlen]; omega), if_neg (by rw [hhl]; omega),
      if_neg (by rw [hhl]; omega), hhl, canonical_reference_range, ← hhex]
    have e : 2 * ((bits.length - pos) / 16) * 4 = 8 * ((bits.length - pos) / 16) := by omega
    rw [e, fmt_02X_byte _ (by omega)]
  · rw [if_pos (by rw [hlen]; omega)]

theorem take8_reverse (p : List Char) (h : 8 ≤ p.length) :
    (p.take 8).reverse = [p.getD 7 '0', p.getD 6 '0', p.getD 5 '0', p.getD 4 '0',
      p.getD 3 '0', p.getD 2 '0', p.getD 1 '0', p.getD 0 '0'] := by
  rcases p with _ | ⟨a0, _ | ⟨a1, _ | ⟨a2, _ | ⟨a3, _ | ⟨a4, _ | ⟨a5, _ | ⟨a6, _ | ⟨a7, t⟩⟩⟩⟩⟩⟩⟩⟩
  all_goals first
    | (simp only [List.length_cons, List.length_nil] at h; omega)
    | rfl

theorem v3_chunk_byte (bits : List Char) (hbits : is_bit_string bits) (off : Nat)
    (h : 8 ≤ (bits.drop off).length) :
    bin_str_to_byte ((bits.drop off).take 8).reverse = v3_byte_reference bits off 0 := by
  rw [take8_reverse _ h]
  simp only [getD_drop]
  unfold bin_str_to_byte
  simp only [bit_char_value bits hbits]
  rw [strtol2]
  unfold v3_byte_reference
  rw [range8_sum]
  have e0 : off + 8 * 0 + 0 = off + 0 := by omega
  have e1 : off + 8 * 0 + 1 = off + 1 := by omega
  have e2 : off + 8 * 0 + 2 = off + 2 := by omega
  have e3 : off + 8 * 0 + 3 = off + 3 := by omega
  have e4 : off + 8 * 0 + 4 = off + 4 := by omega
  have e5 : off + 8 * 0 + 5 = off + 5 := by omega
  have e6 : off + 8 * 0 + 6 = off + 6 := by omega
  have e7 : off + 8 * 0 + 7 = off + 7 := by omega
  rw [e0, e1, e2, e3, e4, e5, e6, e7]
  have h0 := bit_at_le bits (off + 0)
  have h1 := bit_at_le bits (off + 1)
  have h2 := bit_at_le bits (off + 2)
  have h3 := bit_at_le bits (off + 3)
  have h4 := bit_at_le bits (off + 4)
  have h5 := bit_at_le bits (off + 5)
  have h6 := bit_at_le bits (off + 6)
  have h7 := bit_at_le bits (off + 7)
  norm_num at h0 ⊢
  omega

theorem v3_loop_short (fuel : Nat) (p : List Char) (h : p.length < 8) : v3_loop fuel p = [] := by
  cases fuel with
  | zero => rfl
  | succ k => rw [v3_loop, if_neg (by omega)]

theorem v3_byte_reference_shift (bits : List Char) (off j : Nat) :
    v3_byte_reference bits off (j + 1) = v3_byte_reference bits (off + 8) j := by
  unfold v3_byte_reference
  have e : ∀ i, off + 8 * (j + 1) + i = off + 8 + 8 * j + i := by
    intro i
    omega
  apply congrArg
  apply List.map_congr_left
  intro i _
  rw [e i]

theorem v3_hex_eq (bits : List Char) (hbits : is_bit_string bits) :
    ∀ (n off fuel : Nat), (bits.length - off) / 8 = n → n ≤ fuel →
      v3_loop fuel (bits.drop off)
        = (List.range n).flatMap (fun j => hex2_upper (v3_byte_reference bits off j)) := by
  intro n
  induction n with
  | zero =>
    intro off fuel hn _
    rw [v3_loop_short _ _ (by rw [List.length_drop]; omega)]
    rfl
  | succ m ih =>
    intro off fuel hn hf
    obtain ⟨f1, rfl⟩ : ∃ f1, fuel = f1 + 1 := ⟨fuel - 1, by omega⟩
    have h8 : 8 ≤ (bits.drop off).length := by
      rw [List.length_drop]
      omega
    rw [v3_loop, if_pos h8, List.drop_drop, ih (off + 8) f1 (by omega) (by omega),
      fmt_02X_byte _ (bin_str_to_byte_lt _), v3_chunk_byte bits hbits off h8,
      List.range_succ_eq_map, List.flatMap_cons, List.flatMap_map]
    congr 1
    apply List.flatMap_congr
    intro j _
    rw [v3_byte_reference_shift]

theorem occurs_at_tail (bits : List Char) (q : Nat)
    (h : occurs_at "11110101".toList bits q) : occurs_at "0101".toList bits (q + 4) := by
  unfold occurs_at at h ⊢
  obtain ⟨t, ht⟩ := h
  rw [← List.drop_drop, ← ht]
  exact ⟨t, rfl⟩

theorem v3_start_exists (bits : List Char) (q : Nat)
    (hq : strstr bits "11110101".toList = some q) :
    ∃ start, strstr bits "0101".toList = some start ∧ start ≤ q + 4 := by
  have ho := occurs_at_tail bits q (strstr_some_first _ _ q hq).1
  cases hs : strstr bits "0101".toList with
  | none => exact absurd ho (strstr_none_no_occurrence _ _ hs (q + 4))
  | some start =>
    refine ⟨start, rfl, ?_⟩
    by_contra hlt
    exact (strstr_some_first _ _ start hs).2 (q + 4) (by omega) ho

theorem decode_oregon_v3_cases (bits : List Char) (hbits : is_bit_string bits) (q start : Nat)
    (hq : strstr bits "11110101".toList = some q)
    (hs : strstr bits "0101".toList = some start) :
    ((bits.length - start) / 8 = 0 → decode_oregon_v3 bits = CResult.null) ∧
    (1 ≤ (bits.length - start) / 8 → (bits.length - start) / 8 ≤ 31 →
      decode_oregon_v3 bits = CResult.str (canonical_reference
        ((List.range ((bits.length - start) / 8)).map (v3_byte_reference bits start)))) ∧
    (1 ≤ (bits.length - start) / 8 → decode_oregon_v3 bits ≠ CResult.null) := by
  have hfuel : (bits.length - start) / 8 ≤ bits.length := by omega
  have hhex := v3_hex_eq bits hbits _ start bits.length rfl hfuel
  have hhl : (v3_loop bits.length (bits.drop start)).length
      = 2 * ((bits.length - start) / 8) := by
    rw [hhex, hex2_flatMap_length, List.length_range]
  unfold decode_oregon_v3
  rw [hq, hs]
  simp only
  refine ⟨fun h0 => ?_, fun h1 h31 => ?_, fun h1 => ?_⟩
  · rw [if_neg (by rw [hhl]; omega), if_pos (by rw [hhl]; omega)]
  · rw [if_neg (by rw [hhl]; omega), if_neg (by rw [hhl]; omega), hhl,
      canonical_reference_range, ← hhex]
    have e : 2 * ((bits.length - start) / 8) * 4 = 8 * ((bits.length - start) / 8) := by omega
    rw [e, fmt_02X_byte _ (by omega)]
  · split_ifs with ha hb
    · intro hc
      cases hc
    · rw [hhl] at hb
      omega
    · intro hc
      cases hc

theorem sum_bits_bit (v : Nat → Nat) (hv : ∀ k, v k ≤ 1) (i : Nat) (hi : i < 8) :
    ((List.range 8).map (fun k => v k * 2 ^ k)).sum / 2 ^ i % 2 = v i := by
  rw [range8_sum]
  have h0 := hv 0
  have h1 := hv 1
  have h2 := hv 2
  have h3 := hv 3
  have h4 := hv 4
  have h5 := hv 5
  have h6 := hv 6
  have h7 := hv 7
  interval_cases i <;> norm_num <;> omega

theorem v2_byte_reference_bit (bits : List Char) (pos j i : Nat) (hi : i < 8) :
    v2_byte_reference bits pos j / 2 ^ i % 2 = bit_at bits (pos + 16 * j + 2 * i + 1) :=
  sum_bits_bit (fun k => bit_at bits (pos + 16 * j + 2 * k + 1)) (fun _ => bit_at_le bits _) i hi

theorem v3_byte_reference_bit (bits : List Char) (start j i : Nat) (hi : i < 8) :
    v3_byte_reference bits start j / 2 ^ i % 2 = bit_at bits (start + 8 * j + i) :=
  sum_bits_bit (fun k => bit_at bits (start + 8 * j + k)) (fun _ => bit_at_le bits _) i hi

/-- C13: for every bit string, with pos the index of the first occurrence of
"10011001" and n = (len - pos) / 16: `decode_oregon_v2` returns `NULL` exactly when
there is no occurrence or n = 0; for 1 ≤ n ≤ 31 it returns the canonical string of
exactly n payload bytes (two hex digits for 8 * n, two per byte), where bit i (bit 0
the least significant) of byte j is the input bit at index pos + 16 * j + 2 * i + 1;
what is left after the last whole 16-bit chunk is not used. -/
theorem C13_v2_decoder_reference (bits : List Char) (hbits : is_bit_string bits) :
    (decode_oregon_v2 bits = CResult.null ↔
      (strstr bits "10011001".toList = none ∨
        ∃ pos, strstr bits "10011001".toList = some pos ∧ (bits.length - pos) / 16 = 0)) ∧
    (strstr bits "10011001".toList = none → ∀ k, ¬ occurs_at "10011001".toList bits k) ∧
    (∀ pos, strstr bits "10011001".toList = some pos →
      first_occurrence "10011001".toList bits pos ∧
      (1 ≤ (bits.length - pos) / 16 → (bits.length - pos) / 16 ≤ 31 →
        decode_oregon_v2 bits = CResult.str (canonical_reference
          ((List.range ((bits.length - pos) / 16)).map (v2_byte_reference bits pos))) ∧
        ((List.range ((bits.length - pos) / 16)).map (v2_byte_reference bits pos)).length
          = (bits.length - pos) / 16) ∧
      (∀ j i, i < 8 →
        v2_byte_reference bits pos j / 2 ^ i % 2 = bit_at bits (pos + 16 * j + 2 * i + 1)) ∧
      (∀ j, v2_byte_reference bits pos j < 256)) := by
  refine ⟨?_, strstr_none_no_occurrence bits _, ?_⟩
  · cases hs : strstr bits "10011001".toList with
    | none =>
      constructor
      · intro _
        left
        rfl
      · intro _
        unfold decode_oregon_v2
        rw [hs]
    | some pos =>
      obtain ⟨h0, h1, h32⟩ := decode_oregon_v2_cases bits hbits pos hs
      constructor
      · intro hnull
        right
        refine ⟨pos, rfl, ?_⟩
        by_contra hn
        have hlen := strstr_some_lt bits _ (by decide) pos hs
        exact decode_oregon_v2_not_null bits pos hs (by omega) hnull
      · rintro (hc | ⟨p2, hp2, hn⟩)
        · cases hc
        · injection hp2 with hp2
          subst hp2
          exact h0 hn
  · intro pos hs
    obtain ⟨_, h1, _⟩ := decode_oregon_v2_cases bits hbits pos hs
    refine ⟨strstr_some_first bits _ pos hs, ?_, ?_, ?_⟩
    · intro hn1 hn31
      refine ⟨h1 hn1 hn31, ?_⟩
      rw [List.length_map, List.length_range]
    · intro j i hi
      exact v2_byte_reference_bit bits pos j i hi
    · intro j
      exact v2_byte_reference_lt bits pos j

/-- C13 witness: in "0100110011010101011" the preamble starts at index 1 and 18
characters follow from there, so n = 1 and two characters are left over; the odd
bits of the chunk, last first, are 00001010, and the output is "080A". -/
theorem C13_v2_decoder_reference_witness :
    is_bit_string "0100110011010101011".toList ∧
    strstr "0100110011010101011".toList "10011001".toList = some 1 ∧
    ("0100110011010101011".toList.length - 1) / 16 = 1 ∧
    canonical_reference ((List.range 1).map (v2_byte_reference "0100110011010101011".toList 1))
      = "080A".toList ∧
    decode_oregon_v2 "0100110011010101011".toList = CResult.str (canonical_reference
      ((List.range (("0100110011010101011".toList.length - 1) / 16)).map
        (v2_byte_reference "0100110011010101011".toList 1))) :=
  ⟨(by unfold is_bit_string; decide), by decide, by decide, by decide,
    (((C13_v2_decoder_reference "0100110011010101011".toList
      (by unfold is_bit_string; decide)).2.2 1
      (by decide)).2.1 (by decide) (by decide)).1⟩

/-- C14: for every bit string, `decode_oregon_v3` returns `NULL` if "11110101" does not
occur; if it occurs, "0101" occurs too, and with start the index of its first
occurrence and n = (len - start) / 8 the decoder returns `NULL` exactly when n = 0
and for 1 ≤ n ≤ 31 the canonical string of exactly n payload bytes, where bit i
(bit 0 the least significant) of byte j is the input bit at index start + 8 * j + i:
each 8-bit group reversed end to end. -/
theorem C14_v3_decoder_reference (bits : List Char) (hbits : is_bit_string bits) :
    (strstr bits "11110101".toList = none → decode_oregon_v3 bits = CResult.null) ∧
    (∀ q, strstr bits "11110101".toList = some q →
      ∃ start, strstr bits "0101".toList = some start ∧
        first_occurrence "0101".toList bits start ∧ start ≤ q + 4 ∧
        (decode_oregon_v3 bits = CResult.null ↔ (bits.length - start) / 8 = 0) ∧
        (1 ≤ (bits.length - start) / 8 → (bits.length - start) / 8 ≤ 31 →
          decode_oregon_v3 bits = CResult.str (canonical_reference
            ((List.range ((bits.length - start) / 8)).map (v3_byte_reference bits start))) ∧
          ((List.range ((bits.length - start) / 8)).map (v3_byte_reference bits start)).length
            = (bits.length - start) / 8) ∧
        (∀ j i, i < 8 →
          v3_byte_reference bits start j / 2 ^ i % 2 = bit_at bits (start + 8 * j + i)) ∧
        (∀ j, v3_byte_reference bits start j < 256)) := by
  constructor
  · intro hn
    unfold decode_oregon_v3
    rw [hn]
  · intro q hq
    obtain ⟨start, hs, hle⟩ := v3_start_exists bits q hq
    obtain ⟨h0, h1, hne⟩ := decode_oregon_v3_cases bits hbits q start hq hs
    refine ⟨start, hs, strstr_some_first bits _ start hs, hle, ?_, ?_, ?_, ?_⟩
    · constructor
      · intro hnull
        by_contra hn
        exact hne (by omega) hnull
      · exact h0
    · intro hn1 hn31
      refine ⟨h1 hn1 hn31, ?_⟩
      rw [List.length_map, List.length_range]
    · intro j i hi
      exact v3_byte_reference_bit bits start j i hi
    · intro j
      exact v3_byte_reference_lt bits start j

/-- C14 witness: in "111101011100000011" the preamble is at index 0 and the first
"0101" at index 4; 14 characters follow from there, so n = 1; the group "01011100"
reversed is 00111010, and the output is "083A". The bare preamble "11110101" has
n = 0 and gives `NULL`. -/
theorem C14_v3_decoder_reference_witness :
    is_bit_string "111101011100000011".toList ∧
    strstr "111101011100000011".toList "11110101".toList = some 0 ∧
    strstr "111101011100000011".toList "0101".toList = some 4 ∧
    decode_oregon_v3 "111101011100000011".toList = CResult.str "083A".toList ∧
    decode_oregon_v3 "11110101".toList = CResult.null ∧
    ∃ start, strstr "111101011100000011".toList "0101".toList = some start ∧
      (decode_oregon_v3 "111101011100000011".toList = CResult.null ↔
        ("111101011100000011".toList.length - start) / 8 = 0) := by
  obtain ⟨start, hs, _, _, hnull, _⟩ :=
    (C14_v3_decoder_reference "111101011100000011".toList
      (by unfold is_bit_string; decide)).2 0 (by decide)
  exact ⟨(by unfold is_bit_string; decide), by decide, by decide, by decide, by decide, start, hs, hnull⟩

theorem occurs_at_getD (needle bits : List Char) (pos : Nat) (h : occurs_at needle bits pos)
    (k : Nat) (hk : k < needle.length) :
    bits.getD (pos + k) '0' = needle.getD k '0' := by
  unfold occurs_at at h
  obtain ⟨t, ht⟩ := h
  rw [← getD_drop, ← ht, List.getD_append _ _ _ _ hk]

theorem v2_first_byte_low (bits : List Char) (pos : Nat)
    (h : occurs_at "10011001".toList bits pos) :
    low_nibble (v2_byte_reference bits pos 0) = 0xA := by
  have g1 : bits.getD (pos + 1) '0' = '0' := occurs_at_getD _ bits pos h 1 (by decide)
  have g3 : bits.getD (pos + 3) '0' = '1' := occurs_at_getD _ bits pos h 3 (by decide)
  have g5 : bits.getD (pos + 5) '0' = '0' := occurs_at_getD _ bits pos h 5 (by decide)
  have g7 : bits.getD (pos + 7) '0' = '1' := occurs_at_getD _ bits pos h 7 (by decide)
  have b1 : bit_at bits (pos + 1) = 0 := by
    unfold bit_at
    rw [g1]
    rfl
  have b3 : bit_at bits (pos + 3) = 1 := by
    unfold bit_at
    rw [g3]
    rfl
  have b5 : bit_at bits (pos + 5) = 0 := by
    unfold bit_at
    rw [g5]
    rfl
  have b7 : bit_at bits (pos + 7) = 1 := by
    unfold bit_at
    rw [g7]
    rfl
  unfold low_nibble v2_byte_reference
  rw [range8_sum]
  have e0 : pos + 16 * 0 + 2 * 0 + 1 = pos + 1 := by omega
  have e1 : pos + 16 * 0 + 2 * 1 + 1 = pos + 3 := by omega
  have e2 : pos + 16 * 0 + 2 * 2 + 1 = pos + 5 := by omega
  have e3 : pos + 16 * 0 + 2 * 3 + 1 = pos + 7 := by omega
  rw [e0, e1, e2, e3, b1, b3, b5, b7]
  norm_num
  omega

theorem v3_first_byte_low (bits : List Char) (start : Nat)
    (h : occurs_at "0101".toList bits start) :
    low_nibble (v3_byte_reference bits start 0) = 0xA := by
  have g0 : bits.getD (start + 0) '0' = '0' := occurs_at_getD _ bits start h 0 (by decide)
  have g1 : bits.getD (start + 1) '0' = '1' := occurs_at_getD _ bits start h 1 (by decide)
  have g2 : bits.getD (start + 2) '0' = '0' := occurs_at_getD _ bits start h 2 (by decide)
  have g3 : bits.getD (start + 3) '0' = '1' := occurs_at_getD _ bits start h 3 (by decide)
  have b0 : bit_at bits (start + 0) = 0 := by
    unfold bit_at
    rw [g0]
    rfl
  have b1 : bit_at bits (start + 1) = 1 := by
    unfold bit_at
    rw [g1]
    rfl
  have b2 : bit_at bits (start + 2) = 0 := by
    unfold bit_at
    rw [g2]
    rfl
  have b3 : bit_at bits (start + 3) = 1 := by
    unfold bit_at
    rw [g3]
    rfl
  unfold low_nibble v3_byte_reference
  rw [range8_sum]
  have e0 : start + 8 * 0 + 0 = start + 0 := by omega
  have e1 : start + 8 * 0 + 1 = start + 1 := by omega
  have e2 : start + 8 * 0 + 2 = start + 2 := by omega
  have e3 : start + 8 * 0 + 3 = start + 3 := by omega
  rw [e0, e1, e2, e3, b0, b1, b2, b3]
  norm_num
  omega

theorem nibble_bits_bits (v : Nat) : is_bit_string (nibble_bits v) := by
  intro c hc
  unfold nibble_bits at hc
  obtain ⟨b, _, rfl⟩ := List.mem_map.mp hc
  split_ifs
  · right
    rfl
  · left
    rfl

theorem hex_char_to_bin_bits (c : Char) (bin : List Char) (h : hex_char_to_bin c = some bin) :
    is_bit_string bin := by
  rw [hex_char_to_bin_eq] at h
  cases hv : hex_digit_val c with
  | none =>
    rw [hv] at h
    cases h
  | some v =>
    rw [hv] at h
    injection h with h
    subst h
    exact nibble_bits_bits v

theorem raw_hex_to_bit_string_bits :
    ∀ (hex bits : List Char), raw_hex_to_bit_string hex = some bits → is_bit_string bits := by
  intro hex
  induction hex with
  | nil =>
    intro bits h
    unfold raw_hex_to_bit_string at h
    injection h with h
    subst h
    intro c hc
    cases hc
  | cons c cs ih =>
    intro bits h
    rw [raw_hex_to_bit_string] at h
    cases hb : hex_char_to_bin c with
    | none =>
      rw [hb] at h
      cases h
    | some bin =>
      rw [hb] at h
      cases hr : raw_hex_to_bit_string cs with
      | none =>
        rw [hr] at h
        cases h
      | some rest =>
        rw [hr] at h
        injection h with h
        subst h
        intro x hx
        rcases List.mem_append.mp hx with hx | hx
        · exact hex_char_to_bin_bits c bin hb x hx
        · exact ih rest hr x hx

theorem decode_oregon_v2_str (bits : List Char) (hbits : is_bit_string bits) (out : List Char)
    (h : decode_oregon_v2 bits = CResult.str out) :
    ∃ pos, strstr bits "10011001".toList = some pos ∧
      1 ≤ (bits.length - pos) / 16 ∧ (bits.length - pos) / 16 ≤ 31 ∧
      out = canonical_reference
        ((List.range ((bits.length - pos) / 16)).map (v2_byte_reference bits pos)) := by
  cases hs : strstr bits "10011001".toList with
  | none =>
    unfold decode_oregon_v2 at h
    rw [hs] at h
    cases h
  | some pos =>
    obtain ⟨h0, h1, h32⟩ := decode_oregon_v2_cases bits hbits pos hs
    have hn1 : 1 ≤ (bits.length - pos) / 16 := by
      by_contra hc
      rw [h0 (by omega)] at h
      cases h
    have hn31 : (bits.length - pos) / 16 ≤ 31 := by
      by_contra hc
      rw [h32 (by omega)] at h
      cases h
    rw [h1 hn1 hn31] at h
    injection h with h
    exact ⟨pos, rfl, hn1, hn31, h.symm⟩

theorem decode_oregon_v3_str (bits : List Char) (hbits : is_bit_string bits) (out : List Char)
    (h : decode_oregon_v3 bits = CResult.str out) :
    ∃ start, strstr bits "0101".toList = some start ∧
      1 ≤ (bits.length - start) / 8 ∧ (bits.length - start) / 8 ≤ 63 ∧
      out = fmt_02X (8 * ((bits.length - start) / 8)) ++
        ((List.range ((bits.length - start) / 8)).map (v3_byte_reference bits start)).flatMap
          hex2_upper := by
  unfold decode_oregon_v3 at h
  cases hq : strstr bits "11110101".toList with
  | none =>
    rw [hq] at h
    cases h
  | some q =>
    rw [hq] at h
    cases hs : strstr bits "0101".toList with
    | none =>
      rw [hs] at h
      cases h
    | some start =>
      rw [hs] at h
      simp only at h
      have hfuel : (bits.length - start) / 8 ≤ bits.length := by omega
      have hhex := v3_hex_eq bits hbits _ start bits.length rfl hfuel
      have hhl : (v3_loop bits.length (bits.drop start)).length
          = 2 * ((bits.length - start) / 8) := by
        rw [hhex, hex2_flatMap_length, List.length_range]
      split_ifs at h with ha hb
      injection h with h
      rw [hhl] at ha hb h
      refine ⟨start, rfl, by omega, by omega, ?_⟩
      have e : 2 * ((bits.length - start) / 8) * 4 = 8 * ((bits.length - start) / 8) := by
        omega
      rw [← h, e, hhex, List.flatMap_map]

theorem fmt_02X_three : ∀ n, n < 64 → 32 ≤ n → (fmt_02X (8 * n)).length = 3 := by
  decide

theorem sync_output (f : Nat → Nat) (n : Nat) (h1 : 1 ≤ n) (h63 : n ≤ 63)
    (hf : low_nibble (f 0) = 0xA) :
    (n ≤ 31 →
      (fmt_02X (8 * n) ++ ((List.range n).map f).flatMap hex2_upper).get? 3 = some 'A' ∧
      (fmt_02X (8 * n) ++ ((List.range n).map f).flatMap hex2_upper).length = 2 + 2 * n) ∧
    (32 ≤ n →
      (fmt_02X (8 * n) ++ ((List.range n).map f).flatMap hex2_upper).get? 4 = some 'A' ∧
      (fmt_02X (8 * n) ++ ((List.range n).map f).flatMap hex2_upper).length = 3 + 2 * n) := by
  obtain ⟨m, rfl⟩ : ∃ m, n = m + 1 := ⟨n - 1, by omega⟩
  have hl : (((List.range (m + 1)).map f).flatMap hex2_upper).length = 2 * (m + 1) := by
    rw [List.flatMap_map, hex2_flatMap_length, List.length_range]
  have hd : hex_digit_upper (f 0 % 16) = 'A' := by
    unfold low_nibble at hf
    rw [hf]
    rfl
  have hc : ((List.range (m + 1)).map f).flatMap hex2_upper
      = hex_digit_upper (f 0 / 16) :: 'A' ::
          ((List.range m).map (fun j => f (j + 1))).flatMap hex2_upper := by
    rw [List.range_succ_eq_map, List.map_cons, List.flatMap_cons, List.map_map]
    unfold hex2_upper
    rw [hd]
    rfl
  constructor
  · intro h31
    refine ⟨?_, ?_⟩
    · rw [fmt_02X_byte _ (by omega), hc]
      rfl
    · rw [List.length_append, hl, fmt_02X_byte _ (by omega)]
      rfl
  · intro h32
    have h3 := fmt_02X_three (m + 1) (by omega) h32
    obtain ⟨a, b, c, habc⟩ := List.length_eq_three.mp h3
    refine ⟨?_, ?_⟩
    · rw [habc, hc]
      rfl
    · rw [List.length_append, hl, h3]

theorem preprocess_str_cases (cul_msg out : List Char)
    (h : preprocess_cul_message cul_msg = CResult.str out) :
    ∃ bits, is_bit_string bits ∧
      (decode_oregon_v2 bits = CResult.str out ∨ decode_oregon_v3 bits = CResult.str out) := by
  unfold preprocess_cul_message at h
  by_cases hf : cul_msg.take 2 ≠ "om".toList ∨ cul_msg.length < 4
  · rw [preprocess_with_bad_framing _ _ _ _ hf] at h
    cases h
  · have h1 : cul_msg.take 2 = "om".toList := by
      by_contra hc
      exact hf (Or.inl hc)
    have h2 : 4 ≤ cul_msg.length := by
      by_contra hc
      exact hf (Or.inr (by omega))
    cases hc : raw_hex_to_bit_string (cul_msg.drop 2) with
    | none =>
      rw [preprocess_with_framed _ _ _ _ h1 h2, hc] at h
      cases h
    | some bits =>
      refine ⟨bits, raw_hex_to_bit_string_bits _ bits hc, ?_⟩
      by_cases hv : decode_oregon_v2 bits = CResult.null
      · rw [preprocess_with_v3 _ _ _ _ bits h1 h2 hc hv] at h
        exact Or.inr h
      · rw [preprocess_with_v2 _ _ _ _ bits h1 h2 hc hv] at h
        exact Or.inl h

theorem range_map_head (f : Nat → Nat) (n : Nat) (h1 : 1 ≤ n) :
    ((List.range n).map f).headD 0 = f 0 ∧ (List.range n).map f ≠ [] := by
  obtain ⟨m, rfl⟩ : ∃ m, n = m + 1 := ⟨n - 1, by omega⟩
  rw [List.range_succ_eq_map]
  exact ⟨rfl, by simp⟩

/-- C21: for every bit string on which `decode_oregon_v2` succeeds, and for every bit
string on which `decode_oregon_v3` succeeds, the first decoded payload byte has low
nibble 0xA: the first chunk starts on the preamble "10011001", respectively on the
marker "0101", itself. Hence every string `preprocess_cul_message` returns for at
most 31 payload bytes (at most 64 characters) has "A" as its fourth character; with
32 to 63 bytes, which only the V3 decoder returns, the "A" is the fifth. The type
ids of the registry all have 0xA as the low nibble of their first byte. -/
theorem C21_sync_nibble (bits : List Char) (hbits : is_bit_string bits) :
    (∀ out, decode_oregon_v2 bits = CResult.str out →
      ∃ pos, strstr bits "10011001".toList = some pos ∧
        1 ≤ (bits.length - pos) / 16 ∧ (bits.length - pos) / 16 ≤ 31 ∧
        out = canonical_reference
          ((List.range ((bits.length - pos) / 16)).map (v2_byte_reference bits pos)) ∧
        bin_str_to_byte (manchester_chunk ((bits.drop pos).take 16))
          = v2_byte_reference bits pos 0 ∧
        low_nibble (v2_byte_reference bits pos 0) = 0xA ∧
        out.get? 3 = some 'A') ∧
    (∀ out, decode_oregon_v3 bits = CResult.str out →
      ∃ start, strstr bits "0101".toList = some start ∧
        1 ≤ (bits.length - start) / 8 ∧ (bits.length - start) / 8 ≤ 63 ∧
        out = fmt_02X (8 * ((bits.length - start) / 8)) ++
          ((List.range ((bits.length - start) / 8)).map
            (v3_byte_reference bits start)).flatMap hex2_upper ∧
        bin_str_to_byte ((bits.drop start).take 8).reverse = v3_byte_reference bits start 0 ∧
        low_nibble (v3_byte_reference bits start 0) = 0xA ∧
        ((bits.length - start) / 8 ≤ 31 → out.get? 3 = some 'A') ∧
        (32 ≤ (bits.length - start) / 8 → out.get? 4 = some 'A')) ∧
    (∀ cul_msg out, preprocess_cul_message cul_msg = CResult.str out →
      (out.length ≤ 2 + 2 * 31 → out.get? 3 = some 'A') ∧
      ∃ payload : List Nat, payload ≠ [] ∧ (∀ x ∈ payload, x < 256) ∧
        out = fmt_02X (8 * payload.length) ++ payload.flatMap hex2_upper ∧
        low_nibble (payload.headD 0) = 0xA ∧
        (payload.length ≤ 31 ↔ out.length ≤ 2 + 2 * 31) ∧
        (payload.length ≤ 31 → out.get? 3 = some 'A')) ∧
    (∀ row ∈ SENSOR_TYPES, low_nibble (row.key / 2 ^ 24) = 0xA) := by
  have hv2 : ∀ (bs : List Char), is_bit_string bs → ∀ out,
      decode_oregon_v2 bs = CResult.str out →
      ∃ pos, strstr bs "10011001".toList = some pos ∧
        1 ≤ (bs.length - pos) / 16 ∧ (bs.length - pos) / 16 ≤ 31 ∧
        out = fmt_02X (8 * ((bs.length - pos) / 16)) ++
          ((List.range ((bs.length - pos) / 16)).map
            (v2_byte_reference bs pos)).flatMap hex2_upper ∧
        out = canonical_reference
          ((List.range ((bs.length - pos) / 16)).map (v2_byte_reference bs pos)) ∧
        bin_str_to_byte (manchester_chunk ((bs.drop pos).take 16))
          = v2_byte_reference bs pos 0 ∧
        low_nibble (v2_byte_reference bs pos 0) = 0xA := by
    intro bs hbs out h
    obtain ⟨pos, hs, hn1, hn31, ho⟩ := decode_oregon_v2_str bs hbs out h
    refine ⟨pos, hs, hn1, hn31, ?_, ho, v2_chunk_byte bs hbs pos,
      v2_first_byte_low bs pos (strstr_some_first _ _ pos hs).1⟩
    rw [ho]
    unfold canonical_reference
    rw [List.length_map, List.length_range, fmt_02X_byte _ (by omega)]
  have hv3 : ∀ (bs : List Char), is_bit_string bs → ∀ out,
      decode_oregon_v3 bs = CResult.str out →
      ∃ start, strstr bs "0101".toList = some start ∧
        1 ≤ (bs.length - start) / 8 ∧ (bs.length - start) / 8 ≤ 63 ∧
        out = fmt_02X (8 * ((bs.length - start) / 8)) ++
          ((List.range ((bs.length - start) / 8)).map
            (v3_byte_reference bs start)).flatMap hex2_upper ∧
        bin_str_to_byte ((bs.drop start).take 8).reverse = v3_byte_reference bs start 0 ∧
        low_nibble (v3_byte_reference bs start 0) = 0xA := by
    intro bs hbs out h
    obtain ⟨start, hs, hn1, hn63, ho⟩ := decode_oregon_v3_str bs hbs out h
    refine ⟨start, hs, hn1, hn63, ho, v3_chunk_byte bs hbs start ?_,
      v3_first_byte_low bs start (strstr_some_first _ _ start hs).1⟩
    rw [List.length_drop]
    omega
  have hshape : ∀ (f : Nat → Nat) (n : Nat) (out : List Char), 1 ≤ n → n ≤ 63 →
      (∀ j, f j < 256) → low_nibble (f 0) = 0xA →
      out = fmt_02X (8 * n) ++ ((List.range n).map f).flatMap hex2_upper →
      (out.length ≤ 2 + 2 * 31 → out.get? 3 = some 'A') ∧
      ∃ payload : List Nat, payload ≠ [] ∧ (∀ x ∈ payload, x < 256) ∧
        out = fmt_02X (8 * payload.length) ++ payload.flatMap hex2_upper ∧
        low_nibble (payload.headD 0) = 0xA ∧
        (payload.length ≤ 31 ↔ out.length ≤ 2 + 2 * 31) ∧
        (payload.length ≤ 31 → out.get? 3 = some 'A') := by
    intro f n out hn1 hn63 hlt hlow ho
    obtain ⟨hs31, hs32⟩ := sync_output f n hn1 hn63 hlow
    rw [← ho] at hs31 hs32
    have hiff : n ≤ 31 ↔ out.length ≤ 2 + 2 * 31 := by
      constructor
      · intro h31
        rw [(hs31 h31).2]
        omega
      · intro hl
        by_contra hc
        rw [(hs32 (by omega)).2] at hl
        omega
    refine ⟨fun hl => (hs31 (hiff.mpr hl)).1, (List.range n).map f,
      (range_map_head f n hn1).2, ?_, ?_, ?_, ?_, ?_⟩
    · intro x hx
      obtain ⟨j, _, rfl⟩ := List.mem_map.mp hx
      exact hlt j
    · rw [List.length_map, List.length_range]
      exact ho
    · rw [(range_map_head f n hn1).1]
      exact hlow
    · rw [List.length_map, List.length_range]
      exact hiff
    · rw [List.length_map, List.length_range]
      intro h31
      exact (hs31 h31).1
  refine ⟨?_, ?_, ?_, ?_⟩
  · intro out h
    obtain ⟨pos, hs, hn1, hn31, hf, hc, hb, hl⟩ := hv2 bits hbits out h
    refine ⟨pos, hs, hn1, hn31, hc, hb, hl, ?_⟩
    rw [hf]
    exact ((sync_output _ _ hn1 (by omega) hl).1 hn31).1
  · intro out h
    obtain ⟨start, hs, hn1, hn63, hf, hb, hl⟩ := hv3 bits hbits out h
    refine ⟨start, hs, hn1, hn63, hf, hb, hl, ?_, ?_⟩
    · intro h31
      rw [hf]
      exact ((sync_output _ _ hn1 hn63 hl).1 h31).1
    · intro h32
      rw [hf]
      exact ((sync_output _ _ hn1 hn63 hl).2 h32).1
  · intro cul_msg out h
    obtain ⟨bs, hbs, h2 | h3⟩ := preprocess_str_cases cul_msg out h
    · obtain ⟨pos, _, hn1, hn31, hf, _, _, hl⟩ := hv2 bs hbs out h2
      exact hshape _ _ out hn1 (by omega) (v2_byte_reference_lt bs pos) hl hf
    · obtain ⟨start, _, hn1, hn63, hf, _, hl⟩ := hv3 bs hbs out h3
      exact hshape _ _ out hn1 hn63 (v3_byte_reference_lt bs start) hl hf
  · intro row hrow
    unfold SENSOR_TYPES at hrow
    simp only [List.mem_cons, List.mem_singleton, List.not_mem_nil, or_false] at hrow
    rcases hrow with rfl | rfl | rfl | rfl | rfl | rfl | rfl | rfl | rfl | rfl <;> decide

/-- C21 witness: on "0100110011010101011" the V2 decoder returns "080A" and on
"111101011100000011" the V3 decoder returns "083A"; the preprocessor returns
"481A2D10F40023304400" for the message of scenario 1: each has "A" as its fourth
character. -/
theorem C21_sync_nibble_witness :
    is_bit_string "0100110011010101011".toList ∧
    decode_oregon_v2 "0100110011010101011".toList = CResult.str "080A".toList ∧
    "080A".toList.get? 3 = some 'A' ∧
    decode_oregon_v3 "111101011100000011".toList = CResult.str "083A".toList ∧
    "083A".toList.get? 3 = some 'A' ∧
    preprocess_cul_message scenario1_msg = CResult.str scenario1_hex ∧
    scenario1_hex.get? 3 = some 'A' := by
  have hb2 : is_bit_string "0100110011010101011".toList := by
    unfold is_bit_string
    decide
  have hb3 : is_bit_string "111101011100000011".toList := by
    unfold is_bit_string
    decide
  have h2 : decode_oregon_v2 "0100110011010101011".toList = CResult.str "080A".toList := by
    decide
  have h3 : decode_oregon_v3 "111101011100000011".toList = CResult.str "083A".toList := by
    decide
  obtain ⟨_, _, _, _, _, _, _, g2⟩ := (C21_sync_nibble _ hb2).1 _ h2
  obtain ⟨start, hs, _, _, _, _, _, g3, _⟩ := (C21_sync_nibble _ hb3).2.1 _ h3
  have e : start = 4 := by
    have h4 : strstr "111101011100000011".toList "0101".toList = some 4 := by decide
    rw [h4] at hs
    injection hs with hs
    exact hs.symm
  subst e
  exact ⟨hb2, h2, g2, h3, g3 (by decide), scenario1_preprocess_eq,
    ((C21_sync_nibble _ hb2).2.2.1 _ _ scenario1_preprocess_eq).1 (by decide)⟩

theorem long_v3_sync_position :
    ∃ out, preprocess_cul_message long_v3_msg = CResult.str out ∧ out.length = 3 + 2 * 32 ∧
      out.get? 3 = some '0' ∧ out.get? 4 = some 'A' :=
  ⟨"100".toList ++ "0A".toList ++ List.replicate 62 '0', by decide, by decide, by decide,
    by decide⟩

theorem nibble_sum_reference_le (b : Nat → Nat) (hb : ∀ i, b i < 256) (n : Nat) :
    0 ≤ nibble_sum_reference b n ∧ nibble_sum_reference b n ≤ 30 * (n : Int) := by
  induction n with
  | zero => exact ⟨le_refl _, le_refl _⟩
  | succ k ih =>
    rw [nibble_sum_reference_succ]
    have h := hb k
    have h1 : high_nibble (b k) < 16 := high_nibble_lt _ h
    have h2 : low_nibble (b k) < 16 := by
      unfold low_nibble
      omega
    push_cast
    omega

theorem checksum1_iff_six (b : Nat → Nat) (hb : ∀ i, b i < 256) :
    checksum1 b = true ↔ nibble_sum_reference b 6 = 0xA + 16 * (low_nibble (b 7) : Int) := by
  rw [checksum1_iff b hb]
  unfold checksum1_sum_reference checksum1_byte_reference
  have hs := nibble_sum_reference_le b hb 6
  have h6 : high_nibble (b 6) < 16 := high_nibble_lt _ (hb 6)
  have h7 : low_nibble (b 7) < 16 := by
    unfold low_nibble
    omega
  rw [Nat.shiftLeft_eq]
  simp only [Int.ofNat_eq_coe]
  push_cast
  omega

/-- C22: for every payload of bytes, `checksum1` passes exactly when the nibble sum
of payload[0..5] equals 0xA + 16 * low-nibble(payload[7]); so its verdict is the
same for any two payloads that differ only in payload[6], although the high nibble
of payload[6] is part of the 6.5 bytes that `nibble_sum` adds up. -/
theorem C22_checksum1_ignores_byte6 (b : Nat → Nat) (hb : ∀ i, b i < 256) :
    (checksum1 b = true ↔
      nibble_sum_reference b 6 = 0xA + 16 * (low_nibble (b 7) : Int)) ∧
    (checksum1 b = true ↔ nibble_sum b 6 = 0xA + 16 * (LO_NIBBLE (b 7) : Int)) ∧
    nibble_sum b 6.5 = nibble_sum_reference b 6 + (high_nibble (b 6) : Int) ∧
    (∀ b2 : Nat → Nat, (∀ i, b2 i < 256) → (∀ i, i ≠ 6 → b2 i = b i) →
      checksum1 b2 = checksum1 b) ∧
    (∀ v, v < 256 → checksum1 (Function.update b 6 v) = checksum1 b) ∧
    (∀ k, k < 8 → checksum1 (flip_bit b 6 k) = checksum1 b) := by
  have hsix := checksum1_iff_six b hb
  have hcongr : ∀ b2 : Nat → Nat, (∀ i, b2 i < 256) → (∀ i, i ≠ 6 → b2 i = b i) →
      checksum1 b2 = checksum1 b := by
    intro b2 hb2 hsame
    rw [Bool.eq_iff_iff, checksum1_iff_six b2 hb2, hsix,
      nibble_sum_reference_congr b2 b 6 (fun i hi => hsame i (by omega)),
      hsame 7 (by omega)]
  refine ⟨hsix, ?_, ?_, hcongr, ?_, ?_⟩
  · have e : nibble_sum b 6 = nibble_sum_reference b 6 := by
      have := nibble_sum_nat b hb 6
      exact_mod_cast this
    rw [e, LO_NIBBLE_eq]
    exact hsix
  · rw [nibble_sum_six_half, nibble_sum_loop_eq b hb, HI_NIBBLE_eq _ (hb 6)]
  · intro v hv
    apply hcongr
    · intro i
      by_cases hi : i = 6
      · rw [hi, Function.update_same]
        exact hv
      · rw [Function.update_noteq hi]
        exact hb i
    · intro i hi
      exact Function.update_noteq hi v b
  · intro k hk
    apply hcongr
    · exact flip_bit_lt b hb 6 k hk
    · intro i hi
      unfold flip_bit
      rw [if_neg hi]

/-- C22 witness: the payload EA 4C 20 00 00 00 00 02 has nibble sum 42 = 0xA + 16 * 2
over payload[0..5] and low-nibble(payload[7]) = 2, so `checksum1` passes; it passes
as well with payload[6] = 0xF7 in place of 0x00. -/
theorem C22_checksum1_ignores_byte6_witness :
    (∀ i, thn132n_payload i < 256) ∧
    checksum1 thn132n_payload = true ∧
    checksum1 (Function.update thn132n_payload 6 0xF7) = true :=
  ⟨fun i => getD_lt _ (by decide) i 0 (by decide),
    (C22_checksum1_ignores_byte6 thn132n_payload
      (fun i => getD_lt _ (by decide) i 0 (by decide))).1.mpr (by decide),
    ((C22_checksum1_ignores_byte6 thn132n_payload
      (fun i => getD_lt _ (by decide) i 0 (by decide))).2.2.2.2.1 0xF7 (by decide)).trans
      ((C22_checksum1_ignores_byte6 thn132n_payload
        (fun i => getD_lt _ (by decide) i 0 (by decide))).1.mpr (by decide))⟩

end Oregon
